import Mathlib

/-!
# PingPongOS (projeto A/B): priority scheduler and disk request scheduler

Shallow embedding of `src/ppos-core-aux.c`, `src/ppos-data.h` and
`src/ppos_disk.c`.

* C `int` values are `Int`. The block subtractions of the disk schedulers and
  the updates of the signed counters (`quantum`, `requests_processed`,
  `total_head_movements`) are reduced to 32 bits by `wrapInt`: signed overflow
  is undefined in C and the model takes the two's-complement result of the
  compiled code. `unsigned int` values are `Nat`, reduced modulo 2^32 by
  `uadd32` and `usub32` where the code computes with them.
* Task control blocks live in a heap `Nat → task_t`; a `task_t*` is an address
  (`Nat`), a possibly-NULL pointer is an `Option Nat`.
* A circular queue is the list of its nodes in `next` order, starting at the
  node the queue variable points to; the empty list is the NULL queue.
-/

namespace PingPongOS

/-! ## Definitions: `ppos-data.h` and the globals used by `ppos-core-aux.c` -/

/-- Task control block of `ppos-data.h`. The link, context and life-cycle
fields (`prev`, `next`, `context`, `state`, `queue`, `joinQueue`, `exitCode`,
`awakeTime`, `custom_data`) are never read or written by the embedded
functions; queue membership is carried by the queue lists. -/
structure task_t where
  id : Int
  prio_static : Int
  prio_dynamic : Int
  quantum : Int
  exec_start : Nat
  proc_time : Nat
  last_proc : Nat
  activations : Nat
  running_time : Nat
  user_task : Nat
deriving DecidableEq

/-- Global state read and written by `ppos-core-aux.c`: the task heap, the
ready queue (`readyQueue`), the running task (`taskExec`), the main task
(`taskMain`), the clock (`_systemTime`) and the preemption flag toggled by the
`PPOS_PREEMPT_*` macros. -/
structure Kernel where
  heap : Nat → task_t
  readyQueue : List Nat
  taskExec : Nat
  taskMain : Nat
  systemTime : Nat
  preemption : Bool

def PRIORITY_ALPHA : Int := -1
def PRIORITY_MAX : Int := -20
def PRIORITY_DEF : Int := 0
def PRIORITY_MIN : Int := 20
def QUANTUM_SIZE : Int := 20

/-- Modelled from the spec: the macro `PPOS_PREEMPT_DISABLE` of `ppos.h`
(not among the sources). The Preemption Gate is "a binary enable/disable
switch", "not a counter": disabling clears the flag. -/
def PPOS_PREEMPT_DISABLE (k : Kernel) : Kernel :=
  { k with preemption := false }

/-- Modelled from the spec: the macro `PPOS_PREEMPT_ENABLE` of `ppos.h`
(not among the sources): enabling sets the binary flag. -/
def PPOS_PREEMPT_ENABLE (k : Kernel) : Kernel :=
  { k with preemption := true }

/-- Modelled from the spec: the macro `PPOS_IS_PREEMPT_ACTIVE` of `ppos.h`
(not among the sources): the gate is enabled. -/
def PPOS_IS_PREEMPT_ACTIVE (k : Kernel) : Bool :=
  k.preemption

/-! ## Definitions: the priority scheduler -/

/-- The condition of the selection loop of `scheduler`:
`current->prio_dynamic < better->prio_dynamic ||
 (current->prio_dynamic == better->prio_dynamic && current->id < better->id)`. -/
def isBetter (h : Nat → task_t) (current better : Nat) : Bool :=
  decide ((h current).prio_dynamic < (h better).prio_dynamic) ||
    (decide ((h current).prio_dynamic = (h better).prio_dynamic) &&
      decide ((h current).id < (h better).id))

/-- The first `do … while` of `scheduler`: `current` runs over the nodes still
to visit, `better` is the best node so far. -/
def findBetter (h : Nat → task_t) : List Nat → Nat → Nat
  | [], better => better
  | current :: rest, better =>
      findBetter h rest (if isBetter h current better then current else better)

/-- The body applied to a non-selected task in the aging loop:
`if (prio_dynamic > PRIORITY_MAX) prio_dynamic += PRIORITY_ALPHA;`
`if (prio_dynamic < PRIORITY_MAX) prio_dynamic = PRIORITY_MAX;`. -/
def ageTask (t : task_t) : task_t :=
  let t1 := if t.prio_dynamic > PRIORITY_MAX
    then { t with prio_dynamic := t.prio_dynamic + PRIORITY_ALPHA } else t
  if t1.prio_dynamic < PRIORITY_MAX then { t1 with prio_dynamic := PRIORITY_MAX } else t1

/-- The second `do … while` of `scheduler`: every visited node different from
`better` is aged in place. -/
def agingPass (better : Nat) : List Nat → (Nat → task_t) → (Nat → task_t)
  | [], h => h
  | current :: rest, h =>
      agingPass better rest
        (if current ≠ better then Function.update h current (ageTask (h current)) else h)

/-- The reset `better->prio_dynamic = better->prio_static`. -/
def resetPrio (h : Nat → task_t) (better : Nat) : Nat → task_t :=
  let t := h better
  Function.update h better { t with prio_dynamic := t.prio_static }

/-- The function `scheduler` of `ppos-core-aux.c`, statement by statement: the
selected task (`none` is NULL), the states of the globals inside the function
(after `PPOS_PREEMPT_DISABLE` at entry and, when a user task is selected, after
the aging loop and after the reset; the selection loop assigns only locals),
and the state at the return, after `PPOS_PREEMPT_ENABLE`. -/
def schedulerSteps (k : Kernel) : Option Nat × List Kernel × Kernel :=
  let k0 := PPOS_PREEMPT_DISABLE k
  match k0.readyQueue with
  | [] => (none, [k0], PPOS_PREEMPT_ENABLE k0)
  | head :: rest =>
      let better := findBetter k0.heap (head :: rest) head
      if (k0.heap better).user_task ≠ 0 then
        let k1 := { k0 with heap := agingPass better (head :: rest) k0.heap }
        let k2 := { k1 with heap := resetPrio k1.heap better }
        (some better, [k0, k1, k2], PPOS_PREEMPT_ENABLE k2)
      else (some better, [k0], PPOS_PREEMPT_ENABLE k0)

/-- The function `scheduler` of `ppos-core-aux.c`: returns the selected task
(`none` is NULL) and the state it leaves. -/
def scheduler (k : Kernel) : Option Nat × Kernel :=
  ((schedulerSteps k).1, (schedulerSteps k).2.2)

/-- Repeated calls of `scheduler` on the state left by the previous call. -/
def schedulerIter : Nat → Kernel → Kernel
  | 0, k => k
  | n + 1, k => schedulerIter n (scheduler k).2

/-! ## Definitions: time and priority functions, creation hook -/

/-- The function `systime`. -/
def systime (k : Kernel) : Nat := k.systemTime

/-- The function `task_setprio`; `task = none` is the NULL argument. -/
def task_setprio (k : Kernel) (task : Option Nat) (prio : Int) : Kernel :=
  let task := match task with
    | none => k.taskExec
    | some t => t
  let prio := if prio < PRIORITY_MAX then PRIORITY_MAX else prio
  let prio := if prio > PRIORITY_MIN then PRIORITY_MIN else prio
  let t := k.heap task
  let t := { t with prio_static := prio }
  let t := { t with prio_dynamic := prio }
  { k with heap := Function.update k.heap task t }

/-- The function `task_getprio`; `task = none` is the NULL argument. -/
def task_getprio (k : Kernel) (task : Option Nat) : Int :=
  let task := match task with
    | none => k.taskExec
    | some t => t
  (k.heap task).prio_static

/-- The hook `after_task_create`. -/
def after_task_create (k : Kernel) (task : Nat) : Kernel :=
  let t := k.heap task
  let t := { t with prio_static := PRIORITY_DEF }
  let t := { t with prio_dynamic := PRIORITY_DEF }
  let t := { t with quantum := QUANTUM_SIZE }
  let t := { t with user_task := if t.id > 1 then 1 else 0 }
  let t := { t with exec_start := systime k }
  let t := { t with proc_time := 0 }
  let t := { t with last_proc := 0 }
  let t := { t with activations := 0 }
  let t := { t with running_time := 0 }
  PPOS_PREEMPT_ENABLE { k with heap := Function.update k.heap task t }

/-! ## Definitions: the disk request scheduler of `ppos_disk.c` -/

/-- The constant `INT_MAX` of `limits.h` for a 32-bit `int`. -/
def INT_MAX : Int := 2147483647

/-- Result of a signed 32-bit operation whose exact value is `x`
(two's-complement wrap-around; the identity on the `int` range). -/
def wrapInt (x : Int) : Int := (x + 2147483648) % 4294967296 - 2147483648

/-- The libc function `abs` on a 32-bit `int`. -/
def c_abs (x : Int) : Int := wrapInt (if x < 0 then -x else x)

def SCHEDULER_FCFS : Int := 1
def SCHEDULER_SSTF : Int := 2
def SCHEDULER_CSCAN : Int := 3
def ERROR_INVALID : Int := -1

/-- The type `semaphore_t` of `ppos-data.h`. -/
structure semaphore_t where
  queue : List Nat
  value : Int
  active : Nat
deriving DecidableEq

/-- Modelled from the spec: the type `diskrequest_t` of `ppos_disk.h` (not
among the sources), with the fields `createDiskRequest` fills in: "requesting
task reference, operation kind (read/write), target block number, data buffer
reference". A buffer is an address, 0 being NULL. -/
structure diskrequest_t where
  task : Nat
  operation : Int
  block : Int
  buffer : Nat
deriving DecidableEq

/-- Modelled from the spec: the type `disk_t` of `ppos_disk.h` (not among the
sources), with the fields `disk_mgr_init` fills in: "total block count, block
size, ... busy flag, pending-completion flag, Pending Request Set, set of tasks
blocked awaiting completion". A request pointer is the position of the request
in `requestQueue`. -/
structure disk_t where
  numBlocks : Int
  blockSize : Int
  diskQueue : List Nat
  requestQueue : List diskrequest_t
  livre : Int
  sinal : Int
  semaforo : semaphore_t
  semaforo_queue : semaphore_t
deriving DecidableEq

/-- The type `disk_performance_tracker_t`. -/
structure disk_performance_tracker_t where
  current_head_position : Int
  total_head_movements : Int
  requests_processed : Int
  active_policy : Int
  last_direction : Int
deriving DecidableEq

/-- The type `operation_stats_t`. -/
structure operation_stats_t where
  read_operations : Nat
  write_operations : Nat
  total_seek_distance : Nat
  average_response_time : Nat
deriving DecidableEq

/-- The globals of `ppos_disk.c`: `disk`, `perf_tracker`, `stats` and
`system_shutdown_requested`. -/
structure DiskState where
  disk : disk_t
  perf_tracker : disk_performance_tracker_t
  stats : operation_stats_t
  system_shutdown_requested : Int
deriving DecidableEq

/-- The function `fcfs_scheduler`: the pointer held by `disk.requestQueue`. -/
def fcfs_scheduler (s : DiskState) : Option Nat :=
  match s.disk.requestQueue with
  | [] => none
  | _ :: _ => some 0

/-- The `do … while` of `sstf_scheduler`: `i` is the position of `current`,
the last two arguments are `best_request` and `minimal_distance`. -/
def sstf_loop (head : Int) : List diskrequest_t → Nat → Option Nat → Int → Option Nat
  | [], _, best_request, _ => best_request
  | current :: rest, i, best_request, minimal_distance =>
      let seek_distance := c_abs (wrapInt (current.block - head))
      if seek_distance < minimal_distance then
        sstf_loop head rest (i + 1) (some i) seek_distance
      else
        sstf_loop head rest (i + 1) best_request minimal_distance

/-- The function `sstf_scheduler`. -/
def sstf_scheduler (s : DiskState) : Option Nat :=
  match s.disk.requestQueue with
  | [] => none
  | current :: rest =>
      sstf_loop s.perf_tracker.current_head_position (current :: rest) 0 none INT_MAX

/-- The `do … while` of `cscan_scheduler`: `i` is the position of `current`,
then `forward_candidate`, `wrap_candidate`, `min_forward_distance` and
`min_wrap_distance`; the result is the pair of candidates. -/
def cscan_loop (head : Int) :
    List diskrequest_t → Nat → Option Nat → Option Nat → Int → Int → Option Nat × Option Nat
  | [], _, forward_candidate, wrap_candidate, _, _ => (forward_candidate, wrap_candidate)
  | current :: rest, i, forward_candidate, wrap_candidate,
      min_forward_distance, min_wrap_distance =>
      let block_position := current.block
      if block_position ≥ head then
        let distance := wrapInt (block_position - head)
        if distance < min_forward_distance then
          cscan_loop head rest (i + 1) (some i) wrap_candidate distance min_wrap_distance
        else
          cscan_loop head rest (i + 1) forward_candidate wrap_candidate
            min_forward_distance min_wrap_distance
      else
        if block_position < min_wrap_distance then
          cscan_loop head rest (i + 1) forward_candidate (some i)
            min_forward_distance block_position
        else
          cscan_loop head rest (i + 1) forward_candidate wrap_candidate
            min_forward_distance min_wrap_distance

/-- The function `cscan_scheduler`. -/
def cscan_scheduler (s : DiskState) : Option Nat :=
  match s.disk.requestQueue with
  | [] => none
  | current :: rest =>
      let r := cscan_loop s.perf_tracker.current_head_position (current :: rest) 0
        none none INT_MAX INT_MAX
      match r.1 with
      | some forward_candidate => some forward_candidate
      | none => r.2

/-- The function `disk_scheduler`. -/
def disk_scheduler (s : DiskState) : Option Nat :=
  if s.perf_tracker.active_policy = SCHEDULER_FCFS then fcfs_scheduler s
  else if s.perf_tracker.active_policy = SCHEDULER_SSTF then sstf_scheduler s
  else if s.perf_tracker.active_policy = SCHEDULER_CSCAN then cscan_scheduler s
  else fcfs_scheduler s

/-- Proof device, not a source function: one pass over a queue that keeps the
first position whose request satisfies `p` and whose key `f` is strictly below
every key kept before. The loops of `sstf_scheduler` and `cscan_scheduler` are
shown to be instances of it (`sstf_loop_eq`, `cscan_loop_eq`). -/
def scanMin (p : diskrequest_t → Bool) (f : diskrequest_t → Int) :
    List diskrequest_t → Nat → Option Nat → Int → Option Nat
  | [], _, best, _ => best
  | current :: rest, i, best, m =>
      if p current = true ∧ f current < m then scanMin p f rest (i + 1) (some i) (f current)
      else scanMin p f rest (i + 1) best m

/-! ## Definitions: timer tick and hand-off hooks of `ppos-core-aux.c` -/

/-- Sum of two `unsigned int` values (32 bits). -/
def uadd32 (a b : Nat) : Nat := (a + b) % 4294967296

/-- Difference of two `unsigned int` values (32 bits). -/
def usub32 (a b : Nat) : Nat := (((a : Int) - (b : Int)) % 4294967296).toNat

/-- The function `interrupt_handler`: the state it leaves and whether it called
`task_yield()` (a function of the core, whose own effect is not applied here).
The signed `quantum--` is reduced to 32 bits (`wrapInt`): at `-2147483648` it
leaves `2147483647`. -/
def interrupt_handler (k : Kernel) : Kernel × Bool :=
  let k := { k with systemTime := uadd32 k.systemTime 1 }
  if (k.heap k.taskExec).user_task = 0 then (k, false)
  else
    let t := k.heap k.taskExec
    let k := { k with heap := Function.update k.heap k.taskExec { t with quantum := wrapInt (t.quantum - 1) } }
    if (k.heap k.taskExec).quantum ≤ 0 ∧ PPOS_IS_PREEMPT_ACTIVE k = true then (k, true)
    else (k, false)

/-- The hook `before_task_switch`. Its argument is only printed. `taskExec` is
an address in `Kernel`, never NULL, so the guard `taskExec &&` holds. -/
def before_task_switch (k : Kernel) (_task : Option Nat) : Kernel :=
  let k := PPOS_PREEMPT_DISABLE k
  let t := k.heap k.taskExec
  if t.user_task ≠ 0 ∧ t.last_proc > 0 then
    let time_slice := usub32 (systime k) t.last_proc
    { k with heap :=
        Function.update k.heap k.taskExec { t with proc_time := uadd32 t.proc_time time_slice } }
  else k

/-- The hook `after_task_switch`; `task = none` is the NULL argument. -/
def after_task_switch (k : Kernel) (task : Option Nat) : Kernel :=
  let k1 := match task with
    | none => k
    | some task =>
        if (k.heap task).user_task ≠ 0 then
          let t := k.heap task
          let t := { t with activations := uadd32 t.activations 1 }
          let t := { t with last_proc := systime k }
          let t := { t with quantum := QUANTUM_SIZE }
          { k with heap := Function.update k.heap task t }
        else k
  PPOS_PREEMPT_ENABLE k1

/-! ## Definitions: the disk manager of `ppos_disk.c`

The functions below transform the globals of `ppos_disk.c`. Calls into the core
and the driver (`sem_*`, `task_suspend`, `task_resume`, `task_create`,
`disk_cmd`, `sigaction`) are modelled by their effect on these globals; their
results are parameters and the driver calls they make are returned. -/

/-- Modelled from the spec: the command codes `DISK_CMD_READ` of
`disk-driver.h` (not among the sources), the operation kind "read";
`executeRequest` recognises a read by `operation == 1`. -/
def DISK_CMD_READ : Int := 1

/-- Modelled from the spec: the command code `DISK_CMD_WRITE` of
`disk-driver.h` (not among the sources), the operation kind "write". -/
def DISK_CMD_WRITE : Int := 2

/-- Modelled from the spec: `sem_create` of the core (not among the sources),
a "counting semaphore" with the given initial value and no waiting task. -/
def sem_create (value : Int) : semaphore_t :=
  { queue := [], value := value, active := 1 }

/-- Modelled from the spec: `sem_down` of the core (not among the sources) on
a "counting semaphore" that the caller obtains without waiting. -/
def sem_down (m : semaphore_t) : semaphore_t :=
  { m with value := m.value - 1 }

/-- Modelled from the spec: `sem_up` of the core (not among the sources) on a
"counting semaphore" with no waiting task. -/
def sem_up (m : semaphore_t) : semaphore_t :=
  { m with value := m.value + 1 }

/-- A call `disk_cmd(disk_command, request->block, request->buffer)` made by
`executeRequest`, recorded with the request it serves. -/
structure disk_cmd_call where
  disk_command : Int
  request : diskrequest_t
deriving DecidableEq

/-- The function `createDiskRequest`; `malloc_ok` tells whether `malloc`
returned a block, `taskExec` is the running task. -/
def createDiskRequest (taskExec : Nat) (malloc_ok : Bool) (operation block : Int)
    (buffer : Nat) : Option diskrequest_t :=
  if malloc_ok then
    some { task := taskExec, operation := operation, block := block, buffer := buffer }
  else none

/-- The part shared by `disk_block_read` and `disk_block_write` between the
creation of the request and `task_yield()`: the request is appended to
`disk.requestQueue` under `disk.semaforo_queue`, and `task_suspend(taskExec,
&disk.diskQueue)` ("suspend the calling task onto the completion wait set")
appends the running task to `disk.diskQueue`. -/
def enqueueAndSuspend (s : DiskState) (taskExec : Nat) (request : diskrequest_t) : DiskState :=
  let s := { s with disk.semaforo_queue := sem_down s.disk.semaforo_queue }
  let s := { s with disk.requestQueue := s.disk.requestQueue ++ [request] }
  let s := { s with disk.semaforo_queue := sem_up s.disk.semaforo_queue }
  { s with disk.diskQueue := s.disk.diskQueue ++ [taskExec] }

/-- The function `disk_block_read` up to its `task_yield()`: `some code` when
it returns `code` at once, `none` when the caller is suspended at the yield.
`buffer = 0` is the NULL buffer. -/
def disk_block_read (s : DiskState) (taskExec : Nat) (malloc_ok : Bool) (block : Int)
    (buffer : Nat) : Option Int × DiskState :=
  if buffer = 0 then (some ERROR_INVALID, s)
  else if block < 0 ∨ block ≥ s.disk.numBlocks then (some ERROR_INVALID, s)
  else
    match createDiskRequest taskExec malloc_ok DISK_CMD_READ block buffer with
    | none => (some ERROR_INVALID, s)
    | some request => (none, enqueueAndSuspend s taskExec request)

/-- The rest of `disk_block_read`, run when the caller is scheduled again:
`stats.read_operations++; return 0;`. -/
def disk_block_read_resumed (s : DiskState) : Int × DiskState :=
  (0, { s with stats.read_operations := uadd32 s.stats.read_operations 1 })

/-- The function `disk_block_write` up to its `task_yield()`, as for
`disk_block_read`. -/
def disk_block_write (s : DiskState) (taskExec : Nat) (malloc_ok : Bool) (block : Int)
    (buffer : Nat) : Option Int × DiskState :=
  if buffer = 0 then (some ERROR_INVALID, s)
  else if block < 0 ∨ block ≥ s.disk.numBlocks then (some ERROR_INVALID, s)
  else
    match createDiskRequest taskExec malloc_ok DISK_CMD_WRITE block buffer with
    | none => (some ERROR_INVALID, s)
    | some request => (none, enqueueAndSuspend s taskExec request)

/-- The rest of `disk_block_write`, run when the caller is scheduled again:
`stats.write_operations++; return 0;`. -/
def disk_block_write_resumed (s : DiskState) : Int × DiskState :=
  (0, { s with stats.write_operations := uadd32 s.stats.write_operations 1 })

/-- The function `updatePerformanceMetrics`. The `int` total is reduced to 32
bits (`wrapInt`); the `unsigned` total is reduced modulo 2^32. -/
def updatePerformanceMetrics (s : DiskState) (old_pos new_pos : Int) : DiskState :=
  let movement := c_abs (wrapInt (new_pos - old_pos))
  let s := { s with
    perf_tracker.total_head_movements :=
      wrapInt (s.perf_tracker.total_head_movements + movement) }
  let s := { s with perf_tracker.current_head_position := new_pos }
  { s with stats.total_seek_distance :=
      (((s.stats.total_seek_distance : Int) + movement) % 4294967296).toNat }

/-- The function `executeRequest`: its return value, the state it leaves and
the driver call it makes. -/
def executeRequest (s : DiskState) (request : diskrequest_t) :
    Int × DiskState × disk_cmd_call :=
  let s := updatePerformanceMetrics s s.perf_tracker.current_head_position request.block
  let disk_command := if request.operation = 1 then DISK_CMD_READ else DISK_CMD_WRITE
  let call : disk_cmd_call := { disk_command := disk_command, request := request }
  let s := { s with disk.livre := 0 }
  let s := { s with
    perf_tracker.requests_processed := wrapInt (s.perf_tracker.requests_processed + 1) }
  (0, s, call)

/-- The function `processCompletionEvents`: the state it leaves and the task
it resumed, if any. `task_resume(disk.diskQueue)` ("resume the single task
blocked on the head of the completion wait set") takes the head out of
`disk.diskQueue`. -/
def processCompletionEvents (s : DiskState) : DiskState × Option Nat :=
  let s := { s with disk.semaforo := sem_down s.disk.semaforo }
  let r : DiskState × Option Nat :=
    if s.disk.sinal ≠ 0 then
      let s := { s with disk.sinal := 0 }
      let s := { s with disk.livre := 1 }
      match s.disk.diskQueue with
      | [] => (s, none)
      | task :: rest => ({ s with disk.diskQueue := rest }, some task)
    else (s, none)
  ({ r.1 with disk.semaforo := sem_up r.1.disk.semaforo }, r.2)

/-- The function `processNewRequests`: the state it leaves and the driver call
it made, if any. `queue_remove` takes the selected node out of the queue and
keeps the order of the others. -/
def processNewRequests (s : DiskState) : DiskState × Option disk_cmd_call :=
  let s := { s with disk.semaforo := sem_down s.disk.semaforo }
  let r : DiskState × Option disk_cmd_call :=
    if s.disk.livre ≠ 0 ∧ s.disk.requestQueue ≠ [] then
      match disk_scheduler s with
      | none => (s, none)
      | some next_request =>
          match s.disk.requestQueue[next_request]? with
          | none => (s, none)
          | some request =>
              let s := { s with disk.semaforo_queue := sem_down s.disk.semaforo_queue }
              let s := { s with
                disk.requestQueue := s.disk.requestQueue.eraseIdx next_request }
              let s := { s with disk.semaforo_queue := sem_up s.disk.semaforo_queue }
              let e := executeRequest s request
              (e.2.1, some e.2.2)
    else (s, none)
  ({ r.1 with disk.semaforo := sem_up r.1.disk.semaforo }, r.2)

/-- One iteration of the loop of `bodyDiskManager`: `none` when the manager
prints its statistics and calls `task_exit(0)`, otherwise the state at its
`task_yield()`, the task it resumed and the driver call it made. -/
def bodyDiskManager (s : DiskState) : Option (DiskState × Option Nat × Option disk_cmd_call) :=
  if s.system_shutdown_requested ≠ 0 ∧ s.disk.requestQueue = [] ∧ s.disk.diskQueue = [] then
    none
  else
    let c := processCompletionEvents s
    let n := processNewRequests c.1
    some (n.1, c.2, n.2)

/-- The function `diskSignalHandler`. -/
def diskSignalHandler (s : DiskState) : DiskState :=
  { s with disk.sinal := 1 }

/-- The function `disk_mgr_shutdown`. -/
def disk_mgr_shutdown (s : DiskState) : DiskState :=
  { s with system_shutdown_requested := 1 }

/-- The function `disk_scheduler` as its caller sees it: the returned pointer
and the globals after the call. The function and the three policies assign
only their local variables. -/
def disk_scheduler_call (s : DiskState) : Option Nat × DiskState :=
  (disk_scheduler s, s)

/-- Results of the driver and system calls made by `disk_mgr_init`:
`disk_cmd(DISK_CMD_INIT, 0, 0)`, `disk_cmd(DISK_CMD_DISKSIZE, 0, 0)`,
`disk_cmd(DISK_CMD_BLOCKSIZE, 0, 0)` and `sigaction(SIGUSR1, …)`. -/
structure init_replies where
  init : Int
  disk_size : Int
  block_size : Int
  sigaction : Int
deriving DecidableEq

/-- What a call of `disk_mgr_init` leaves: its return value (`none` when it
ends the process with `exit(1)`), the globals, and the values written through
the two output pointers. -/
structure init_result where
  ret : Option Int
  state : DiskState
  numBlocks : Option Int
  blockSize : Option Int
deriving DecidableEq

/-- The function `disk_mgr_init`. `numBlocks` and `blockSize` tell whether the
output pointers are non-NULL, `SCHEDULER_DEFAULT` is the compile-time macro
(`none` when not defined). `task_create(&taskDiskMgr, …)` writes no global of
`ppos_disk.c` other than the task control block `taskDiskMgr`, which lives in
the task heap. -/
def disk_mgr_init (s : DiskState) (numBlocks blockSize : Bool)
    (SCHEDULER_DEFAULT : Option Int) (dev : init_replies) : init_result :=
  if numBlocks = false ∨ blockSize = false then
    { ret := some ERROR_INVALID, state := s, numBlocks := none, blockSize := none }
  else if dev.init < 0 then
    { ret := some ERROR_INVALID, state := s, numBlocks := none, blockSize := none }
  else if dev.disk_size < 0 ∨ dev.block_size < 0 then
    { ret := some ERROR_INVALID, state := s, numBlocks := none, blockSize := none }
  else
    let s := { s with disk.numBlocks := dev.disk_size }
    let s := { s with disk.blockSize := dev.block_size }
    let s := { s with disk.diskQueue := [] }
    let s := { s with disk.requestQueue := [] }
    let s := { s with disk.livre := 1 }
    let s := { s with disk.sinal := 0 }
    let s := { s with disk.semaforo := sem_create 1 }
    let s := { s with disk.semaforo_queue := sem_create 1 }
    let s := { s with perf_tracker.active_policy :=
      match SCHEDULER_DEFAULT with
      | some policy => policy
      | none => SCHEDULER_CSCAN }
    let s := { s with perf_tracker.current_head_position := 0 }
    let s := { s with perf_tracker.total_head_movements := 0 }
    let s := { s with perf_tracker.requests_processed := 0 }
    let s := { s with perf_tracker.last_direction := 1 }
    let s := { s with stats.read_operations := 0 }
    let s := { s with stats.write_operations := 0 }
    let s := { s with stats.total_seek_distance := 0 }
    let s := { s with stats.average_response_time := 0 }
    if dev.sigaction < 0 then
      { ret := none, state := s, numBlocks := none, blockSize := none }
    else
      { ret := some 0, state := s, numBlocks := some dev.disk_size,
        blockSize := some dev.block_size }

/-- The operations of the disk manager that run after `disk_mgr_init`: a
requester entering `disk_block_read` or `disk_block_write`, a requester
continuing after its yield, the completion signal, one iteration of the manager
task, and the shutdown request. -/
inductive DiskEvent where
  | read (taskExec : Nat) (malloc_ok : Bool) (block : Int) (buffer : Nat)
  | read_resumed
  | write (taskExec : Nat) (malloc_ok : Bool) (block : Int) (buffer : Nat)
  | write_resumed
  | signal
  | manager
  | shutdown
deriving DecidableEq

/-- The globals after one operation. -/
def diskStep (s : DiskState) : DiskEvent → DiskState
  | .read taskExec malloc_ok block buffer => (disk_block_read s taskExec malloc_ok block buffer).2
  | .read_resumed => (disk_block_read_resumed s).2
  | .write taskExec malloc_ok block buffer =>
      (disk_block_write s taskExec malloc_ok block buffer).2
  | .write_resumed => (disk_block_write_resumed s).2
  | .signal => diskSignalHandler s
  | .manager =>
      match bodyDiskManager s with
      | none => s
      | some r => r.1
  | .shutdown => disk_mgr_shutdown s

/-- The globals after a sequence of operations. -/
def diskRun (s : DiskState) (events : List DiskEvent) : DiskState :=
  events.foldl diskStep s

/-- The driver calls made by the manager task over `n` iterations when no
request arrives and each issued command completes (`diskSignalHandler`) before
the next iteration; the run ends when an iteration issues nothing. -/
def dispatchRun : Nat → DiskState → List disk_cmd_call
  | 0, _ => []
  | n + 1, s =>
      match bodyDiskManager s with
      | none => []
      | some r =>
          match r.2.2 with
          | none => []
          | some call => call :: dispatchRun n (diskSignalHandler r.1)

/-! ## Definitions: termination hook and runs of scheduler cycles -/

/-- The line printed by `after_task_exit`: task id, execution time, processor
time and activations. -/
structure exit_report where
  id : Int
  task_total_time : Nat
  proc_time : Nat
  activations : Nat
deriving DecidableEq

/-- The hook `after_task_exit` on the globals of the kernel and of the disk
manager: the state it leaves and the line it prints. Its body computes
`systime() - taskExec->exec_start` and calls `printf`. The block
`if (taskExec->id == 0) { … disk_mgr_shutdown(); }` of `ppos-core-aux.c` stands
after the closing brace of the function and is not part of its body; the
tutorial copy of the file has no such block. -/
def after_task_exit (k : Kernel) (d : DiskState) : Kernel × DiskState × exit_report :=
  let task_total_time := usub32 (systime k) (k.heap k.taskExec).exec_start
  (k, d,
    { id := (k.heap k.taskExec).id, task_total_time := task_total_time,
      proc_time := (k.heap k.taskExec).proc_time,
      activations := (k.heap k.taskExec).activations })

/-- Consecutive scheduler cycles: before each call the core has left the ready
queue `q` (tasks come and go between the calls); the task control blocks are
those left by the previous call. -/
def schedulerRun (k : Kernel) : List (List Nat) → Kernel
  | [] => k
  | q :: qs => schedulerRun (scheduler { k with readyQueue := q }).2 qs

/-- Along the cycles `qs` the task `t` stays in the ready queue (a circular
queue, without repeated node) and every call selects a user task other than
`t`. -/
def agedInEveryCycle (t : Nat) (k : Kernel) : List (List Nat) → Bool
  | [] => true
  | q :: qs =>
      decide (q.Nodup) && decide (t ∈ q) &&
      (match (scheduler { k with readyQueue := q }).1 with
        | some b => decide (b ≠ t) && decide ((k.heap b).user_task ≠ 0)
        | none => false) &&
      agedInEveryCycle t (scheduler { k with readyQueue := q }).2 qs

/-! ## Definitions: runs of ticks, of processor grants and of the disk manager -/

/-- Timer ticks while the same task runs; each tick finds the Preemption Gate
in the state given for it (`true` is enabled). -/
def tickRun (k : Kernel) : List Bool → Kernel
  | [] => k
  | gate :: gates => tickRun (interrupt_handler { k with preemption := gate }).1 gates

/-- Whether one of the ticks of `tickRun` calls `task_yield()`. -/
def yieldForced (k : Kernel) : List Bool → Bool
  | [] => false
  | gate :: gates =>
      (interrupt_handler { k with preemption := gate }).2 ||
        yieldForced (interrupt_handler { k with preemption := gate }).1 gates

/-- Processor grants to the task `t`: for each pair, a hand-off-in
(`after_task_switch`) at clock value `g.1` followed by a hand-off-out
(`before_task_switch`, `t` being the running task) at clock value `g.2`. -/
def grantRun (k : Kernel) (t : Nat) : List (Nat × Nat) → Kernel
  | [] => k
  | g :: gs =>
      grantRun
        (before_task_switch
          { after_task_switch { k with systemTime := g.1 } (some t) with
            systemTime := g.2, taskExec := t } none)
        t gs

/-- The grants are alternating hand-off-in and hand-off-out events at
non-decreasing clock values between `lo` and `e`. -/
def grantsOrdered (lo : Nat) : List (Nat × Nat) → Nat → Bool
  | [], e => decide (lo ≤ e)
  | g :: gs, e => decide (lo ≤ g.1) && decide (g.1 ≤ g.2) && grantsOrdered g.2 gs e

/-- Sum over the grants of hand-off-out time minus hand-off-in time. -/
def grantsTotal : List (Nat × Nat) → Nat
  | [] => 0
  | g :: gs => (g.2 - g.1) + grantsTotal gs

/-- The same sum over the grants whose hand-off-in is at a tick `> 0`. -/
def grantsCounted : List (Nat × Nat) → Nat
  | [] => 0
  | g :: gs => (if 0 < g.1 then g.2 - g.1 else 0) + grantsCounted gs

/-- The line printed at the termination, at tick `e`, of a task created at tick
`c` (`after_task_create`) and granted the processor as in `grants`. -/
def lifeReport (k : Kernel) (d : DiskState) (t c : Nat) (grants : List (Nat × Nat))
    (e : Nat) : exit_report :=
  (after_task_exit
    { grantRun (after_task_create { k with systemTime := c } t) t grants with
      systemTime := e, taskExec := t } d).2.2

/-- Ghost state of a run of the disk manager: the request issued to the device
whose completion has not been drained yet. An iteration of the manager that
issues a request puts it in flight; one that drains a completion without
issuing leaves nothing in flight. -/
def inFlightAfter (s : DiskState) (inflight : Option diskrequest_t) :
    DiskEvent → Option diskrequest_t
  | .manager =>
      match bodyDiskManager s with
      | none => inflight
      | some r =>
          match r.2.2 with
          | some call => some call.request
          | none => if s.disk.sinal ≠ 0 then none else inflight
  | _ => inflight

/-- The request in flight after a sequence of operations. -/
def inFlightRun (s : DiskState) (inflight : Option diskrequest_t) :
    List DiskEvent → Option diskrequest_t
  | [] => inflight
  | e :: es => inFlightRun (diskStep s e) (inFlightAfter s inflight e) es

/-- The wait queue expected from the requests: the issuer of the request in
flight, then the issuers of the pending requests in queue order. -/
def expectedWaiters (s : DiskState) (inflight : Option diskrequest_t) : List Nat :=
  (match inflight with
    | some r => [r.task]
    | none => []) ++ s.disk.requestQueue.map (fun r => r.task)

/-- Every iteration of the manager in the run that resumes a task resumes the
issuer of the request in flight. -/
def resumesRequester (s : DiskState) (inflight : Option diskrequest_t) :
    List DiskEvent → Bool
  | [] => true
  | e :: es =>
      (match e with
        | .manager =>
            match bodyDiskManager s with
            | none => true
            | some r =>
                match r.2.1 with
                | none => true
                | some t => decide (inflight.map (fun q => q.task) = some t)
        | _ => true) &&
      resumesRequester (diskStep s e) (inFlightAfter s inflight e) es

/-- The device signals a completion only while it is busy with a request. -/
def signalsWhileBusy (s : DiskState) : List DiskEvent → Bool
  | [] => true
  | e :: es =>
      (match e with
        | .signal => decide (s.disk.livre = 0)
        | _ => true) &&
      signalsWhileBusy (diskStep s e) es

/-- A task control block with its dynamic priority blanked: two blocks with
the same `staticPart` agree on every field other than `prio_dynamic`. -/
def staticPart (t : task_t) : task_t :=
  { t with prio_dynamic := 0 }

/-- The priority range `-20 ≤ dynamic ≤ static ≤ 20` of a task. -/
def prioInRange (t : task_t) : Prop :=
  -20 ≤ t.prio_dynamic ∧ t.prio_dynamic ≤ t.prio_static ∧ t.prio_static ≤ 20

/-- The wait queue is aligned with the requests: the policy is FCFS, the tasks
of `disk.diskQueue` are the issuers of the request in flight and of the pending
requests in that order, a busy device has a request in flight, and a free
device has none and no completion signalled. -/
def waitQueueAligned (s : DiskState) (inflight : Option diskrequest_t) : Prop :=
  s.perf_tracker.active_policy = SCHEDULER_FCFS ∧
  s.disk.diskQueue = expectedWaiters s inflight ∧
  (s.disk.livre = 0 → inflight ≠ none) ∧
  (s.disk.livre ≠ 0 → inflight = none ∧ s.disk.sinal = 0)

/-- What every state of the disk manager satisfies once `disk_mgr_init` has
succeeded on a device whose size is an `int`: the block count is at most
`INT_MAX`, the head is at 0 or on a block of the disk, every pending block is
a block of the disk, and the two signed counters hold `int` values. -/
def wellFormedDisk (s : DiskState) : Prop :=
  s.disk.numBlocks ≤ INT_MAX ∧
  0 ≤ s.perf_tracker.current_head_position ∧
  (s.perf_tracker.current_head_position < s.disk.numBlocks ∨
    s.perf_tracker.current_head_position = 0) ∧
  (∀ q ∈ s.disk.requestQueue, 0 ≤ q.block ∧ q.block < s.disk.numBlocks) ∧
  (-2147483648 ≤ s.perf_tracker.total_head_movements ∧
    s.perf_tracker.total_head_movements ≤ 2147483647) ∧
  (-2147483648 ≤ s.perf_tracker.requests_processed ∧
    s.perf_tracker.requests_processed ≤ 2147483647)

/-! ## Definitions: concrete states used to exercise the theorems -/

/-- A task control block with the given id, static and dynamic priority and
user flag, a full quantum and zeroed accounting. -/
def mkTask (id prio_static prio_dynamic : Int) (user_task : Nat) : task_t :=
  { id := id, prio_static := prio_static, prio_dynamic := prio_dynamic,
    quantum := 20, exec_start := 0, proc_time := 0, last_proc := 0,
    activations := 0, running_time := 0, user_task := user_task }

/-- Three ready user tasks A (id 2, priority 0), B (id 3, priority 0) and
C (id 4, priority 5) at addresses 0, 1, 2; the dispatcher (id 1) at address 3
is running. -/
def threeTasks : Kernel :=
  { heap := fun a =>
      if a = 0 then mkTask 2 0 0 1
      else if a = 1 then mkTask 3 0 0 1
      else if a = 2 then mkTask 4 5 5 1
      else mkTask 1 0 0 0
    readyQueue := [0, 1, 2]
    taskExec := 3
    taskMain := 4
    systemTime := 7
    preemption := false }

/-- The state `threeTasks` with an empty ready queue. -/
def noReadyTask : Kernel :=
  { threeTasks with readyQueue := [] }

/-- The main task (id 0, a system task, priority 0) at address 0 and a user
task (id 2) whose priority was set to -5 at address 1 are both ready; the
dispatcher (id 1) at address 2 is running. -/
def mainAndUser : Kernel :=
  { heap := fun a =>
      if a = 0 then mkTask 0 0 0 0
      else if a = 1 then mkTask 2 (-5) (-5) 1
      else mkTask 1 0 0 0
    readyQueue := [1, 0]
    taskExec := 2
    taskMain := 0
    systemTime := 7
    preemption := false }

/-- A disk request of task `task` for block `block` (a read into buffer 1). -/
def mkRequest (task : Nat) (block : Int) : diskrequest_t :=
  { task := task, operation := 1, block := block, buffer := 1 }

/-- A disk of `numBlocks` blocks, free, with the given pending requests and
head position, under the policy `policy`. -/
def mkDisk (numBlocks : Int) (requests : List diskrequest_t) (head : Int) (policy : Int) :
    DiskState :=
  { disk :=
      { numBlocks := numBlocks, blockSize := 64, diskQueue := requests.map fun r => r.task,
        requestQueue := requests, livre := 1, sinal := 0,
        semaforo := { queue := [], value := 1, active := 1 },
        semaforo_queue := { queue := [], value := 1, active := 1 } }
    perf_tracker :=
      { current_head_position := head, total_head_movements := 0, requests_processed := 0,
        active_policy := policy, last_direction := 1 }
    stats :=
      { read_operations := 0, write_operations := 0, total_seek_distance := 0,
        average_response_time := 0 }
    system_shutdown_requested := 0 }

/-- Pending requests at blocks 98, 37, 14, 124, 65, 67 with the head at 53 on a
disk of 256 blocks. -/
def sixRequests : DiskState :=
  mkDisk 256 [mkRequest 2 98, mkRequest 3 37, mkRequest 4 14, mkRequest 5 124,
    mkRequest 6 65, mkRequest 7 67] 53 SCHEDULER_CSCAN

/-- Pending requests at blocks 60, 46, 70 with the head at 53: blocks 60 and 46
are both at distance 7. -/
def tiedRequests : DiskState :=
  mkDisk 256 [mkRequest 2 60, mkRequest 3 46, mkRequest 4 70] 53 SCHEDULER_SSTF

/-- Arbitrary content of the globals before `disk_mgr_init`: a single request
at block `INT_MAX` with the head at 0. No entry point builds such a queue
(`disk_block_read` and `disk_block_write` refuse a block `≥ numBlocks`); the
state stands for what initialisation has to overwrite. -/
def farRequest : DiskState :=
  mkDisk 2147483647 [mkRequest 2 2147483647] 0 SCHEDULER_CSCAN

/-- The state `threeTasks` with task A (address 0) running, the gate enabled,
and A scheduled at tick 3 with one tick of quantum left. -/
def taskARunning : Kernel :=
  { threeTasks with
    heap := Function.update threeTasks.heap 0
      { mkTask 2 0 0 1 with quantum := 1, last_proc := 3, activations := 1 }
    readyQueue := [1, 2]
    taskExec := 0
    preemption := true }

/-- The state `threeTasks` in which task A (address 0) has been activated
`2^32 - 1` times. -/
def manyActivations : Kernel :=
  { threeTasks with
    heap := Function.update threeTasks.heap 0
      { mkTask 2 0 0 1 with activations := 4294967295 } }

/-- Pending requests at blocks 98, 37, 14, in that arrival order, under FCFS. -/
def fcfsRequests : DiskState :=
  mkDisk 256 [mkRequest 2 98, mkRequest 3 37, mkRequest 4 14] 53 SCHEDULER_FCFS

/-- A device that initialises and reports 256 blocks of 64 bytes; `sigaction`
succeeds. -/
def goodDevice : init_replies :=
  { init := 0, disk_size := 256, block_size := 64, sigaction := 0 }

/-- The main task (id 0, a system task, priority 0) at address 0 and the user
tasks A (id 2, priority 5) and B (id 3, priority 5) at addresses 1 and 2 are
ready; the dispatcher (id 1) at address 3 is running. -/
def mainFirst : Kernel :=
  { heap := fun a =>
      if a = 0 then mkTask 0 0 0 0
      else if a = 1 then mkTask 2 5 5 1
      else if a = 2 then mkTask 3 5 5 1
      else mkTask 1 0 0 0
    readyQueue := [0, 1, 2]
    taskExec := 3
    taskMain := 0
    systemTime := 7
    preemption := false }

/-- The task control block `taskDiskMgr` at address 5 has received id 2 from
the core; the creation hook has not run yet. -/
def diskMgrCreated : Kernel :=
  { threeTasks with
    heap := Function.update threeTasks.heap 5
      { mkTask 2 0 0 0 with quantum := 0 } }

/-- The disk manager task (address 5) is running after its creation hook, with
the gate enabled. -/
def diskMgrRunning : Kernel :=
  { after_task_create diskMgrCreated 5 with taskExec := 5 }

/-- The main task (id 0) at address 4 is the running task that terminates. -/
def mainExits : Kernel :=
  { threeTasks with
    heap := Function.update threeTasks.heap 4 (mkTask 0 0 0 0)
    taskExec := 4 }

/-- The disk manager just initialised on a device of 256 blocks, policy CSCAN. -/
def freshDisk : DiskState :=
  (disk_mgr_init farRequest true true none goodDevice).state

/-- The disk manager just initialised with `SCHEDULER_DEFAULT` set to SSTF. -/
def freshDiskSstf : DiskState :=
  (disk_mgr_init farRequest true true (some SCHEDULER_SSTF) goodDevice).state

/-- Task 2 has asked for block 98, then task 3 for block 65; both are suspended
on the wait queue. -/
def twoReaders : DiskState :=
  diskRun freshDisk [.read 2 true 98 1, .read 3 true 65 1]

/-- The requests of `twoReaders` under SSTF. -/
def twoReadersSstf : DiskState :=
  diskRun freshDiskSstf [.read 2 true 98 1, .read 3 true 65 1]

/-- Shutdown is requested while the request of task 2 is pending and task 2 is
blocked. -/
def pendingAtShutdown : DiskState :=
  diskRun freshDisk [.read 2 true 98 1, .shutdown]

/-- The disk manager initialised on a device that reports 0 blocks. -/
def emptyDevice : init_result :=
  disk_mgr_init farRequest true true none { goodDevice with disk_size := 0 }

/-- The disk manager task of `diskMgrRunning` with one tick of quantum left. -/
def diskMgrLastTick : Kernel :=
  { diskMgrRunning with
    heap := Function.update diskMgrRunning.heap 5
      { mkTask 2 0 0 1 with quantum := 1, exec_start := 7 } }

/-- A user task of static priority -20 (id 2, address 0) and a user task of
priority -18 (id 4, address 1) are ready. -/
def urgentAndLate : Kernel :=
  { heap := fun a =>
      if a = 0 then mkTask 2 (-20) (-20) 1
      else if a = 1 then mkTask 4 (-18) (-18) 1
      else mkTask 1 0 0 0
    readyQueue := [0, 1]
    taskExec := 2
    taskMain := 3
    systemTime := 7
    preemption := false }

/-- The disk manager just initialised with `SCHEDULER_DEFAULT` set to FCFS. -/
def freshDiskFcfs : DiskState :=
  (disk_mgr_init farRequest true true (some SCHEDULER_FCFS) goodDevice).state

/-- A run under FCFS: task 2 asks for block 98, task 3 for block 65, the
manager dispatches, the device completes, the manager drains and dispatches,
the device completes, the manager drains. -/
def fcfsEvents : List DiskEvent :=
  [.read 2 true 98 1, .read 3 true 65 1, .manager, .signal, .manager, .signal, .manager]

/-- The task control block at address 5 has received id 2; the clock is 0. -/
def bootKernel : Kernel :=
  { diskMgrCreated with systemTime := 0 }

/-- Operations that bring the disk manager of `freshDisk` to the head position
53 with the blocks 98, 37, 14, 124, 65, 67 pending: task 9 reads block 53, the
manager issues it, the device completes, and six tasks ask for their blocks
before the manager runs again. -/
def cscanEvents : List DiskEvent :=
  [.read 9 true 53 1, .manager, .signal, .read 2 true 98 1, .read 3 true 37 1,
    .read 4 true 14 1, .read 5 true 124 1, .read 6 true 65 1, .read 7 true 67 1]

/-! ## Lemmas: the selection loop -/

/-- On the `int` range `wrapInt` is the identity. -/
theorem wrapInt_id (x : Int) (hlo : -2147483648 ≤ x) (hhi : x ≤ 2147483647) :
    wrapInt x = x := by
  unfold wrapInt
  omega

theorem isBetter_iff (h : Nat → task_t) (c b : Nat) :
    isBetter h c b = true ↔
      ((h c).prio_dynamic < (h b).prio_dynamic ∨
        ((h c).prio_dynamic = (h b).prio_dynamic ∧ (h c).id < (h b).id)) := by
  simp [isBetter]

/-- The selection loop returns its starting candidate or a visited node, and no
visited node nor the starting candidate beats the result. -/
theorem findBetter_spec (h : Nat → task_t) :
    ∀ (q : List Nat) (b : Nat),
      (findBetter h q b = b ∨ findBetter h q b ∈ q) ∧
      isBetter h b (findBetter h q b) = false ∧
      ∀ a ∈ q, isBetter h a (findBetter h q b) = false := by
  intro q
  induction q with
  | nil =>
      intro b
      refine ⟨Or.inl rfl, ?_, by simp⟩
      simp [findBetter, isBetter]
  | cons c rest ih =>
      intro b
      simp only [findBetter]
      obtain ⟨hmem, hb, hall⟩ := ih (if isBetter h c b then c else b)
      have key : ∀ x y z, isBetter h x y = false → isBetter h y z = false →
          isBetter h x z = false := by
        intro x y z hxy hyz
        rw [Bool.eq_false_iff, Ne, isBetter_iff] at *
        omega
      by_cases hcb : isBetter h c b = true
      · rw [if_pos hcb] at hmem hb hall ⊢
        refine ⟨?_, ?_, ?_⟩
        · rcases hmem with e | m
          · exact Or.inr (by rw [e]; exact List.mem_cons_self _ _)
          · exact Or.inr (List.mem_cons_of_mem _ m)
        · refine key b c _ ?_ hb
          rw [Bool.eq_false_iff, Ne, isBetter_iff]
          rw [isBetter_iff] at hcb
          omega
        · intro a ha
          rcases List.mem_cons.mp ha with e | m
          · rw [e]; exact hb
          · exact hall a m
      · have hcb2 : isBetter h c b = false := by simpa using hcb
        rw [if_neg hcb] at hmem hb hall ⊢
        refine ⟨?_, hb, ?_⟩
        · rcases hmem with e | m
          · exact Or.inl e
          · exact Or.inr (List.mem_cons_of_mem _ m)
        · intro a ha
          rcases List.mem_cons.mp ha with e | m
          · rw [e]; exact key c b _ hcb2 hb
          · exact hall a m

/-- The task selected on a queue `head :: rest` is a queue member that no queue
member beats. -/
theorem findBetter_head (h : Nat → task_t) (head : Nat) (rest : List Nat) :
    findBetter h (head :: rest) head ∈ head :: rest ∧
      ∀ a ∈ head :: rest, isBetter h a (findBetter h (head :: rest) head) = false := by
  obtain ⟨hmem, _, hall⟩ := findBetter_spec h (head :: rest) head
  refine ⟨?_, hall⟩
  rcases hmem with e | m
  · rw [e]; exact List.mem_cons_self _ _
  · exact m

/-! ## Lemmas: the aging loop and the reset -/

/-- The aging loop never writes the selected task. -/
theorem agingPass_better (better : Nat) :
    ∀ (q : List Nat) (h : Nat → task_t), agingPass better q h better = h better := by
  intro q
  induction q with
  | nil => intro h; rfl
  | cons c rest ih =>
      intro h
      simp only [agingPass]
      rw [ih]
      by_cases hc : c = better
      · simp [hc]
      · simp [hc, Function.update_noteq (Ne.symm hc)]

/-- The aging loop never writes a task outside the queue. -/
theorem agingPass_not_mem (better : Nat) :
    ∀ (q : List Nat) (h : Nat → task_t) (a : Nat), a ∉ q →
      agingPass better q h a = h a := by
  intro q
  induction q with
  | nil => intro h a _; rfl
  | cons c rest ih =>
      intro h a ha
      have hac : a ≠ c := fun e => ha (by rw [e]; exact List.mem_cons_self _ _)
      have har : a ∉ rest := fun m => ha (List.mem_cons_of_mem _ m)
      simp only [agingPass]
      rw [ih _ a har]
      by_cases hc : c = better
      · simp [hc]
      · simp [hc, Function.update_noteq hac]

/-- On a queue without repeated nodes the aging loop ages every queue member
other than the selected task exactly once. -/
theorem agingPass_mem (better : Nat) :
    ∀ (q : List Nat) (h : Nat → task_t) (a : Nat), q.Nodup → a ∈ q → a ≠ better →
      agingPass better q h a = ageTask (h a) := by
  intro q
  induction q with
  | nil => intro h a _ ha; exact absurd ha (List.not_mem_nil a)
  | cons c rest ih =>
      intro h a hnd ha hab
      obtain ⟨hc, hrest⟩ := List.nodup_cons.mp hnd
      simp only [agingPass]
      rcases List.mem_cons.mp ha with e | m
      · subst e
        rw [agingPass_not_mem better rest _ a hc]
        simp [hab]
      · have hac : a ≠ c := fun e => hc (by rw [← e]; exact m)
        rw [ih _ a hrest m hab]
        by_cases hcb : c = better
        · simp [hcb]
        · simp [hcb, Function.update_noteq hac]

theorem ageTask_prio_dynamic (t : task_t) :
    (ageTask t).prio_dynamic =
      if t.prio_dynamic > -20 then t.prio_dynamic - 1 else -20 := by
  unfold ageTask PRIORITY_MAX PRIORITY_ALPHA
  by_cases h : t.prio_dynamic > -20
  · have h2 : ¬ (t.prio_dynamic + -1 < -20) := by omega
    simp only [h, if_true, h2, if_false]
    omega
  · by_cases h3 : t.prio_dynamic < -20
    · simp [h, h3]
    · simp only [h, if_false, h3]
      omega

/-- Unfolding of `scheduler` on a non-empty queue. -/
theorem scheduler_cons (k : Kernel) (head : Nat) (rest : List Nat)
    (hq : k.readyQueue = head :: rest) :
    scheduler k =
      (some (findBetter k.heap (head :: rest) head),
        PPOS_PREEMPT_ENABLE
          (if (k.heap (findBetter k.heap (head :: rest) head)).user_task ≠ 0 then
            { PPOS_PREEMPT_DISABLE k with
              heap := resetPrio
                (agingPass (findBetter k.heap (head :: rest) head) (head :: rest) k.heap)
                (findBetter k.heap (head :: rest) head) }
          else PPOS_PREEMPT_DISABLE k)) := by
  simp only [scheduler, schedulerSteps, PPOS_PREEMPT_DISABLE, hq]
  split_ifs <;> rfl

/-- Unfolding of `scheduler` on the empty queue. -/
theorem scheduler_nil (k : Kernel) (hq : k.readyQueue = []) :
    scheduler k = (none, PPOS_PREEMPT_ENABLE (PPOS_PREEMPT_DISABLE k)) := by
  simp only [scheduler, schedulerSteps, PPOS_PREEMPT_DISABLE, hq]

/-- The heap left by a call that selects the user task `b` on a queue without
repeated nodes: `b` is reset, the other queue members are aged, the rest of the
heap is untouched. -/
theorem scheduler_heap_user (k : Kernel) (b : Nat) (hnd : k.readyQueue.Nodup)
    (hsel : (scheduler k).1 = some b) (hu : (k.heap b).user_task ≠ 0) (a : Nat) :
    (scheduler k).2.heap a =
      if a = b then { k.heap b with prio_dynamic := (k.heap b).prio_static }
      else if a ∈ k.readyQueue then ageTask (k.heap a) else k.heap a := by
  cases hq : k.readyQueue with
  | nil =>
      rw [scheduler_nil k hq] at hsel
      exact absurd hsel (by simp)
  | cons head rest =>
      rw [scheduler_cons k head rest hq] at hsel ⊢
      have hb : findBetter k.heap (head :: rest) head = b := by simpa using hsel
      rw [hb]
      rw [hq] at hnd
      simp only [hu, PPOS_PREEMPT_ENABLE, PPOS_PREEMPT_DISABLE, resetPrio, ne_eq,
        not_false_eq_true, if_true]
      by_cases hab : a = b
      · subst hab
        simp [agingPass_better]
      · rw [Function.update_noteq hab]
        by_cases hm : a ∈ head :: rest
        · rw [agingPass_mem b _ _ a hnd hm hab]
          simp [hab, hm]
        · rw [agingPass_not_mem b _ _ a hm]
          simp [hab, hm]

/-- A call that selects a system task leaves the heap as it was. -/
theorem scheduler_heap_system (k : Kernel) (b : Nat)
    (hsel : (scheduler k).1 = some b) (hu : (k.heap b).user_task = 0) :
    (scheduler k).2.heap = k.heap := by
  cases hq : k.readyQueue with
  | nil =>
      rw [scheduler_nil k hq] at hsel
      exact absurd hsel (by simp)
  | cons head rest =>
      rw [scheduler_cons k head rest hq] at hsel ⊢
      have hb : findBetter k.heap (head :: rest) head = b := by simpa using hsel
      rw [hb]
      simp [hu, PPOS_PREEMPT_ENABLE, PPOS_PREEMPT_DISABLE]

/-- The task selected on a non-empty queue is a member that no member beats. -/
theorem scheduler_selected (k : Kernel) (hne : k.readyQueue ≠ []) :
    ∃ b, (scheduler k).1 = some b ∧ b ∈ k.readyQueue ∧
      ∀ a ∈ k.readyQueue, isBetter k.heap a b = false := by
  cases hq : k.readyQueue with
  | nil => exact absurd hq hne
  | cons head rest =>
      rw [scheduler_cons k head rest hq]
      obtain ⟨hm, hall⟩ := findBetter_head k.heap head rest
      exact ⟨_, rfl, hm, hall⟩

/-! ## Theorems: the priority scheduler -/

/-- C1: on a non-empty ready queue whose tasks have pairwise distinct ids,
`scheduler` returns a queue member whose dynamic priority, as read before the
call, is the smallest of the queue, and every other member with that same
priority has a larger id. -/
theorem scheduler_selects_minimum (k : Kernel) (hne : k.readyQueue ≠ [])
    (hid : (k.readyQueue.map fun a => (k.heap a).id).Nodup) :
    ∃ b, (scheduler k).1 = some b ∧ b ∈ k.readyQueue ∧
      (∀ a ∈ k.readyQueue, (k.heap b).prio_dynamic ≤ (k.heap a).prio_dynamic) ∧
      (∀ a ∈ k.readyQueue, a ≠ b →
        (k.heap a).prio_dynamic = (k.heap b).prio_dynamic → (k.heap b).id < (k.heap a).id) := by
  obtain ⟨b, hsel, hmem, hall⟩ := scheduler_selected k hne
  refine ⟨b, hsel, hmem, ?_, ?_⟩
  · intro a ha
    have h := hall a ha
    rw [Bool.eq_false_iff, Ne, isBetter_iff] at h
    omega
  · intro a ha hab hp
    have h := hall a ha
    rw [Bool.eq_false_iff, Ne, isBetter_iff] at h
    have hne2 : (k.heap a).id ≠ (k.heap b).id := fun e =>
      hab (List.inj_on_of_nodup_map hid ha hmem e)
    omega

theorem scheduler_selects_minimum_witness :
    threeTasks.readyQueue ≠ [] ∧
    (threeTasks.readyQueue.map fun a => (threeTasks.heap a).id).Nodup ∧
    ∃ b, (scheduler threeTasks).1 = some b ∧ b ∈ threeTasks.readyQueue ∧
      (∀ a ∈ threeTasks.readyQueue,
        (threeTasks.heap b).prio_dynamic ≤ (threeTasks.heap a).prio_dynamic) ∧
      (∀ a ∈ threeTasks.readyQueue, a ≠ b →
        (threeTasks.heap a).prio_dynamic = (threeTasks.heap b).prio_dynamic →
          (threeTasks.heap b).id < (threeTasks.heap a).id) :=
  ⟨by decide, by decide, scheduler_selects_minimum threeTasks (by decide) (by decide)⟩

/-- C2: `scheduler` returns NULL exactly when the ready queue is empty, and
then no task control block, nor the queue, the running task or the clock, is
changed. -/
theorem scheduler_null_iff_empty (k : Kernel) :
    ((scheduler k).1 = none ↔ k.readyQueue = []) ∧
    (k.readyQueue = [] →
      (scheduler k).2.heap = k.heap ∧ (scheduler k).2.readyQueue = k.readyQueue ∧
      (scheduler k).2.taskExec = k.taskExec ∧ (scheduler k).2.systemTime = k.systemTime) := by
  constructor
  · constructor
    · intro hnone
      by_contra hne
      obtain ⟨b, hsel, _⟩ := scheduler_selected k hne
      rw [hsel] at hnone
      exact absurd hnone (by simp)
    · intro hq
      rw [scheduler_nil k hq]
  · intro hq
    rw [scheduler_nil k hq]
    exact ⟨rfl, rfl, rfl, rfl⟩

theorem scheduler_null_iff_empty_witness :
    (scheduler noReadyTask).1 = none ∧ (scheduler noReadyTask).2.heap = noReadyTask.heap ∧
    ((scheduler threeTasks).1 = none → False) :=
  ⟨(scheduler_null_iff_empty noReadyTask).1.mpr rfl,
    ((scheduler_null_iff_empty noReadyTask).2 rfl).1,
    fun h => absurd ((scheduler_null_iff_empty threeTasks).1.mp h) (by decide)⟩

/-- C3: when the selected task is a user task, every other user task of the
ready queue whose dynamic priority before the call is `d ≥ -20` has dynamic
priority `d - 1` after the call if `d > -20`, and `-20` if `d = -20`. The
queue is a circular list, so no node occurs twice. -/
theorem scheduler_ages_other_user_tasks (k : Kernel) (b a : Nat)
    (hnd : k.readyQueue.Nodup) (hsel : (scheduler k).1 = some b)
    (hub : (k.heap b).user_task ≠ 0) (ha : a ∈ k.readyQueue) (hab : a ≠ b)
    (_hua : (k.heap a).user_task ≠ 0) (_hd : -20 ≤ (k.heap a).prio_dynamic) :
    ((k.heap a).prio_dynamic > -20 →
      ((scheduler k).2.heap a).prio_dynamic = (k.heap a).prio_dynamic - 1) ∧
    ((k.heap a).prio_dynamic = -20 → ((scheduler k).2.heap a).prio_dynamic = -20) ∧
    ((scheduler k).2.heap a).prio_dynamic ≥ PRIORITY_MAX := by
  rw [scheduler_heap_user k b hnd hsel hub a]
  simp only [hab, if_false, ha, if_true, ageTask_prio_dynamic, PRIORITY_MAX]
  refine ⟨?_, ?_, ?_⟩
  · intro h; simp [h]
  · intro h; simp [h]
  · split <;> omega

theorem scheduler_ages_other_user_tasks_witness :
    threeTasks.readyQueue.Nodup ∧ (scheduler threeTasks).1 = some 0 ∧
    (threeTasks.heap 0).user_task ≠ 0 ∧ 2 ∈ threeTasks.readyQueue ∧
    (threeTasks.heap 2).user_task ≠ 0 ∧ (threeTasks.heap 2).prio_dynamic = 5 ∧
    ((scheduler threeTasks).2.heap 2).prio_dynamic = (threeTasks.heap 2).prio_dynamic - 1 :=
  ⟨by decide, by decide, by decide, by decide, by decide, by decide,
    (scheduler_ages_other_user_tasks threeTasks 0 2 (by decide) (by decide) (by decide)
      (by decide) (by decide) (by decide) (by decide)).1 (by decide)⟩

/-- C4: when the task selected on a non-empty ready queue is a user task, its
dynamic priority after the call equals its static priority, and its static
priority is the one it had before the call. -/
theorem scheduler_resets_selected (k : Kernel) (b : Nat)
    (hsel : (scheduler k).1 = some b) (hub : (k.heap b).user_task ≠ 0) :
    ((scheduler k).2.heap b).prio_dynamic = ((scheduler k).2.heap b).prio_static ∧
    ((scheduler k).2.heap b).prio_static = (k.heap b).prio_static := by
  cases hq : k.readyQueue with
  | nil =>
      rw [scheduler_nil k hq] at hsel
      exact absurd hsel (by simp)
  | cons head rest =>
      rw [scheduler_cons k head rest hq] at hsel ⊢
      have hb : findBetter k.heap (head :: rest) head = b := by simpa using hsel
      rw [hb]
      simp [hub, PPOS_PREEMPT_ENABLE, PPOS_PREEMPT_DISABLE, resetPrio, agingPass_better]

theorem scheduler_resets_selected_witness :
    ((scheduler threeTasks).2.heap 0).prio_dynamic =
      ((scheduler threeTasks).2.heap 0).prio_static ∧
    ((scheduler threeTasks).2.heap 0).prio_static = (threeTasks.heap 0).prio_static :=
  scheduler_resets_selected threeTasks 0 (by decide) (by decide)

/-- C5: the main task (id 0, a system task) is ready with dynamic priority 0
next to a user task of priority -5; `scheduler` selects the user task and the
aging loop, which only tests `current != better`, lowers the dynamic priority
of the system task to -1. -/
theorem scheduler_ages_system_task :
    (mainAndUser.heap 0).user_task = 0 ∧ 0 ∈ mainAndUser.readyQueue ∧
    (mainAndUser.heap 0).prio_dynamic = 0 ∧
    (scheduler mainAndUser).1 = some 1 ∧
    ((scheduler mainAndUser).2.heap 0).prio_dynamic = -1 ∧
    ((schedulerIter 1 mainAndUser).heap 0).prio_dynamic ≠ (mainAndUser.heap 0).prio_dynamic := by
  decide

/-- C6: two ready queues holding the same tasks (pairwise distinct ids) in
different orders make `scheduler` select the same task and leave the same
heap, hence the same dynamic priority in every task. -/
theorem scheduler_order_independent (k : Kernel) (q : List Nat)
    (hperm : k.readyQueue.Perm q)
    (hid : (k.readyQueue.map fun a => (k.heap a).id).Nodup) :
    (scheduler { k with readyQueue := q }).1 = (scheduler k).1 ∧
    (scheduler { k with readyQueue := q }).2.heap = (scheduler k).2.heap := by
  by_cases hne : k.readyQueue = []
  · have hq : q = [] := by
      rw [hne] at hperm
      exact (List.Perm.nil_eq hperm).symm
    have e : ({ k with readyQueue := q } : Kernel) = k := by
      cases k
      simp only [Kernel.mk.injEq, true_and, and_true]
      rw [hq]; exact hne.symm
    rw [e]
    exact ⟨rfl, rfl⟩
  · have hne2 : ({ k with readyQueue := q } : Kernel).readyQueue ≠ [] := by
      intro hq
      have hq2 : q = [] := hq
      rw [hq2] at hperm
      exact hne (List.Perm.eq_nil hperm)
    obtain ⟨b, hsel, hmem, hall⟩ := scheduler_selected k hne
    obtain ⟨c, hsel2, hmem2, hall2⟩ := scheduler_selected { k with readyQueue := q } hne2
    have hmem3 : c ∈ k.readyQueue := hperm.mem_iff.mpr hmem2
    have hmem4 : b ∈ q := hperm.mem_iff.mp hmem
    have h1 := hall c hmem3
    have h2 := hall2 b hmem4
    rw [Bool.eq_false_iff, Ne, isBetter_iff] at h1 h2
    have hidbc : (k.heap c).id = (k.heap b).id := by
      have h3 : ({ k with readyQueue := q } : Kernel).heap = k.heap := rfl
      rw [h3] at h2
      omega
    have hcb : c = b := List.inj_on_of_nodup_map hid hmem3 hmem hidbc
    subst hcb
    refine ⟨by rw [hsel, hsel2], ?_⟩
    by_cases hu : (k.heap c).user_task = 0
    · rw [scheduler_heap_system k c hsel hu,
        scheduler_heap_system { k with readyQueue := q } c hsel2 hu]
    · have hnd : k.readyQueue.Nodup := List.Nodup.of_map _ hid
      have hnd2 : q.Nodup := hperm.nodup_iff.mp hnd
      funext a
      rw [scheduler_heap_user k c hnd hsel hu a,
        scheduler_heap_user { k with readyQueue := q } c hnd2 hsel2 hu a]
      by_cases hac : a = c
      · simp [hac]
      · by_cases ham : a ∈ k.readyQueue
        · have ham2 : a ∈ q := hperm.mem_iff.mp ham
          simp [hac, ham, ham2]
        · have ham2 : a ∉ q := fun m => ham (hperm.mem_iff.mpr m)
          simp [hac, ham, ham2]

theorem scheduler_order_independent_witness :
    (scheduler { threeTasks with readyQueue := [2, 0, 1] }).1 = (scheduler threeTasks).1 ∧
    (scheduler { threeTasks with readyQueue := [2, 0, 1] }).2.heap =
      (scheduler threeTasks).2.heap :=
  scheduler_order_independent threeTasks [2, 0, 1] (by decide) (by decide)

/-! ## Theorems: priority functions and creation hook -/

/-- C7: after `task_setprio(task, p)`, `task_getprio(task)` returns `p` clamped
to [-20, 20] and the dynamic priority of the task is that same value; a NULL
argument of either function stands for `taskExec`. -/
theorem task_setprio_getprio (k : Kernel) (task : Option Nat) (p : Int) :
    task_getprio (task_setprio k task p) task =
      (if p < -20 then -20 else if p > 20 then 20 else p) ∧
    ((task_setprio k task p).heap (task.getD k.taskExec)).prio_dynamic =
      (if p < -20 then -20 else if p > 20 then 20 else p) ∧
    task_setprio k none p = task_setprio k (some k.taskExec) p ∧
    task_getprio k none = task_getprio k (some k.taskExec) := by
  have hclamp : (if (if p < PRIORITY_MAX then PRIORITY_MAX else p) > PRIORITY_MIN
      then PRIORITY_MIN else (if p < PRIORITY_MAX then PRIORITY_MAX else p)) =
      (if p < -20 then -20 else if p > 20 then 20 else p) := by
    unfold PRIORITY_MAX PRIORITY_MIN
    split_ifs <;> omega
  refine ⟨?_, ?_, rfl, rfl⟩
  · cases task <;> simp [task_getprio, task_setprio, hclamp]
  · cases task <;> simp [task_setprio, hclamp]

/-- C8: `after_task_create` sets static and dynamic priority to 0, the quantum
to 20, `exec_start` to the current clock and processor time, last-scheduled
tick, activation count and running time to 0; for an id `≥ 0` the task is a
system task exactly when its id is 0 or 1. -/
theorem after_task_create_fields (k : Kernel) (task : Nat)
    (hid : 0 ≤ (k.heap task).id) :
    ((after_task_create k task).heap task).prio_static = 0 ∧
    ((after_task_create k task).heap task).prio_dynamic = 0 ∧
    ((after_task_create k task).heap task).quantum = 20 ∧
    ((after_task_create k task).heap task).exec_start = systime k ∧
    ((after_task_create k task).heap task).proc_time = 0 ∧
    ((after_task_create k task).heap task).last_proc = 0 ∧
    ((after_task_create k task).heap task).activations = 0 ∧
    ((after_task_create k task).heap task).running_time = 0 ∧
    ((after_task_create k task).heap task).id = (k.heap task).id ∧
    (((after_task_create k task).heap task).user_task = 0 ↔
      ((k.heap task).id = 0 ∨ (k.heap task).id = 1)) := by
  simp only [after_task_create, PPOS_PREEMPT_ENABLE, Function.update_same, PRIORITY_DEF,
    QUANTUM_SIZE, true_and]
  by_cases h : (k.heap task).id > 1
  · simp only [h, if_true]
    constructor
    · intro h0; exact absurd h0 (by decide)
    · intro h0; omega
  · simp only [h, if_false, true_iff]
    omega

theorem after_task_create_fields_witness :
    0 ≤ (threeTasks.heap 2).id ∧
    ((after_task_create threeTasks 2).heap 2).prio_dynamic = 0 ∧
    ((after_task_create threeTasks 2).heap 2).exec_start = 7 ∧
    ((after_task_create threeTasks 2).heap 2).user_task ≠ 0 ∧
    ((after_task_create threeTasks 3).heap 3).user_task = 0 :=
  ⟨by decide, (after_task_create_fields threeTasks 2 (by decide)).2.1,
    (after_task_create_fields threeTasks 2 (by decide)).2.2.2.1,
    fun h => absurd ((after_task_create_fields threeTasks 2 (by decide)).2.2.2.2.2.2.2.2.2.mp h)
      (by decide),
    (after_task_create_fields threeTasks 3 (by decide)).2.2.2.2.2.2.2.2.2.mpr (Or.inr rfl)⟩

/-! ## Lemmas: the disk scheduling loops -/

theorem sstf_loop_eq (head : Int) :
    ∀ (l : List diskrequest_t) (i : Nat) (best : Option Nat) (m : Int),
      sstf_loop head l i best m =
        scanMin (fun _ => true) (fun r => c_abs (wrapInt (r.block - head))) l i best m := by
  intro l
  induction l with
  | nil => intro i best m; rfl
  | cons c rest ih =>
      intro i best m
      simp only [sstf_loop, scanMin, true_and]
      split <;> exact ih _ _ _

theorem cscan_loop_eq (head : Int) :
    ∀ (l : List diskrequest_t) (i : Nat) (fc wc : Option Nat) (mf mw : Int),
      cscan_loop head l i fc wc mf mw =
        (scanMin (fun r => decide (r.block ≥ head)) (fun r => wrapInt (r.block - head))
            l i fc mf,
          scanMin (fun r => decide (r.block < head)) (fun r => r.block) l i wc mw) := by
  intro l
  induction l with
  | nil => intro i fc wc mf mw; rfl
  | cons c rest ih =>
      intro i fc wc mf mw
      simp only [cscan_loop, scanMin, decide_eq_true_eq]
      by_cases h1 : c.block ≥ head
      · have h2 : ¬ c.block < head := by omega
        by_cases h3 : wrapInt (c.block - head) < mf
        · simp only [h1, h2, h3, if_true, and_self, false_and, if_false]
          exact ih _ _ _ _ _
        · simp only [h1, h2, h3, if_true, and_false, false_and, if_false]
          exact ih _ _ _ _ _
      · have h2 : c.block < head := by omega
        by_cases h3 : c.block < mw
        · simp only [h1, h2, h3, if_false, if_true, and_self, false_and]
          exact ih _ _ _ _ _
        · simp only [h1, h2, h3, if_false, and_false, false_and]
          exact ih _ _ _ _ _

/-- The pass keeps `best` when no eligible key is below `m`; otherwise it
returns the first position holding the smallest eligible key. -/
theorem scanMin_spec (p : diskrequest_t → Bool) (f : diskrequest_t → Int) :
    ∀ (l : List diskrequest_t) (i : Nat) (best : Option Nat) (m : Int),
      ((∀ r ∈ l, p r = true → m ≤ f r) → scanMin p f l i best m = best) ∧
      ((∃ r ∈ l, p r = true ∧ f r < m) →
        ∃ j r, scanMin p f l i best m = some (i + j) ∧ l[j]? = some r ∧ p r = true ∧
          f r < m ∧ (∀ x ∈ l, p x = true → f r ≤ f x) ∧
          (∀ n x, n < j → l[n]? = some x → p x = true → f r < f x)) := by
  intro l
  induction l with
  | nil =>
      intro i best m
      refine ⟨fun _ => rfl, ?_⟩
      rintro ⟨r, hr, _⟩
      exact absurd hr (List.not_mem_nil r)
  | cons c rest ih =>
      intro i best m
      constructor
      · intro hall
        have hc : ¬ (p c = true ∧ f c < m) := by
          rintro ⟨hp, hlt⟩
          have := hall c (List.mem_cons_self _ _) hp
          omega
        simp only [scanMin, hc, if_false]
        exact (ih (i + 1) best m).1 (fun r hr hp => hall r (List.mem_cons_of_mem _ hr) hp)
      · intro hex
        by_cases hc : p c = true ∧ f c < m
        · simp only [scanMin, hc, and_self, if_true]
          by_cases hex2 : ∃ r ∈ rest, p r = true ∧ f r < f c
          · obtain ⟨j, r, hres, hget, hp, hlt, hmin, hfirst⟩ :=
              (ih (i + 1) (some i) (f c)).2 hex2
            refine ⟨j + 1, r, ?_, by simpa using hget, hp, by omega, ?_, ?_⟩
            · rw [hres]; congr 1; omega
            · intro x hx hpx
              rcases List.mem_cons.mp hx with e | hm
              · rw [e]; omega
              · exact hmin x hm hpx
            · intro n x hn hx hpx
              cases n with
              | zero =>
                  have e : c = x := by simpa using hx
                  rw [← e]; exact hlt
              | succ n =>
                  exact hfirst n x (by omega) (by simpa using hx) hpx
          · have hall : ∀ r ∈ rest, p r = true → f c ≤ f r := by
              intro r hr hp
              by_contra hlt
              exact hex2 ⟨r, hr, hp, by omega⟩
            refine ⟨0, c, ?_, by simp, hc.1, hc.2, ?_, ?_⟩
            · rw [(ih (i + 1) (some i) (f c)).1 hall]; rfl
            · intro x hx hpx
              rcases List.mem_cons.mp hx with e | hm
              · rw [e]
              · exact hall x hm hpx
            · intro n x hn
              exact absurd hn (by omega)
        · simp only [scanMin, hc, if_false]
          have hex2 : ∃ r ∈ rest, p r = true ∧ f r < m := by
            obtain ⟨r, hr, hp, hlt⟩ := hex
            rcases List.mem_cons.mp hr with e | hm
            · exact absurd ⟨by rw [← e]; exact hp, by rw [← e]; exact hlt⟩ hc
            · exact ⟨r, hm, hp, hlt⟩
          obtain ⟨j, r, hres, hget, hp, hlt, hmin, hfirst⟩ := (ih (i + 1) best m).2 hex2
          have hcm : p c = true → m ≤ f c := by
            intro hpc
            by_contra hlt2
            exact hc ⟨hpc, by omega⟩
          refine ⟨j + 1, r, ?_, by simpa using hget, hp, hlt, ?_, ?_⟩
          · rw [hres]; congr 1; omega
          · intro x hx hpx
            rcases List.mem_cons.mp hx with e | hm
            · rw [e]; have := hcm (by rw [← e]; exact hpx); omega
            · exact hmin x hm hpx
          · intro n x hn hx hpx
            cases n with
            | zero =>
                have e : c = x := by simpa using hx
                have := hcm (by rw [e]; exact hpx)
                rw [← e]; omega
            | succ n =>
                exact hfirst n x (by omega) (by simpa using hx) hpx

/-- Within the block range of a disk the subtraction of `sstf_scheduler` and
`abs` do not overflow: the computed distance is the exact one and is below
`INT_MAX`. -/
theorem seek_distance_exact (n block head : Int) (hn : n ≤ INT_MAX)
    (hb : 0 ≤ block ∧ block < n) (hh : 0 ≤ head ∧ head < n) :
    c_abs (wrapInt (block - head)) = |block - head| ∧ |block - head| < INT_MAX ∧
      wrapInt (block - head) = block - head := by
  unfold INT_MAX at hn ⊢
  have hw : wrapInt (block - head) = block - head := by
    unfold wrapInt; omega
  rw [hw]
  refine ⟨?_, ?_, rfl⟩
  · unfold c_abs wrapInt
    by_cases hneg : block - head < 0
    · rw [if_pos hneg, abs_of_neg hneg]; omega
    · rw [if_neg hneg, abs_of_nonneg (by omega)]; omega
  · rw [abs_lt]; constructor <;> omega

/-! ## Theorems: the disk request scheduler -/

/-- C9: on a non-empty pending queue with all blocks and the head position in
`[0, numBlocks)` (`numBlocks` being a C `int`, hence at most `INT_MAX`),
`sstf_scheduler` returns the position `i` of a pending request `r` whose
distance `|r.block - head|` is at most that of every pending request, and
every request before position `i` in scan order is strictly farther. -/
theorem sstf_scheduler_shortest_seek (s : DiskState)
    (hne : s.disk.requestQueue ≠ [])
    (hnum : s.disk.numBlocks ≤ INT_MAX)
    (hhead : 0 ≤ s.perf_tracker.current_head_position ∧
      s.perf_tracker.current_head_position < s.disk.numBlocks)
    (hblocks : ∀ q ∈ s.disk.requestQueue, 0 ≤ q.block ∧ q.block < s.disk.numBlocks) :
    ∃ i r, sstf_scheduler s = some i ∧ s.disk.requestQueue[i]? = some r ∧
      (∀ q ∈ s.disk.requestQueue,
        |r.block - s.perf_tracker.current_head_position| ≤
          |q.block - s.perf_tracker.current_head_position|) ∧
      (∀ j q, j < i → s.disk.requestQueue[j]? = some q →
        |r.block - s.perf_tracker.current_head_position| <
          |q.block - s.perf_tracker.current_head_position|) := by
  cases hq : s.disk.requestQueue with
  | nil => exact absurd hq hne
  | cons c rest =>
      rw [hq] at hblocks
      have hex : ∃ r ∈ c :: rest, (fun _ : diskrequest_t => true) r = true ∧
          (fun r : diskrequest_t =>
            c_abs (wrapInt (r.block - s.perf_tracker.current_head_position))) r < INT_MAX := by
        refine ⟨c, List.mem_cons_self _ _, rfl, ?_⟩
        have h := seek_distance_exact _ c.block _ hnum (hblocks c (List.mem_cons_self _ _)) hhead
        show c_abs (wrapInt (c.block - s.perf_tracker.current_head_position)) < INT_MAX
        rw [h.1]; exact h.2.1
      obtain ⟨j, r, hres, hget, _, _, hmin, hfirst⟩ :=
        (scanMin_spec _ _ (c :: rest) 0 none INT_MAX).2 hex
      have hr : r ∈ c :: rest := List.getElem?_mem hget
      have hdr := (seek_distance_exact _ r.block _ hnum (hblocks r hr) hhead).1
      refine ⟨j, r, ?_, hget, ?_, ?_⟩
      · simp only [sstf_scheduler, hq, sstf_loop_eq]
        rw [hres, Nat.zero_add]
      · intro x hx
        have h := hmin x hx rfl
        have hdx := (seek_distance_exact _ x.block _ hnum (hblocks x hx) hhead).1
        simp only [hdr, hdx] at h
        exact h
      · intro n x hn hx
        have hxm : x ∈ c :: rest := List.getElem?_mem hx
        have h := hfirst n x hn hx rfl
        have hdx := (seek_distance_exact _ x.block _ hnum (hblocks x hxm) hhead).1
        simp only [hdr, hdx] at h
        exact h

theorem sstf_scheduler_shortest_seek_witness :
    tiedRequests.disk.requestQueue ≠ [] ∧
    tiedRequests.disk.numBlocks ≤ INT_MAX ∧
    (0 ≤ tiedRequests.perf_tracker.current_head_position ∧
      tiedRequests.perf_tracker.current_head_position < tiedRequests.disk.numBlocks) ∧
    (∀ q ∈ tiedRequests.disk.requestQueue, 0 ≤ q.block ∧ q.block < tiedRequests.disk.numBlocks) ∧
    sstf_scheduler tiedRequests = some 0 ∧
    ∃ i r, sstf_scheduler tiedRequests = some i ∧ tiedRequests.disk.requestQueue[i]? = some r ∧
      (∀ q ∈ tiedRequests.disk.requestQueue,
        |r.block - tiedRequests.perf_tracker.current_head_position| ≤
          |q.block - tiedRequests.perf_tracker.current_head_position|) ∧
      (∀ j q, j < i → tiedRequests.disk.requestQueue[j]? = some q →
        |r.block - tiedRequests.perf_tracker.current_head_position| <
          |q.block - tiedRequests.perf_tracker.current_head_position|) :=
  ⟨by decide, by decide, by decide, by decide, by decide,
    sstf_scheduler_shortest_seek tiedRequests (by decide) (by decide) (by decide) (by decide)⟩

/-! ## Theorems: timer tick and hand-off hooks -/

/-- C17: a timer tick adds one to the clock modulo 2^32; when the running task
is a system task nothing else changes and no yield is forced; when it is a user
task its quantum decreases by exactly one. The decrement is a signed 32-bit
operation: it is exact for every `int` value of the quantum above
`-2147483648`, the one value at which `quantum--` overflows. -/
theorem interrupt_handler_tick (k : Kernel) :
    (interrupt_handler k).1.systemTime = (k.systemTime + 1) % 4294967296 ∧
    ((k.heap k.taskExec).user_task = 0 →
      interrupt_handler k =
        ({ k with systemTime := (k.systemTime + 1) % 4294967296 }, false)) ∧
    ((k.heap k.taskExec).user_task ≠ 0 →
      ((interrupt_handler k).1.heap k.taskExec).quantum =
        wrapInt ((k.heap k.taskExec).quantum - 1) ∧
      (-2147483648 < (k.heap k.taskExec).quantum →
        (k.heap k.taskExec).quantum ≤ 2147483647 →
        ((interrupt_handler k).1.heap k.taskExec).quantum =
          (k.heap k.taskExec).quantum - 1)) := by
  by_cases hu : (k.heap k.taskExec).user_task = 0
  · simp [interrupt_handler, hu, uadd32]
  · have hq : ((interrupt_handler k).1.heap k.taskExec).quantum =
        wrapInt ((k.heap k.taskExec).quantum - 1) := by
      simp only [interrupt_handler, hu, if_false]
      split <;> simp
    refine ⟨?_, fun h => absurd h hu, fun _ => ⟨hq, fun hlo hhi => ?_⟩⟩
    · simp only [interrupt_handler, hu, if_false, uadd32]
      split <;> rfl
    · rw [hq, wrapInt_id _ (by omega) (by omega)]

theorem interrupt_handler_tick_witness :
    (threeTasks.heap threeTasks.taskExec).user_task = 0 ∧
    interrupt_handler threeTasks =
      ({ threeTasks with systemTime := (threeTasks.systemTime + 1) % 4294967296 }, false) ∧
    (taskARunning.heap taskARunning.taskExec).user_task ≠ 0 ∧
    ((interrupt_handler taskARunning).1.heap taskARunning.taskExec).quantum =
      (taskARunning.heap taskARunning.taskExec).quantum - 1 :=
  ⟨by decide, (interrupt_handler_tick threeTasks).2.1 (by decide), by decide,
    ((interrupt_handler_tick taskARunning).2.2 (by decide)).2 (by decide) (by decide)⟩

/-- C18: a timer tick calls `task_yield()` exactly when the running task is a
user task, its quantum after the decrement is `≤ 0` and the Preemption Gate is
enabled; with the gate disabled no tick forces a yield. -/
theorem interrupt_handler_yield_iff (k : Kernel) :
    ((interrupt_handler k).2 = true ↔
      ((k.heap k.taskExec).user_task ≠ 0 ∧
        ((interrupt_handler k).1.heap k.taskExec).quantum ≤ 0 ∧
        PPOS_IS_PREEMPT_ACTIVE k = true)) ∧
    (PPOS_IS_PREEMPT_ACTIVE k = false → (interrupt_handler k).2 = false) := by
  by_cases hu : (k.heap k.taskExec).user_task = 0
  · simp [interrupt_handler, hu]
  · by_cases hg : k.preemption = true
    · by_cases hq : wrapInt ((k.heap k.taskExec).quantum - 1) ≤ 0
      · simp [interrupt_handler, hu, PPOS_IS_PREEMPT_ACTIVE, hg, hq]
      · simp [interrupt_handler, hu, PPOS_IS_PREEMPT_ACTIVE, hg, hq]
    · simp [interrupt_handler, hu, PPOS_IS_PREEMPT_ACTIVE, hg]

theorem interrupt_handler_yield_iff_witness :
    (interrupt_handler taskARunning).2 = true ∧
    PPOS_IS_PREEMPT_ACTIVE { taskARunning with preemption := false } = false ∧
    (interrupt_handler { taskARunning with preemption := false }).2 = false :=
  ⟨(interrupt_handler_yield_iff taskARunning).1.mpr (by decide), by decide,
    (interrupt_handler_yield_iff { taskARunning with preemption := false }).2 (by decide)⟩

/-- C19, as stated, fails: the activation counter is an `unsigned int`, and for
a user task activated `2^32 - 1` times the hand-off-in leaves the counter at 0
instead of one more. -/
theorem after_task_switch_counter_wraps :
    (manyActivations.heap 0).user_task ≠ 0 ∧
    (manyActivations.heap 0).activations = 4294967295 ∧
    ((after_task_switch manyActivations (some 0)).heap 0).activations = 0 ∧
    ((after_task_switch manyActivations (some 0)).heap 0).activations ≠
      (manyActivations.heap 0).activations + 1 := by
  decide

/-- C19, amended: on hand-off-in of a user task the activation count increases
by one modulo 2^32 (by exactly one below `2^32 - 1`), the last-scheduled tick
becomes the clock value and the quantum becomes 20; for a system task or a NULL
argument no task control block changes; the Preemption Gate is enabled on
return. -/
theorem after_task_switch_fields (k : Kernel) (task : Option Nat) :
    (∀ a, task = some a → (k.heap a).user_task ≠ 0 →
      ((after_task_switch k task).heap a).activations =
        ((k.heap a).activations + 1) % 4294967296 ∧
      ((k.heap a).activations < 4294967295 →
        ((after_task_switch k task).heap a).activations = (k.heap a).activations + 1) ∧
      ((after_task_switch k task).heap a).last_proc = systime k ∧
      ((after_task_switch k task).heap a).quantum = 20 ∧
      ((after_task_switch k task).heap a).proc_time = (k.heap a).proc_time ∧
      ((after_task_switch k task).heap a).exec_start = (k.heap a).exec_start) ∧
    ((task = none ∨ ∃ a, task = some a ∧ (k.heap a).user_task = 0) →
      (after_task_switch k task).heap = k.heap) ∧
    PPOS_IS_PREEMPT_ACTIVE (after_task_switch k task) = true := by
  refine ⟨?_, ?_, ?_⟩
  · intro a ha hu
    subst ha
    simp only [after_task_switch, hu, ne_eq, not_false_eq_true, if_true, PPOS_PREEMPT_ENABLE,
      Function.update_same, uadd32, QUANTUM_SIZE, true_and]
    exact ⟨fun hlt => Nat.mod_eq_of_lt (by omega), trivial⟩
  · rintro (h | ⟨a, ha, hu⟩)
    · subst h
      rfl
    · subst ha
      simp [after_task_switch, hu, PPOS_PREEMPT_ENABLE]
  · cases task with
    | none => rfl
    | some a =>
        by_cases hu : (k.heap a).user_task = 0
        · simp [after_task_switch, hu, PPOS_PREEMPT_ENABLE, PPOS_IS_PREEMPT_ACTIVE]
        · simp [after_task_switch, hu, PPOS_PREEMPT_ENABLE, PPOS_IS_PREEMPT_ACTIVE]

theorem after_task_switch_fields_witness :
    (threeTasks.heap 1).user_task ≠ 0 ∧ (threeTasks.heap 1).activations < 4294967295 ∧
    ((after_task_switch threeTasks (some 1)).heap 1).activations =
      (threeTasks.heap 1).activations + 1 ∧
    ((after_task_switch threeTasks (some 1)).heap 1).last_proc = 7 ∧
    (after_task_switch threeTasks (some 3)).heap = threeTasks.heap ∧
    (after_task_switch threeTasks none).heap = threeTasks.heap :=
  ⟨by decide, by decide,
    ((after_task_switch_fields threeTasks (some 1)).1 1 rfl (by decide)).2.1 (by decide),
    ((after_task_switch_fields threeTasks (some 1)).1 1 rfl (by decide)).2.2.1,
    (after_task_switch_fields threeTasks (some 3)).2.1 (Or.inr ⟨3, rfl, by decide⟩),
    (after_task_switch_fields threeTasks none).2.1 (Or.inl rfl)⟩

/-- C20: on hand-off-out, when the running task is a user task whose
last-scheduled tick is `> 0`, its processor time grows by `now - last_proc` in
unsigned 32-bit arithmetic (by exactly that difference when nothing wraps);
otherwise its processor time is unchanged. No other accounting field of any
task changes, and no other task control block changes at all. -/
theorem before_task_switch_accounting (k : Kernel) (task : Option Nat) :
    (((k.heap k.taskExec).user_task ≠ 0 ∧ 0 < (k.heap k.taskExec).last_proc) →
      ((before_task_switch k task).heap k.taskExec).proc_time =
        uadd32 (k.heap k.taskExec).proc_time
          (usub32 (systime k) (k.heap k.taskExec).last_proc) ∧
      ((k.heap k.taskExec).last_proc ≤ systime k →
        (k.heap k.taskExec).proc_time + (systime k - (k.heap k.taskExec).last_proc)
          < 4294967296 →
        ((before_task_switch k task).heap k.taskExec).proc_time =
          (k.heap k.taskExec).proc_time + (systime k - (k.heap k.taskExec).last_proc))) ∧
    (¬ ((k.heap k.taskExec).user_task ≠ 0 ∧ 0 < (k.heap k.taskExec).last_proc) →
      ((before_task_switch k task).heap k.taskExec).proc_time =
        (k.heap k.taskExec).proc_time) ∧
    (∀ a, ((before_task_switch k task).heap a).exec_start = (k.heap a).exec_start ∧
      ((before_task_switch k task).heap a).last_proc = (k.heap a).last_proc ∧
      ((before_task_switch k task).heap a).activations = (k.heap a).activations ∧
      ((before_task_switch k task).heap a).running_time = (k.heap a).running_time ∧
      ((before_task_switch k task).heap a).quantum = (k.heap a).quantum ∧
      (a ≠ k.taskExec → (before_task_switch k task).heap a = k.heap a)) := by
  by_cases hc : (k.heap k.taskExec).user_task ≠ 0 ∧ 0 < (k.heap k.taskExec).last_proc
  · refine ⟨fun _ => ⟨?_, ?_⟩, fun h => absurd hc h, ?_⟩
    · simp [before_task_switch, PPOS_PREEMPT_DISABLE, hc.1, hc.2, systime]
    · intro hle hlt
      have hsub : usub32 (systime k) (k.heap k.taskExec).last_proc =
          systime k - (k.heap k.taskExec).last_proc := by
        unfold usub32
        omega
      simp only [before_task_switch, PPOS_PREEMPT_DISABLE, hc.1, hc.2, systime, ne_eq,
        not_false_eq_true, gt_iff_lt, and_self, if_true, Function.update_same]
      simp only [systime] at hsub hlt
      rw [hsub]
      exact Nat.mod_eq_of_lt hlt
    · intro a
      by_cases ha : a = k.taskExec
      · subst ha
        simp [before_task_switch, PPOS_PREEMPT_DISABLE, hc.1, hc.2]
      · simp [before_task_switch, PPOS_PREEMPT_DISABLE, hc.1, hc.2, Function.update_noteq ha]
  · have hk : (before_task_switch k task).heap = k.heap := by
      have hc2 : ¬ ((k.heap k.taskExec).user_task ≠ 0 ∧ (k.heap k.taskExec).last_proc > 0) := hc
      simp only [before_task_switch, PPOS_PREEMPT_DISABLE, hc2, if_false]
    refine ⟨fun h => absurd h hc, fun _ => by rw [hk], ?_⟩
    intro a
    rw [hk]
    exact ⟨rfl, rfl, rfl, rfl, rfl, fun _ => rfl⟩

theorem before_task_switch_accounting_witness :
    ((taskARunning.heap taskARunning.taskExec).user_task ≠ 0 ∧
      0 < (taskARunning.heap taskARunning.taskExec).last_proc) ∧
    ((before_task_switch taskARunning none).heap taskARunning.taskExec).proc_time =
      (taskARunning.heap taskARunning.taskExec).proc_time +
        (systime taskARunning - (taskARunning.heap taskARunning.taskExec).last_proc) ∧
    systime taskARunning - (taskARunning.heap taskARunning.taskExec).last_proc = 4 ∧
    ((before_task_switch threeTasks none).heap threeTasks.taskExec).proc_time =
      (threeTasks.heap threeTasks.taskExec).proc_time :=
  ⟨by decide,
    ((before_task_switch_accounting taskARunning none).1 (by decide)).2 (by decide) (by decide),
    by decide,
    (before_task_switch_accounting threeTasks none).2.1 (by decide)⟩

/-! ## Lemmas: the disk manager -/

/-- The selection depends only on `perf_tracker` and on the pending queue. -/
theorem disk_scheduler_congr (s1 s2 : DiskState)
    (hp : s1.perf_tracker = s2.perf_tracker)
    (hq : s1.disk.requestQueue = s2.disk.requestQueue) :
    disk_scheduler s1 = disk_scheduler s2 := by
  simp only [disk_scheduler, fcfs_scheduler, sstf_scheduler, cscan_scheduler, hp, hq]

/-- A pass of `scanMin` returns its starting candidate or a position of the
scanned list. -/
theorem scanMin_range (p : diskrequest_t → Bool) (f : diskrequest_t → Int)
    (l : List diskrequest_t) (i : Nat) (best : Option Nat) (m : Int) (j : Nat)
    (h : scanMin p f l i best m = some j) :
    best = some j ∨ (i ≤ j ∧ j < i + l.length) := by
  by_cases hex : ∃ r ∈ l, p r = true ∧ f r < m
  · obtain ⟨n, r, hres, hget, _⟩ := (scanMin_spec p f l i best m).2 hex
    rw [hres] at h
    have hj : i + n = j := by simpa using h
    have hn : n < l.length := by
      rcases List.getElem?_eq_some.mp hget with ⟨hlt, _⟩
      exact hlt
    exact Or.inr (by omega)
  · have hall : ∀ r ∈ l, p r = true → m ≤ f r := by
      intro r hr hp
      by_contra hlt
      exact hex ⟨r, hr, hp, by omega⟩
    rw [(scanMin_spec p f l i best m).1 hall] at h
    exact Or.inl h

/-- Every pointer returned by `disk_scheduler` designates a node of the
pending queue. -/
theorem disk_scheduler_lt_length (s : DiskState) (i : Nat)
    (h : disk_scheduler s = some i) : i < s.disk.requestQueue.length := by
  have hf : ∀ j, fcfs_scheduler s = some j → j < s.disk.requestQueue.length := by
    intro j hj
    unfold fcfs_scheduler at hj
    cases hq : s.disk.requestQueue with
    | nil => rw [hq] at hj; exact absurd hj (by simp)
    | cons c rest =>
        rw [hq] at hj
        have : 0 = j := by simpa using hj
        rw [← this]; simp
  have hs : ∀ j, sstf_scheduler s = some j → j < s.disk.requestQueue.length := by
    intro j hj
    unfold sstf_scheduler at hj
    cases hq : s.disk.requestQueue with
    | nil => rw [hq] at hj; exact absurd hj (by simp)
    | cons c rest =>
        rw [hq] at hj
        simp only [sstf_loop_eq] at hj
        rcases scanMin_range _ _ _ _ _ _ _ hj with e | ⟨_, hlt⟩
        · exact absurd e (by simp)
        · omega
  have hc : ∀ j, cscan_scheduler s = some j → j < s.disk.requestQueue.length := by
    intro j hj
    unfold cscan_scheduler at hj
    cases hq : s.disk.requestQueue with
    | nil => rw [hq] at hj; exact absurd hj (by simp)
    | cons c rest =>
        rw [hq] at hj
        simp only [cscan_loop_eq] at hj
        split at hj
        · rename_i fc hfc
          rcases scanMin_range _ _ _ _ _ _ _ hfc with e | ⟨_, hlt⟩
          · exact absurd e (by simp)
          · have : fc = j := by simpa using hj
            omega
        · rcases scanMin_range _ _ _ _ _ _ _ hj with e | ⟨_, hlt⟩
          · exact absurd e (by simp)
          · omega
  unfold disk_scheduler at h
  split_ifs at h
  · exact hf i h
  · exact hs i h
  · exact hc i h
  · exact hf i h

/-- Draining completions leaves the pending queue, `perf_tracker`, the
counters, the geometry and the shutdown flag as they were, and leaves the
device free when it was free or a completion was signalled. -/
theorem processCompletionEvents_frame (s : DiskState) :
    (processCompletionEvents s).1.disk.requestQueue = s.disk.requestQueue ∧
    (processCompletionEvents s).1.perf_tracker = s.perf_tracker ∧
    (processCompletionEvents s).1.stats = s.stats ∧
    (processCompletionEvents s).1.disk.numBlocks = s.disk.numBlocks ∧
    (processCompletionEvents s).1.system_shutdown_requested = s.system_shutdown_requested ∧
    ((s.disk.livre ≠ 0 ∨ s.disk.sinal ≠ 0) → (processCompletionEvents s).1.disk.livre ≠ 0) := by
  by_cases hs : s.disk.sinal = 0
  · simp [processCompletionEvents, hs]
  · cases hq : s.disk.diskQueue <;> simp [processCompletionEvents, hs, hq]

/-- With the device free, the request selected by `disk_scheduler` is taken
out of the pending queue and issued, and the head moves to its block. -/
theorem processNewRequests_dispatch (s : DiskState) (i : Nat) (r : diskrequest_t)
    (hl : s.disk.livre ≠ 0) (hsel : disk_scheduler s = some i)
    (hget : s.disk.requestQueue[i]? = some r) :
    (processNewRequests s).2 =
      some { disk_command := if r.operation = 1 then DISK_CMD_READ else DISK_CMD_WRITE,
             request := r } ∧
    (processNewRequests s).1.disk.requestQueue = s.disk.requestQueue.eraseIdx i ∧
    (processNewRequests s).1.perf_tracker.current_head_position = r.block ∧
    (processNewRequests s).1.perf_tracker.active_policy = s.perf_tracker.active_policy ∧
    (processNewRequests s).1.disk.numBlocks = s.disk.numBlocks ∧
    (processNewRequests s).1.disk.livre = 0 := by
  have hne : s.disk.requestQueue ≠ [] := by
    intro h
    rw [h] at hget
    exact absurd hget (by simp)
  have hsel2 : disk_scheduler { s with disk.semaforo := sem_down s.disk.semaforo } = some i :=
    (disk_scheduler_congr _ s rfl rfl).trans hsel
  simp only [processNewRequests, hl, hne, hsel2, hget, ne_eq, not_false_eq_true, and_self,
    if_true, executeRequest, updatePerformanceMetrics]

/-- With an empty pending queue `processNewRequests` issues nothing. -/
theorem processNewRequests_empty (s : DiskState) (hq : s.disk.requestQueue = []) :
    (processNewRequests s).2 = none := by
  simp [processNewRequests, hq]

/-- One iteration of the manager with work pending and the device free (or a
completion signalled): the selected request is issued and removed. -/
theorem bodyDiskManager_dispatch (s : DiskState) (i : Nat) (r : diskrequest_t)
    (hready : s.disk.livre ≠ 0 ∨ s.disk.sinal ≠ 0) (hsel : disk_scheduler s = some i)
    (hget : s.disk.requestQueue[i]? = some r) :
    ∃ s1 resumed cmd, bodyDiskManager s = some (s1, resumed, some cmd) ∧ cmd.request = r ∧
      s1.disk.requestQueue = s.disk.requestQueue.eraseIdx i ∧
      s1.perf_tracker.current_head_position = r.block ∧
      s1.perf_tracker.active_policy = s.perf_tracker.active_policy ∧
      s1.disk.numBlocks = s.disk.numBlocks := by
  have hne : s.disk.requestQueue ≠ [] := by
    intro h
    rw [h] at hget
    exact absurd hget (by simp)
  obtain ⟨fq, fp, _, fn, _, fl⟩ := processCompletionEvents_frame s
  have hsel2 : disk_scheduler (processCompletionEvents s).1 = some i :=
    (disk_scheduler_congr _ s fp fq).trans hsel
  obtain ⟨d1, d2, d3, d4, d5, _⟩ :=
    processNewRequests_dispatch (processCompletionEvents s).1 i r (fl hready) hsel2
      (by rw [fq]; exact hget)
  refine ⟨(processNewRequests (processCompletionEvents s).1).1, (processCompletionEvents s).2,
    { disk_command := if r.operation = 1 then DISK_CMD_READ else DISK_CMD_WRITE, request := r },
    ?_, rfl, ?_, d3, ?_, ?_⟩
  · simp only [bodyDiskManager, hne, false_and, and_false, if_false, d1]
  · rw [d2, fq]
  · rw [d4, fp]
  · rw [d5, fn]

/-- With an empty pending queue the run issues nothing. -/
theorem dispatchRun_empty (n : Nat) (s : DiskState) (hq : s.disk.requestQueue = []) :
    dispatchRun n s = [] := by
  cases n with
  | zero => rfl
  | succ n =>
      unfold dispatchRun
      cases hb : bodyDiskManager s with
      | none => rfl
      | some r =>
          have hr : r.2.2 = none := by
            unfold bodyDiskManager at hb
            split at hb
            · exact absurd hb (by simp)
            · have e := Option.some.inj hb
              rw [← e]
              exact processNewRequests_empty _
                (by rw [(processCompletionEvents_frame s).1]; exact hq)
          simp only [hr]

/-- One step of the run when a request is selected. -/
theorem dispatchRun_step (n : Nat) (s : DiskState) (i : Nat) (r : diskrequest_t)
    (hready : s.disk.livre ≠ 0 ∨ s.disk.sinal ≠ 0) (hsel : disk_scheduler s = some i)
    (hget : s.disk.requestQueue[i]? = some r) :
    ∃ s2, (dispatchRun (n + 1) s).map (fun c => c.request) =
        r :: (dispatchRun n s2).map (fun c => c.request) ∧
      s2.disk.requestQueue = s.disk.requestQueue.eraseIdx i ∧
      s2.perf_tracker.current_head_position = r.block ∧
      s2.perf_tracker.active_policy = s.perf_tracker.active_policy ∧
      s2.disk.numBlocks = s.disk.numBlocks ∧
      (s2.disk.livre ≠ 0 ∨ s2.disk.sinal ≠ 0) := by
  obtain ⟨s1, resumed, cmd, hb, hc, h1, h2, h3, h4⟩ :=
    bodyDiskManager_dispatch s i r hready hsel hget
  refine ⟨diskSignalHandler s1, ?_, h1, h2, h3, h4, Or.inr (by simp [diskSignalHandler])⟩
  simp only [dispatchRun, hb, List.map_cons, hc]

/-- Removing the node at position `i` leaves a permutation of the queue once
the node is put back in front. -/
theorem perm_cons_eraseIdx (q : List diskrequest_t) :
    ∀ (i : Nat) (r : diskrequest_t), q[i]? = some r → q.Perm (r :: q.eraseIdx i) := by
  induction q with
  | nil => intro i r h; exact absurd h (by simp)
  | cons c rest ih =>
      intro i r h
      cases i with
      | zero =>
          have e : c = r := by simpa using h
          rw [e]
          exact List.Perm.refl _
      | succ i =>
          have h2 : rest[i]? = some r := by simpa using h
          exact ((ih i r h2).cons c).trans (List.Perm.swap r c _)

/-- Within the block range `cscan_scheduler` selects the smallest pending block
at or ahead of the head, or else the smallest pending block. -/
theorem cscan_pick (s : DiskState)
    (hne : s.disk.requestQueue ≠ [])
    (hnum : s.disk.numBlocks ≤ INT_MAX)
    (hhead : 0 ≤ s.perf_tracker.current_head_position ∧
      s.perf_tracker.current_head_position < s.disk.numBlocks)
    (hblocks : ∀ q ∈ s.disk.requestQueue, 0 ≤ q.block ∧ q.block < s.disk.numBlocks) :
    ∃ i r, cscan_scheduler s = some i ∧ s.disk.requestQueue[i]? = some r ∧
      ((∃ q ∈ s.disk.requestQueue, q.block ≥ s.perf_tracker.current_head_position) →
        r.block ≥ s.perf_tracker.current_head_position ∧
        ∀ q ∈ s.disk.requestQueue, q.block ≥ s.perf_tracker.current_head_position →
          r.block ≤ q.block) ∧
      ((¬ ∃ q ∈ s.disk.requestQueue, q.block ≥ s.perf_tracker.current_head_position) →
        ∀ q ∈ s.disk.requestQueue, r.block ≤ q.block) := by
  cases hq : s.disk.requestQueue with
  | nil => exact absurd hq hne
  | cons c rest =>
      rw [hq] at hblocks
      simp only [cscan_scheduler, hq, cscan_loop_eq]
      by_cases hfw : ∃ q ∈ c :: rest, q.block ≥ s.perf_tracker.current_head_position
      · have hex : ∃ r ∈ c :: rest,
            (fun r : diskrequest_t =>
              decide (r.block ≥ s.perf_tracker.current_head_position)) r = true ∧
            (fun r : diskrequest_t =>
              wrapInt (r.block - s.perf_tracker.current_head_position)) r < INT_MAX := by
          obtain ⟨q, hqm, hqf⟩ := hfw
          refine ⟨q, hqm, by simpa using hqf, ?_⟩
          have h := seek_distance_exact _ q.block _ hnum (hblocks q hqm) hhead
          show wrapInt (q.block - s.perf_tracker.current_head_position) < INT_MAX
          rw [h.2.2]
          have := h.2.1
          rw [abs_lt] at this
          exact this.2
        obtain ⟨j, r, hres, hget, hp, _, hmin, _⟩ :=
          (scanMin_spec _ _ (c :: rest) 0 none INT_MAX).2 hex
        have hr : r ∈ c :: rest := List.getElem?_mem hget
        have hrf : r.block ≥ s.perf_tracker.current_head_position := by simpa using hp
        refine ⟨j, r, ?_, hget, ?_, ?_⟩
        · rw [hres, Nat.zero_add]
        · intro _
          refine ⟨hrf, ?_⟩
          intro x hx hxf
          have h := hmin x hx (by simpa using hxf)
          have h1 := (seek_distance_exact _ r.block _ hnum (hblocks r hr) hhead).2.2
          have h2 := (seek_distance_exact _ x.block _ hnum (hblocks x hx) hhead).2.2
          simp only [h1, h2] at h
          omega
        · intro hno
          exact absurd hfw hno
      · have hall : ∀ r ∈ c :: rest,
            (fun r : diskrequest_t =>
              decide (r.block ≥ s.perf_tracker.current_head_position)) r = true →
            INT_MAX ≤ (fun r : diskrequest_t =>
              wrapInt (r.block - s.perf_tracker.current_head_position)) r := by
          intro r hr hp
          exact absurd ⟨r, hr, by simpa using hp⟩ hfw
        have hbehind : ∀ q ∈ c :: rest, q.block < s.perf_tracker.current_head_position := by
          intro q hqm
          by_contra hge
          exact hfw ⟨q, hqm, by omega⟩
        have hex : ∃ r ∈ c :: rest,
            (fun r : diskrequest_t =>
              decide (r.block < s.perf_tracker.current_head_position)) r = true ∧
            (fun r : diskrequest_t => r.block) r < INT_MAX := by
          refine ⟨c, List.mem_cons_self _ _, ?_, ?_⟩
          · simpa using hbehind c (List.mem_cons_self _ _)
          · have := hblocks c (List.mem_cons_self _ _)
            show c.block < INT_MAX
            omega
        obtain ⟨j, r, hres, hget, _, _, hmin, _⟩ :=
          (scanMin_spec _ _ (c :: rest) 0 none INT_MAX).2 hex
        rw [(scanMin_spec _ _ (c :: rest) 0 none INT_MAX).1 hall, hres, Nat.zero_add]
        refine ⟨j, r, rfl, hget, ?_, ?_⟩
        · intro hyes
          exact absurd hyes hfw
        · intro _ x hx
          exact hmin x hx (by simpa using hbehind x hx)

/-- Under CSCAN within the block range, a run of at least as many iterations
as there are pending requests issues every pending request once: first those
at or ahead of the head, then those behind it, each group by ascending block. -/
theorem cscan_run_sorted :
    ∀ (n : Nat) (s : DiskState), s.perf_tracker.active_policy = SCHEDULER_CSCAN →
      (s.disk.livre ≠ 0 ∨ s.disk.sinal ≠ 0) → s.disk.numBlocks ≤ INT_MAX →
      (0 ≤ s.perf_tracker.current_head_position ∧
        s.perf_tracker.current_head_position < s.disk.numBlocks) →
      (∀ q ∈ s.disk.requestQueue, 0 ≤ q.block ∧ q.block < s.disk.numBlocks) →
      s.disk.requestQueue.length ≤ n →
      ∃ fw wr : List diskrequest_t,
        (dispatchRun n s).map (fun c => c.request) = fw ++ wr ∧
        fw.Pairwise (fun a b => a.block ≤ b.block) ∧
        wr.Pairwise (fun a b => a.block ≤ b.block) ∧
        (∀ x ∈ fw, s.perf_tracker.current_head_position ≤ x.block) ∧
        (∀ x ∈ wr, x.block < s.perf_tracker.current_head_position) ∧
        (fw ++ wr).Perm s.disk.requestQueue := by
  intro n
  induction n with
  | zero =>
      intro s _ _ _ _ _ hlen
      have hq : s.disk.requestQueue = [] := List.length_eq_zero.mp (by omega)
      refine ⟨[], [], by simp [dispatchRun], List.Pairwise.nil, List.Pairwise.nil, ?_, ?_, ?_⟩
      · intro x hx; exact absurd hx (List.not_mem_nil x)
      · intro x hx; exact absurd hx (List.not_mem_nil x)
      · rw [hq]; exact List.Perm.refl _
  | succ n ih =>
      intro s hpol hready hnum hhead hblocks hlen
      by_cases hq : s.disk.requestQueue = []
      · refine ⟨[], [], by simp [dispatchRun_empty _ s hq], List.Pairwise.nil,
          List.Pairwise.nil, ?_, ?_, ?_⟩
        · intro x hx; exact absurd hx (List.not_mem_nil x)
        · intro x hx; exact absurd hx (List.not_mem_nil x)
        · rw [hq]; exact List.Perm.refl _
      · obtain ⟨i, r, hsel, hget, hfw, hwr⟩ := cscan_pick s hq hnum hhead hblocks
        have hds : disk_scheduler s = some i := by
          rw [← hsel]
          simp [disk_scheduler, hpol, SCHEDULER_CSCAN, SCHEDULER_FCFS, SCHEDULER_SSTF]
        obtain ⟨s2, hrun, hq2, hh2, hp2, hn2, hr2⟩ := dispatchRun_step n s i r hready hds hget
        have hperm := perm_cons_eraseIdx s.disk.requestQueue i r hget
        have hrmem : r ∈ s.disk.requestQueue := List.getElem?_mem hget
        have hsub : ∀ x ∈ s2.disk.requestQueue, x ∈ s.disk.requestQueue := by
          intro x hx
          rw [hq2] at hx
          exact hperm.mem_iff.mpr (List.mem_cons_of_mem _ hx)
        have hlen2 : s2.disk.requestQueue.length ≤ n := by
          have := hperm.length_eq
          rw [hq2]
          simp only [List.length_cons] at this
          omega
        obtain ⟨fw1, wr1, hrun1, hsf, hsw, hfge, hwlt, hperm1⟩ :=
          ih s2 (by rw [hp2]; exact hpol) hr2 (by rw [hn2]; exact hnum)
            (by rw [hh2, hn2]; exact hblocks r hrmem)
            (fun x hx => by rw [hn2]; exact hblocks x (hsub x hx)) hlen2
        rw [hh2] at hfge hwlt
        have hmem1 : ∀ x ∈ fw1 ++ wr1, x ∈ s.disk.requestQueue :=
          fun x hx => hsub x (hperm1.mem_iff.mp hx)
        have hpermAll : (r :: (fw1 ++ wr1)).Perm s.disk.requestQueue := by
          refine List.Perm.trans ?_ hperm.symm
          rw [← hq2]
          exact hperm1.cons r
        by_cases hex : ∃ q ∈ s.disk.requestQueue,
            q.block ≥ s.perf_tracker.current_head_position
        · obtain ⟨hrge, hrmin⟩ := hfw hex
          refine ⟨r :: fw1, wr1, ?_, ?_, hsw, ?_, ?_, ?_⟩
          · rw [hrun, hrun1]; rfl
          · exact List.pairwise_cons.mpr ⟨fun x hx => hfge x hx, hsf⟩
          · intro x hx
            rcases List.mem_cons.mp hx with e | hm
            · rw [e]; exact hrge
            · have := hfge x hm
              omega
          · intro x hx
            have h1 := hwlt x hx
            by_contra hge
            have h2 := hrmin x (hmem1 x (List.mem_append_right _ hx)) (by omega)
            omega
          · exact hpermAll
        · have hall := hwr hex
          have hbehind : ∀ x ∈ s.disk.requestQueue,
              x.block < s.perf_tracker.current_head_position := by
            intro x hx
            by_contra hge
            exact hex ⟨x, hx, by omega⟩
          have hwnil : wr1 = [] := by
            apply List.eq_nil_iff_forall_not_mem.mpr
            intro x hx
            have h1 := hwlt x hx
            have h2 := hall x (hmem1 x (List.mem_append_right _ hx))
            omega
          subst hwnil
          simp only [List.append_nil] at hrun1 hpermAll hmem1
          refine ⟨[], r :: fw1, ?_, List.Pairwise.nil, ?_, ?_, ?_, ?_⟩
          · rw [hrun, hrun1]; rfl
          · exact List.pairwise_cons.mpr ⟨fun x hx => hfge x hx, hsf⟩
          · intro x hx; exact absurd hx (List.not_mem_nil x)
          · intro x hx
            rcases List.mem_cons.mp hx with e | hm
            · rw [e]; exact hbehind r hrmem
            · exact hbehind x (hmem1 x hm)
          · exact hpermAll

/-- Under FCFS a run of at least as many iterations as there are pending
requests issues the pending requests in queue order. -/
theorem fcfs_run_order :
    ∀ (n : Nat) (s : DiskState), s.perf_tracker.active_policy = SCHEDULER_FCFS →
      (s.disk.livre ≠ 0 ∨ s.disk.sinal ≠ 0) → s.disk.requestQueue.length ≤ n →
      (dispatchRun n s).map (fun c => c.request) = s.disk.requestQueue := by
  intro n
  induction n with
  | zero =>
      intro s _ _ hlen
      have hq : s.disk.requestQueue = [] := List.length_eq_zero.mp (by omega)
      rw [hq]; rfl
  | succ n ih =>
      intro s hpol hready hlen
      cases hq : s.disk.requestQueue with
      | nil => rw [dispatchRun_empty _ s hq]; rfl
      | cons c rest =>
          have hds : disk_scheduler s = some 0 := by
            simp [disk_scheduler, hpol, fcfs_scheduler, hq]
          obtain ⟨s2, hrun, hq2, _, hp2, _, hr2⟩ :=
            dispatchRun_step n s 0 c hready hds (by rw [hq]; simp)
          rw [hq] at hq2 hlen
          have hq3 : s2.disk.requestQueue = rest := by simpa using hq2
          rw [hrun, ih s2 (by rw [hp2]; exact hpol) hr2
            (by rw [hq3]; simp only [List.length_cons] at hlen; omega), hq3]

/-- Dispatching leaves the active policy as it was. -/
theorem processNewRequests_policy (s : DiskState) :
    (processNewRequests s).1.perf_tracker.active_policy = s.perf_tracker.active_policy := by
  by_cases hc : s.disk.livre ≠ 0 ∧ s.disk.requestQueue ≠ []
  · cases hsel : disk_scheduler s with
    | none =>
        have hsel2 : disk_scheduler { s with disk.semaforo := sem_down s.disk.semaforo } = none :=
          (disk_scheduler_congr _ s rfl rfl).trans hsel
        simp only [processNewRequests, hsel2]
        split <;> rfl
    | some i =>
        obtain ⟨r, hget⟩ : ∃ r, s.disk.requestQueue[i]? = some r := by
          have hlt := disk_scheduler_lt_length s i hsel
          exact ⟨s.disk.requestQueue[i], List.getElem?_eq_getElem hlt⟩
        exact (processNewRequests_dispatch s i r hc.1 hsel hget).2.2.2.1
  · simp only [processNewRequests, hc, if_false]

/-- No operation of the disk manager changes the active policy. -/
theorem diskStep_policy (s : DiskState) (e : DiskEvent) :
    (diskStep s e).perf_tracker.active_policy = s.perf_tracker.active_policy := by
  cases e with
  | read t m b buf =>
      simp only [diskStep, disk_block_read, createDiskRequest, enqueueAndSuspend]
      split_ifs <;> rfl
  | read_resumed => rfl
  | write t m b buf =>
      simp only [diskStep, disk_block_write, createDiskRequest, enqueueAndSuspend]
      split_ifs <;> rfl
  | write_resumed => rfl
  | signal => rfl
  | manager =>
      simp only [diskStep, bodyDiskManager]
      split_ifs
      · rfl
      · show (processNewRequests (processCompletionEvents s).1).1.perf_tracker.active_policy = _
        rw [processNewRequests_policy, (processCompletionEvents_frame s).2.1]
  | shutdown => rfl

/-- No sequence of operations of the disk manager changes the active policy. -/
theorem diskRun_policy (events : List DiskEvent) :
    ∀ s : DiskState,
      (diskRun s events).perf_tracker.active_policy = s.perf_tracker.active_policy := by
  induction events with
  | nil => intro s; rfl
  | cons e rest ih =>
      intro s
      show (diskRun (diskStep s e) rest).perf_tracker.active_policy = _
      rw [ih, diskStep_policy]

/-! ## Theorems: dispatch order and the disk manager interface -/

/-- C12: under FCFS `disk_scheduler` returns the head of every non-empty
pending queue; a validated request is appended at the tail of the queue; and,
starting with the device free and with no arrival, the manager issues the
pending requests in exactly the order of the queue, their arrival order. -/
theorem fcfs_arrival_order (s : DiskState)
    (hpol : s.perf_tracker.active_policy = SCHEDULER_FCFS) :
    (s.disk.requestQueue ≠ [] → disk_scheduler s = some 0) ∧
    (∀ n, (s.disk.livre ≠ 0 ∨ s.disk.sinal ≠ 0) → s.disk.requestQueue.length ≤ n →
      (dispatchRun n s).map (fun c => c.request) = s.disk.requestQueue) ∧
    (∀ taskExec block buffer, (disk_block_read s taskExec true block buffer).1 = none →
      (disk_block_read s taskExec true block buffer).2.disk.requestQueue =
        s.disk.requestQueue ++
          [{ task := taskExec, operation := DISK_CMD_READ, block := block, buffer := buffer }]) ∧
    (∀ taskExec block buffer, (disk_block_write s taskExec true block buffer).1 = none →
      (disk_block_write s taskExec true block buffer).2.disk.requestQueue =
        s.disk.requestQueue ++
          [{ task := taskExec, operation := DISK_CMD_WRITE, block := block, buffer := buffer }]) := by
  refine ⟨?_, ?_, ?_, ?_⟩
  · intro hne
    cases hq : s.disk.requestQueue with
    | nil => exact absurd hq hne
    | cons c rest => simp [disk_scheduler, hpol, fcfs_scheduler, hq]
  · intro n hfree hlen
    exact fcfs_run_order n s hpol hfree hlen
  · intro taskExec block buffer h
    simp only [disk_block_read, createDiskRequest, if_true] at h ⊢
    split_ifs at h ⊢
    all_goals rfl
  · intro taskExec block buffer h
    simp only [disk_block_write, createDiskRequest, if_true] at h ⊢
    split_ifs at h ⊢
    all_goals rfl

theorem fcfs_arrival_order_witness :
    fcfsRequests.perf_tracker.active_policy = SCHEDULER_FCFS ∧
    disk_scheduler fcfsRequests = some 0 ∧
    (dispatchRun 3 fcfsRequests).map (fun c => c.request) = fcfsRequests.disk.requestQueue ∧
    (dispatchRun 3 fcfsRequests).map (fun c => c.request.block) = [98, 37, 14] :=
  ⟨by decide, (fcfs_arrival_order fcfsRequests (by decide)).1 (by decide),
    (fcfs_arrival_order fcfsRequests (by decide)).2.1 3 (by decide) (by decide), by decide⟩

/-- C13: for every policy value, pending queue and head position, a call of
`disk_scheduler` leaves all globals of the disk manager (pending queue in
members and order, head position, counters) as they were, and a non-NULL
pointer it returns designates a member of the pending queue. -/
theorem disk_scheduler_nondestructive (s : DiskState) :
    (disk_scheduler_call s).2 = s ∧
    (disk_scheduler_call s).2.disk.requestQueue = s.disk.requestQueue ∧
    (disk_scheduler_call s).2.perf_tracker = s.perf_tracker ∧
    (disk_scheduler_call s).2.stats = s.stats ∧
    ∀ i, (disk_scheduler_call s).1 = some i →
      ∃ r, s.disk.requestQueue[i]? = some r ∧ r ∈ s.disk.requestQueue := by
  refine ⟨rfl, rfl, rfl, rfl, ?_⟩
  intro i h
  have hlt := disk_scheduler_lt_length s i h
  exact ⟨s.disk.requestQueue[i], List.getElem?_eq_getElem hlt, List.getElem_mem hlt⟩

theorem disk_scheduler_nondestructive_witness :
    (disk_scheduler_call sixRequests).1 = some 4 ∧
    ∃ r, sixRequests.disk.requestQueue[4]? = some r ∧ r ∈ sixRequests.disk.requestQueue :=
  ⟨by decide, (disk_scheduler_nondestructive sixRequests).2.2.2.2 4 (by decide)⟩

/-- C14: when the buffer is NULL or the block is outside `[0, numBlocks)`, in
particular when the block is `numBlocks`, `disk_block_read` and
`disk_block_write` return -1 and leave every global of the disk manager
(pending queue, wait queue, read and write counters) as it was. -/
theorem disk_block_invalid (s : DiskState) (taskExec : Nat) (malloc_ok : Bool)
    (block : Int) (buffer : Nat)
    (h : buffer = 0 ∨ block < 0 ∨ block ≥ s.disk.numBlocks) :
    disk_block_read s taskExec malloc_ok block buffer = (some (-1), s) ∧
    disk_block_write s taskExec malloc_ok block buffer = (some (-1), s) ∧
    disk_block_read s taskExec malloc_ok s.disk.numBlocks buffer = (some (-1), s) ∧
    disk_block_write s taskExec malloc_ok s.disk.numBlocks buffer = (some (-1), s) := by
  refine ⟨?_, ?_, ?_, ?_⟩
  · simp only [disk_block_read, ERROR_INVALID]
    by_cases hb : buffer = 0
    · simp [hb]
    · have h2 : block < 0 ∨ block ≥ s.disk.numBlocks := by tauto
      simp [hb, h2]
  · simp only [disk_block_write, ERROR_INVALID]
    by_cases hb : buffer = 0
    · simp [hb]
    · have h2 : block < 0 ∨ block ≥ s.disk.numBlocks := by tauto
      simp [hb, h2]
  · simp only [disk_block_read, ERROR_INVALID]
    by_cases hb : buffer = 0
    · simp [hb]
    · simp [hb]
  · simp only [disk_block_write, ERROR_INVALID]
    by_cases hb : buffer = 0
    · simp [hb]
    · simp [hb]

theorem disk_block_invalid_witness :
    ((1 : Nat) = 0 ∨ (256 : Int) < 0 ∨ (256 : Int) ≥ sixRequests.disk.numBlocks) ∧
    disk_block_read sixRequests 8 true 256 1 = (some (-1), sixRequests) ∧
    disk_block_write sixRequests 8 true 256 1 = (some (-1), sixRequests) :=
  ⟨by decide, (disk_block_invalid sixRequests 8 true 256 1 (by decide)).1,
    (disk_block_invalid sixRequests 8 true 256 1 (by decide)).2.1⟩

/-- C15: `disk_mgr_init` returns -1 and leaves every global of the disk manager
as it was when an output pointer is NULL; it also returns -1, again writing
nothing, when the init command of the device fails or the device reports a
negative block count or block size. -/
theorem disk_mgr_init_errors (s : DiskState) (numBlocks blockSize : Bool)
    (SCHEDULER_DEFAULT : Option Int) (dev : init_replies) :
    ((numBlocks = false ∨ blockSize = false) →
      (disk_mgr_init s numBlocks blockSize SCHEDULER_DEFAULT dev).ret = some (-1) ∧
      (disk_mgr_init s numBlocks blockSize SCHEDULER_DEFAULT dev).state = s ∧
      (disk_mgr_init s numBlocks blockSize SCHEDULER_DEFAULT dev).numBlocks = none ∧
      (disk_mgr_init s numBlocks blockSize SCHEDULER_DEFAULT dev).blockSize = none) ∧
    (dev.init < 0 →
      (disk_mgr_init s numBlocks blockSize SCHEDULER_DEFAULT dev).ret = some (-1) ∧
      (disk_mgr_init s numBlocks blockSize SCHEDULER_DEFAULT dev).state = s) ∧
    ((dev.disk_size < 0 ∨ dev.block_size < 0) →
      (disk_mgr_init s numBlocks blockSize SCHEDULER_DEFAULT dev).ret = some (-1) ∧
      (disk_mgr_init s numBlocks blockSize SCHEDULER_DEFAULT dev).state = s) := by
  refine ⟨?_, ?_, ?_⟩
  · intro h
    simp [disk_mgr_init, h, ERROR_INVALID]
  · intro h
    simp only [disk_mgr_init, ERROR_INVALID]
    split_ifs <;> exact ⟨rfl, rfl⟩
  · intro h
    simp only [disk_mgr_init, ERROR_INVALID]
    split_ifs <;> exact ⟨rfl, rfl⟩

theorem disk_mgr_init_errors_witness :
    (disk_mgr_init sixRequests false true none goodDevice).ret = some (-1) ∧
    (disk_mgr_init sixRequests false true none goodDevice).state = sixRequests ∧
    (disk_mgr_init sixRequests true true none { goodDevice with init := -1 }).ret = some (-1) ∧
    (disk_mgr_init sixRequests true true none { goodDevice with block_size := -1 }).ret =
      some (-1) :=
  ⟨((disk_mgr_init_errors sixRequests false true none goodDevice).1 (by decide)).1,
    ((disk_mgr_init_errors sixRequests false true none goodDevice).1 (by decide)).2.1,
    ((disk_mgr_init_errors sixRequests true true none { goodDevice with init := -1 }).2.1
      (by decide)).1,
    ((disk_mgr_init_errors sixRequests true true none
      { goodDevice with block_size := -1 }).2.2 (by decide)).1⟩

/-- C16: when `disk_mgr_init` returns 0 it has written the block count and the
block size of the device to the outputs and leaves empty pending and wait
queues, the device free, no pending completion, the head at 0, zeroed counters
and, when `SCHEDULER_DEFAULT` is not defined, the policy CSCAN; and no sequence
of later operations of the disk manager changes the active policy. -/
theorem disk_mgr_init_success (s : DiskState) (numBlocks blockSize : Bool)
    (SCHEDULER_DEFAULT : Option Int) (dev : init_replies)
    (hok : (disk_mgr_init s numBlocks blockSize SCHEDULER_DEFAULT dev).ret = some 0) :
    (disk_mgr_init s numBlocks blockSize SCHEDULER_DEFAULT dev).numBlocks = some dev.disk_size ∧
    (disk_mgr_init s numBlocks blockSize SCHEDULER_DEFAULT dev).blockSize = some dev.block_size ∧
    (disk_mgr_init s numBlocks blockSize SCHEDULER_DEFAULT dev).state.disk.numBlocks =
      dev.disk_size ∧
    (disk_mgr_init s numBlocks blockSize SCHEDULER_DEFAULT dev).state.disk.requestQueue = [] ∧
    (disk_mgr_init s numBlocks blockSize SCHEDULER_DEFAULT dev).state.disk.diskQueue = [] ∧
    (disk_mgr_init s numBlocks blockSize SCHEDULER_DEFAULT dev).state.disk.livre = 1 ∧
    (disk_mgr_init s numBlocks blockSize SCHEDULER_DEFAULT dev).state.disk.sinal = 0 ∧
    (disk_mgr_init s numBlocks blockSize SCHEDULER_DEFAULT dev).state.perf_tracker.current_head_position
      = 0 ∧
    (disk_mgr_init s numBlocks blockSize SCHEDULER_DEFAULT dev).state.perf_tracker.total_head_movements
      = 0 ∧
    (disk_mgr_init s numBlocks blockSize SCHEDULER_DEFAULT dev).state.perf_tracker.requests_processed
      = 0 ∧
    (disk_mgr_init s numBlocks blockSize SCHEDULER_DEFAULT dev).state.stats =
      { read_operations := 0, write_operations := 0, total_seek_distance := 0,
        average_response_time := 0 } ∧
    (SCHEDULER_DEFAULT = none →
      (disk_mgr_init s numBlocks blockSize SCHEDULER_DEFAULT dev).state.perf_tracker.active_policy
        = SCHEDULER_CSCAN) ∧
    (∀ events : List DiskEvent,
      (diskRun (disk_mgr_init s numBlocks blockSize SCHEDULER_DEFAULT dev).state
        events).perf_tracker.active_policy =
      (disk_mgr_init s numBlocks blockSize SCHEDULER_DEFAULT dev).state.perf_tracker.active_policy)
    := by
  have hlast : ∀ events : List DiskEvent,
      (diskRun (disk_mgr_init s numBlocks blockSize SCHEDULER_DEFAULT dev).state
        events).perf_tracker.active_policy =
      (disk_mgr_init s numBlocks blockSize SCHEDULER_DEFAULT dev).state.perf_tracker.active_policy :=
    fun events => diskRun_policy events _
  refine ⟨?_, ?_, ?_, ?_, ?_, ?_, ?_, ?_, ?_, ?_, ?_, ?_, hlast⟩
  all_goals
    simp only [disk_mgr_init, ERROR_INVALID] at hok ⊢
    split_ifs at hok ⊢
    all_goals first
      | rfl
      | (intro hd; subst hd; rfl)
      | simp at hok

theorem disk_mgr_init_success_witness :
    (disk_mgr_init farRequest true true none goodDevice).ret = some 0 ∧
    (disk_mgr_init farRequest true true none goodDevice).numBlocks = some 256 ∧
    (disk_mgr_init farRequest true true none goodDevice).state.disk.requestQueue = [] ∧
    (disk_mgr_init farRequest true true none goodDevice).state.perf_tracker.active_policy =
      SCHEDULER_CSCAN :=
  ⟨by decide, (disk_mgr_init_success farRequest true true none goodDevice (by decide)).1,
    (disk_mgr_init_success farRequest true true none goodDevice (by decide)).2.2.2.1,
    (disk_mgr_init_success farRequest true true none goodDevice
      (by decide)).2.2.2.2.2.2.2.2.2.2.2.1 rfl⟩

/-! ## Lemmas: drain and dispatch -/

theorem sem_up_down (m : semaphore_t) : sem_up (sem_down m) = m := by
  cases m
  simp [sem_up, sem_down]

/-- Within the block range every policy selects a request of a non-empty
pending queue. -/
theorem disk_scheduler_some (s : DiskState)
    (hne : s.disk.requestQueue ≠ [])
    (hnum : s.disk.numBlocks ≤ INT_MAX)
    (hhead : 0 ≤ s.perf_tracker.current_head_position ∧
      s.perf_tracker.current_head_position < s.disk.numBlocks)
    (hblocks : ∀ q ∈ s.disk.requestQueue, 0 ≤ q.block ∧ q.block < s.disk.numBlocks) :
    ∃ i r, disk_scheduler s = some i ∧ s.disk.requestQueue[i]? = some r := by
  have hf : ∃ i, fcfs_scheduler s = some i := by
    cases hq : s.disk.requestQueue with
    | nil => exact absurd hq hne
    | cons c rest => exact ⟨0, by simp [fcfs_scheduler, hq]⟩
  have hs : ∃ i, sstf_scheduler s = some i := by
    cases hq : s.disk.requestQueue with
    | nil => exact absurd hq hne
    | cons c rest =>
        rw [hq] at hblocks
        have hex : ∃ r ∈ c :: rest, (fun _ : diskrequest_t => true) r = true ∧
            (fun r : diskrequest_t =>
              c_abs (wrapInt (r.block - s.perf_tracker.current_head_position))) r < INT_MAX := by
          refine ⟨c, List.mem_cons_self _ _, rfl, ?_⟩
          have h := seek_distance_exact _ c.block _ hnum
            (hblocks c (List.mem_cons_self _ _)) hhead
          show c_abs (wrapInt (c.block - s.perf_tracker.current_head_position)) < INT_MAX
          rw [h.1]; exact h.2.1
        obtain ⟨j, r, hres, _⟩ := (scanMin_spec _ _ (c :: rest) 0 none INT_MAX).2 hex
        exact ⟨0 + j, by simp only [sstf_scheduler, hq, sstf_loop_eq]; exact hres⟩
  have hc : ∃ i, cscan_scheduler s = some i := by
    obtain ⟨i, _, h, _⟩ := cscan_pick s hne hnum hhead hblocks
    exact ⟨i, h⟩
  have hd : ∃ i, disk_scheduler s = some i := by
    unfold disk_scheduler
    split_ifs
    · exact hf
    · exact hs
    · exact hc
    · exact hf
  obtain ⟨i, hi⟩ := hd
  have hlt := disk_scheduler_lt_length s i hi
  exact ⟨i, s.disk.requestQueue[i], hi, List.getElem?_eq_getElem hlt⟩

/-- The counters and the other fields after a dispatch. -/
theorem processNewRequests_accounting (s : DiskState) (i : Nat) (r : diskrequest_t)
    (hl : s.disk.livre ≠ 0) (hsel : disk_scheduler s = some i)
    (hget : s.disk.requestQueue[i]? = some r) :
    (processNewRequests s).1.perf_tracker.total_head_movements =
      wrapInt (s.perf_tracker.total_head_movements +
        c_abs (wrapInt (r.block - s.perf_tracker.current_head_position))) ∧
    (processNewRequests s).1.perf_tracker.requests_processed =
      wrapInt (s.perf_tracker.requests_processed + 1) ∧
    (processNewRequests s).1.disk.diskQueue = s.disk.diskQueue ∧
    (processNewRequests s).1.disk.sinal = s.disk.sinal ∧
    (processNewRequests s).1.system_shutdown_requested = s.system_shutdown_requested := by
  have hne : s.disk.requestQueue ≠ [] := by
    intro h
    rw [h] at hget
    exact absurd hget (by simp)
  have hsel2 : disk_scheduler { s with disk.semaforo := sem_down s.disk.semaforo } = some i :=
    (disk_scheduler_congr _ s rfl rfl).trans hsel
  simp only [processNewRequests, hl, hne, hsel2, hget, ne_eq, not_false_eq_true, and_self,
    if_true, executeRequest, updatePerformanceMetrics]

/-- With the device busy or nothing pending `processNewRequests` issues
nothing and leaves every global as it was. -/
theorem processNewRequests_idle (s : DiskState)
    (h : s.disk.livre = 0 ∨ s.disk.requestQueue = []) :
    processNewRequests s = (s, none) := by
  have hc : ¬ (s.disk.livre ≠ 0 ∧ s.disk.requestQueue ≠ []) := by
    rintro ⟨h1, h2⟩
    rcases h with h | h
    · exact h1 h
    · exact h2 h
  simp only [processNewRequests, hc, if_false, sem_up_down]

/-! ## Theorems: drain, dispatch, termination and shutdown of the manager -/

/-- C21: when the completion flag is set, `processCompletionEvents` clears it,
marks the device free and, with a non-empty wait queue, resumes exactly the
task at its head, which leaves the queue; with an empty wait queue it resumes
nothing. When the flag is not set, the device-free flag and the wait queue are
unchanged and nothing is resumed. -/
theorem processCompletionEvents_drain (s : DiskState) :
    (s.disk.sinal ≠ 0 →
      (processCompletionEvents s).1.disk.sinal = 0 ∧
      (processCompletionEvents s).1.disk.livre = 1 ∧
      (∀ t rest, s.disk.diskQueue = t :: rest →
        (processCompletionEvents s).2 = some t ∧
        (processCompletionEvents s).1.disk.diskQueue = rest) ∧
      (s.disk.diskQueue = [] →
        (processCompletionEvents s).2 = none ∧
        (processCompletionEvents s).1.disk.diskQueue = [])) ∧
    (s.disk.sinal = 0 →
      (processCompletionEvents s).1.disk.livre = s.disk.livre ∧
      (processCompletionEvents s).1.disk.diskQueue = s.disk.diskQueue ∧
      (processCompletionEvents s).1.disk.sinal = 0 ∧
      (processCompletionEvents s).2 = none) := by
  constructor
  · intro hs
    refine ⟨?_, ?_, ?_, ?_⟩
    · cases hq : s.disk.diskQueue <;> simp [processCompletionEvents, hs, hq]
    · cases hq : s.disk.diskQueue <;> simp [processCompletionEvents, hs, hq]
    · intro t rest hq
      simp [processCompletionEvents, hs, hq]
    · intro hq
      simp [processCompletionEvents, hs, hq]
  · intro hs
    simp [processCompletionEvents, hs]

theorem processCompletionEvents_drain_witness :
    (diskSignalHandler sixRequests).disk.sinal ≠ 0 ∧
    (diskSignalHandler sixRequests).disk.diskQueue = [2, 3, 4, 5, 6, 7] ∧
    (processCompletionEvents (diskSignalHandler sixRequests)).2 = some 2 ∧
    (processCompletionEvents (diskSignalHandler sixRequests)).1.disk.diskQueue =
      [3, 4, 5, 6, 7] ∧
    sixRequests.disk.sinal = 0 ∧
    (processCompletionEvents sixRequests).1.disk.diskQueue = sixRequests.disk.diskQueue :=
  ⟨by decide, by decide,
    (((processCompletionEvents_drain (diskSignalHandler sixRequests)).1 (by decide)).2.2.1
      2 [3, 4, 5, 6, 7] (by decide)).1,
    (((processCompletionEvents_drain (diskSignalHandler sixRequests)).1 (by decide)).2.2.1
      2 [3, 4, 5, 6, 7] (by decide)).2,
    by decide, ((processCompletionEvents_drain sixRequests).2 (by decide)).2.1⟩

/-- C24: an iteration of the manager task ends the task exactly when shutdown
has been requested and both the pending queue and the wait queue are empty; it
never ends it while a request is pending or a requester is blocked. Scenario:
shutdown requested with one request pending and its requester blocked: the
manager dispatches, then drains and resumes the requester, and only the next
iteration, with both queues empty, ends the task. -/
theorem bodyDiskManager_exit_iff (s : DiskState) :
    (bodyDiskManager s = none ↔
      (s.system_shutdown_requested ≠ 0 ∧ s.disk.requestQueue = [] ∧ s.disk.diskQueue = [])) ∧
    ((s.disk.requestQueue ≠ [] ∨ s.disk.diskQueue ≠ []) → bodyDiskManager s ≠ none) ∧
    (pendingAtShutdown.system_shutdown_requested ≠ 0 ∧
      pendingAtShutdown.disk.requestQueue.length = 1 ∧
      pendingAtShutdown.disk.diskQueue = [2] ∧
      (bodyDiskManager pendingAtShutdown).isNone = false ∧
      (bodyDiskManager (diskRun pendingAtShutdown [.manager, .signal])).isNone = false ∧
      (bodyDiskManager (diskRun pendingAtShutdown [.manager, .signal])).map (fun r => r.2.1) =
        some (some 2) ∧
      (diskRun pendingAtShutdown [.manager, .signal, .manager]).disk.requestQueue = [] ∧
      (diskRun pendingAtShutdown [.manager, .signal, .manager]).disk.diskQueue = [] ∧
      (bodyDiskManager (diskRun pendingAtShutdown [.manager, .signal, .manager])).isNone =
        true) := by
  have hiff : bodyDiskManager s = none ↔
      (s.system_shutdown_requested ≠ 0 ∧ s.disk.requestQueue = [] ∧ s.disk.diskQueue = []) := by
    unfold bodyDiskManager
    constructor
    · intro h
      by_contra hc
      rw [if_neg hc] at h
      exact absurd h (by simp)
    · intro h
      rw [if_pos h]
  refine ⟨hiff, ?_, by decide⟩
  intro h hnone
  obtain ⟨_, h1, h2⟩ := hiff.mp hnone
  rcases h with h | h
  · exact h h1
  · exact h h2

theorem bodyDiskManager_exit_iff_witness :
    (sixRequests.disk.requestQueue ≠ [] ∨ sixRequests.disk.diskQueue ≠ []) ∧
    bodyDiskManager sixRequests ≠ none :=
  ⟨by decide, (bodyDiskManager_exit_iff sixRequests).2.1 (by decide)⟩

/-- C25: `disk_mgr_shutdown` sets the shutdown-requested flag and leaves the
pending queue, the wait queue, the device flags, the head position and all
counters as they were; a second call changes nothing more. -/
theorem disk_mgr_shutdown_frame (s : DiskState) :
    (disk_mgr_shutdown s).system_shutdown_requested = 1 ∧
    (disk_mgr_shutdown s).disk = s.disk ∧
    (disk_mgr_shutdown s).perf_tracker = s.perf_tracker ∧
    (disk_mgr_shutdown s).stats = s.stats ∧
    disk_mgr_shutdown (disk_mgr_shutdown s) = disk_mgr_shutdown s :=
  ⟨rfl, rfl, rfl, rfl, rfl⟩

/-- C23: under the default policy CSCAN (and under SSTF), task 2 asks for block
98 and task 3 for block 65; the manager issues the request of task 3 first, and
when its completion is drained `processCompletionEvents` resumes the head of
the wait queue, task 2, whose own request has not been issued yet. -/
theorem resumed_task_is_not_requester :
    twoReaders.perf_tracker.active_policy = SCHEDULER_CSCAN ∧
    twoReaders.disk.requestQueue.map (fun r => (r.task, r.block)) = [(2, 98), (3, 65)] ∧
    twoReaders.disk.diskQueue = [2, 3] ∧
    (bodyDiskManager twoReaders).map (fun r => r.2.2.map (fun c => c.request.task)) =
      some (some 3) ∧
    (bodyDiskManager (diskRun twoReaders [.manager, .signal])).map (fun r => r.2.1) =
      some (some 2) ∧
    (diskRun twoReaders [.manager, .signal]).disk.requestQueue.map (fun r => r.task) = [2] ∧
    twoReadersSstf.perf_tracker.active_policy = SCHEDULER_SSTF ∧
    (bodyDiskManager twoReadersSstf).map (fun r => r.2.2.map (fun c => c.request.task)) =
      some (some 3) ∧
    (bodyDiskManager (diskRun twoReadersSstf [.manager, .signal])).map (fun r => r.2.1) =
      some (some 2) := by
  decide

/-! ## Lemmas: the head position stays a block index -/

/-- A call of `processNewRequests` either leaves queue, head and geometry as
they were or moves the head to the block of a pending request that it
removes. -/
theorem processNewRequests_cases (s : DiskState) :
    ((processNewRequests s).1.disk.requestQueue = s.disk.requestQueue ∧
      (processNewRequests s).1.perf_tracker.current_head_position =
        s.perf_tracker.current_head_position ∧
      (processNewRequests s).1.disk.numBlocks = s.disk.numBlocks) ∨
    (∃ i r, s.disk.requestQueue[i]? = some r ∧
      (processNewRequests s).1.disk.requestQueue = s.disk.requestQueue.eraseIdx i ∧
      (processNewRequests s).1.perf_tracker.current_head_position = r.block ∧
      (processNewRequests s).1.disk.numBlocks = s.disk.numBlocks) := by
  by_cases hc : s.disk.livre ≠ 0 ∧ s.disk.requestQueue ≠ []
  · cases hsel : disk_scheduler s with
    | none =>
        have hsel2 : disk_scheduler { s with disk.semaforo := sem_down s.disk.semaforo } = none :=
          (disk_scheduler_congr _ s rfl rfl).trans hsel
        left
        simp only [processNewRequests, hsel2]
        split <;> exact ⟨rfl, rfl, rfl⟩
    | some i =>
        obtain ⟨r, hget⟩ : ∃ r, s.disk.requestQueue[i]? = some r := by
          have hlt := disk_scheduler_lt_length s i hsel
          exact ⟨s.disk.requestQueue[i], List.getElem?_eq_getElem hlt⟩
        obtain ⟨_, d2, d3, _, d5, _⟩ := processNewRequests_dispatch s i r hc.1 hsel hget
        exact Or.inr ⟨i, r, hget, d2, d3, d5⟩
  · have hidle : s.disk.livre = 0 ∨ s.disk.requestQueue = [] := by
      by_cases h1 : s.disk.livre = 0
      · exact Or.inl h1
      · by_cases h2 : s.disk.requestQueue = []
        · exact Or.inr h2
        · exact absurd ⟨h1, h2⟩ hc
    rw [processNewRequests_idle s hidle]
    exact Or.inl ⟨rfl, rfl, rfl⟩

/-- Every operation keeps the block count, keeps the head inside the block
range and keeps every pending block inside it. -/
theorem diskStep_head_valid (n : Int) (s : DiskState) (e : DiskEvent)
    (hn : s.disk.numBlocks = n)
    (hhead : 0 ≤ s.perf_tracker.current_head_position ∧ s.perf_tracker.current_head_position < n)
    (hblocks : ∀ q ∈ s.disk.requestQueue, 0 ≤ q.block ∧ q.block < n) :
    (diskStep s e).disk.numBlocks = n ∧
    (0 ≤ (diskStep s e).perf_tracker.current_head_position ∧
      (diskStep s e).perf_tracker.current_head_position < n) ∧
    (∀ q ∈ (diskStep s e).disk.requestQueue, 0 ≤ q.block ∧ q.block < n) := by
  have happend : ∀ (t : Nat) (r : diskrequest_t), (0 ≤ r.block ∧ r.block < n) →
      (enqueueAndSuspend s t r).disk.numBlocks = n ∧
      (0 ≤ (enqueueAndSuspend s t r).perf_tracker.current_head_position ∧
        (enqueueAndSuspend s t r).perf_tracker.current_head_position < n) ∧
      (∀ q ∈ (enqueueAndSuspend s t r).disk.requestQueue, 0 ≤ q.block ∧ q.block < n) := by
    intro t r hr
    refine ⟨hn, hhead, ?_⟩
    intro q hq
    have hq2 : q ∈ s.disk.requestQueue ++ [r] := hq
    rcases List.mem_append.mp hq2 with h | h
    · exact hblocks q h
    · have e : q = r := by simpa using h
      rw [e]; exact hr
  cases e with
  | read t m b buf =>
      simp only [diskStep, disk_block_read, createDiskRequest]
      split_ifs with h1 h2 h3
      · exact ⟨hn, hhead, hblocks⟩
      · exact ⟨hn, hhead, hblocks⟩
      · exact happend t _ (by rw [hn] at h2; show 0 ≤ b ∧ b < n; constructor <;> omega)
      · exact ⟨hn, hhead, hblocks⟩
  | read_resumed => exact ⟨hn, hhead, hblocks⟩
  | write t m b buf =>
      simp only [diskStep, disk_block_write, createDiskRequest]
      split_ifs with h1 h2 h3
      · exact ⟨hn, hhead, hblocks⟩
      · exact ⟨hn, hhead, hblocks⟩
      · exact happend t _ (by rw [hn] at h2; show 0 ≤ b ∧ b < n; constructor <;> omega)
      · exact ⟨hn, hhead, hblocks⟩
  | write_resumed => exact ⟨hn, hhead, hblocks⟩
  | signal => exact ⟨hn, hhead, hblocks⟩
  | shutdown => exact ⟨hn, hhead, hblocks⟩
  | manager =>
      simp only [diskStep, bodyDiskManager]
      split_ifs
      · exact ⟨hn, hhead, hblocks⟩
      · obtain ⟨fq, fp, _, fn, _, _⟩ := processCompletionEvents_frame s
        show (processNewRequests (processCompletionEvents s).1).1.disk.numBlocks = n ∧
          (0 ≤ (processNewRequests
              (processCompletionEvents s).1).1.perf_tracker.current_head_position ∧
            (processNewRequests
              (processCompletionEvents s).1).1.perf_tracker.current_head_position < n) ∧
          (∀ q ∈ (processNewRequests (processCompletionEvents s).1).1.disk.requestQueue,
            0 ≤ q.block ∧ q.block < n)
        rcases processNewRequests_cases (processCompletionEvents s).1 with
          ⟨c1, c2, c3⟩ | ⟨i, r, cget, c1, c2, c3⟩
        · rw [c1, c2, c3, fq, fp, fn]
          exact ⟨hn, hhead, hblocks⟩
        · rw [fq] at cget c1
          have hr : r ∈ s.disk.requestQueue := List.getElem?_mem cget
          rw [c1, c2, c3, fn]
          refine ⟨hn, hblocks r hr, ?_⟩
          intro q hq
          exact hblocks q ((perm_cons_eraseIdx _ i r cget).mem_iff.mpr
            (List.mem_cons_of_mem _ hq))

/-- The same along any sequence of operations. -/
theorem diskRun_head_valid (n : Int) (events : List DiskEvent) :
    ∀ s : DiskState, s.disk.numBlocks = n →
      (0 ≤ s.perf_tracker.current_head_position ∧ s.perf_tracker.current_head_position < n) →
      (∀ q ∈ s.disk.requestQueue, 0 ≤ q.block ∧ q.block < n) →
      (diskRun s events).disk.numBlocks = n ∧
      (0 ≤ (diskRun s events).perf_tracker.current_head_position ∧
        (diskRun s events).perf_tracker.current_head_position < n) ∧
      (∀ q ∈ (diskRun s events).disk.requestQueue, 0 ≤ q.block ∧ q.block < n) := by
  induction events with
  | nil => intro s hn hhead hblocks; exact ⟨hn, hhead, hblocks⟩
  | cons e rest ih =>
      intro s hn hhead hblocks
      obtain ⟨h1, h2, h3⟩ := diskStep_head_valid n s e hn hhead hblocks
      exact ih (diskStep s e) h1 h2 h3

/-! ## Theorems: head position, manager task classification, termination hook -/

/-- C26, as stated, fails: `disk_mgr_init` succeeds on a device that reports 0
blocks, and the state it leaves has the head at 0 with `numBlocks = 0`, so the
head is not a block index. -/
theorem head_invalid_on_empty_device :
    emptyDevice.ret = some 0 ∧
    (diskRun emptyDevice.state []).perf_tracker.current_head_position = 0 ∧
    (diskRun emptyDevice.state []).disk.numBlocks = 0 ∧
    ¬ (0 ≤ (diskRun emptyDevice.state []).perf_tracker.current_head_position ∧
      (diskRun emptyDevice.state []).perf_tracker.current_head_position <
        (diskRun emptyDevice.state []).disk.numBlocks) := by
  decide

/-- C26, amended: when `disk_mgr_init` succeeds on a device that reports at
least one block, every state reached through any sequence of read and write
requests (validated by the functions themselves), manager iterations,
completion signals and shutdown requests has `0 ≤ current_head_position <
numBlocks`. -/
theorem head_position_valid (s : DiskState) (numBlocks blockSize : Bool)
    (SCHEDULER_DEFAULT : Option Int) (dev : init_replies) (events : List DiskEvent)
    (hok : (disk_mgr_init s numBlocks blockSize SCHEDULER_DEFAULT dev).ret = some 0)
    (hpos : 0 < dev.disk_size) :
    0 ≤ (diskRun (disk_mgr_init s numBlocks blockSize SCHEDULER_DEFAULT dev).state
        events).perf_tracker.current_head_position ∧
    (diskRun (disk_mgr_init s numBlocks blockSize SCHEDULER_DEFAULT dev).state
        events).perf_tracker.current_head_position <
      (diskRun (disk_mgr_init s numBlocks blockSize SCHEDULER_DEFAULT dev).state
        events).disk.numBlocks := by
  have hinit : (disk_mgr_init s numBlocks blockSize SCHEDULER_DEFAULT dev).state.disk.numBlocks
        = dev.disk_size ∧
      (disk_mgr_init s numBlocks blockSize SCHEDULER_DEFAULT
        dev).state.perf_tracker.current_head_position = 0 ∧
      (disk_mgr_init s numBlocks blockSize SCHEDULER_DEFAULT dev).state.disk.requestQueue
        = [] := by
    simp only [disk_mgr_init, ERROR_INVALID] at hok ⊢
    split_ifs at hok ⊢
    all_goals first
      | exact ⟨rfl, rfl, rfl⟩
      | simp at hok
  obtain ⟨h1, h2, h3⟩ := hinit
  obtain ⟨r1, r2, _⟩ := diskRun_head_valid dev.disk_size events _ h1
    (by rw [h2]; exact ⟨le_refl _, hpos⟩)
    (by rw [h3]; intro q hq; exact absurd hq (List.not_mem_nil q))
  rw [r1]
  exact r2

theorem head_position_valid_witness :
    (disk_mgr_init farRequest true true none goodDevice).ret = some 0 ∧
    0 < goodDevice.disk_size ∧
    0 ≤ (diskRun (disk_mgr_init farRequest true true none goodDevice).state
        [.read 2 true 98 1, .read 3 true 300 1, .manager, .signal,
          .manager]).perf_tracker.current_head_position ∧
    (diskRun (disk_mgr_init farRequest true true none goodDevice).state
        [.read 2 true 98 1, .read 3 true 300 1, .manager, .signal,
          .manager]).perf_tracker.current_head_position <
      (diskRun (disk_mgr_init farRequest true true none goodDevice).state
        [.read 2 true 98 1, .read 3 true 300 1, .manager, .signal, .manager]).disk.numBlocks :=
  ⟨by decide, by decide,
    head_position_valid farRequest true true none goodDevice
      [.read 2 true 98 1, .read 3 true 300 1, .manager, .signal, .manager]
      (by decide) (by decide)⟩

/-- C27, as stated, fails: the task control block of the disk manager receives
id 2, the creation hook sets `user_task = 1`, and a timer tick while it runs
decrements its quantum and, with one tick left and the gate enabled, forces it
to yield. -/
theorem disk_manager_is_user_task :
    (diskMgrCreated.heap 5).id = 2 ∧
    ((after_task_create diskMgrCreated 5).heap 5).user_task = 1 ∧
    ((after_task_create diskMgrCreated 5).heap 5).user_task ≠ 0 ∧
    (diskMgrRunning.heap 5).quantum = 20 ∧
    ((interrupt_handler diskMgrRunning).1.heap 5).quantum = 19 ∧
    (interrupt_handler diskMgrLastTick).2 = true := by
  decide

/-- C27, amended: the task created by `disk_mgr_init`, whose id is `≥ 2`, has
`user_task = 1` after its creation hook: it is a user task, and whenever it
runs a timer tick decrements its quantum (a signed 32-bit decrement, by exactly
one for every `int` value above `-2147483648`) and forces it to yield once the
decremented quantum is `≤ 0` with the Preemption Gate enabled. -/
theorem disk_manager_classification (k : Kernel) (task : Nat)
    (hid : 2 ≤ (k.heap task).id) :
    ((after_task_create k task).heap task).user_task = 1 ∧
    (∀ k2 : Kernel, k2.taskExec = task → (k2.heap task).user_task = 1 →
      ((interrupt_handler k2).1.heap task).quantum = wrapInt ((k2.heap task).quantum - 1) ∧
      (-2147483648 < (k2.heap task).quantum → (k2.heap task).quantum ≤ 2147483647 →
        ((interrupt_handler k2).1.heap task).quantum = (k2.heap task).quantum - 1) ∧
      (((interrupt_handler k2).1.heap task).quantum ≤ 0 →
        PPOS_IS_PREEMPT_ACTIVE k2 = true → (interrupt_handler k2).2 = true)) := by
  constructor
  · have h : (k.heap task).id > 1 := by omega
    simp [after_task_create, PPOS_PREEMPT_ENABLE, h]
  · intro k2 hexec hu
    subst hexec
    have hu2 : (k2.heap k2.taskExec).user_task ≠ 0 := by rw [hu]; decide
    have hq : ((interrupt_handler k2).1.heap k2.taskExec).quantum =
        wrapInt ((k2.heap k2.taskExec).quantum - 1) := by
      simp only [interrupt_handler, hu2, if_false]
      split <;> simp
    refine ⟨hq, fun hlo hhi => ?_, fun hle hg => ?_⟩
    · rw [hq, wrapInt_id _ (by omega) (by omega)]
    · rw [hq] at hle
      simp only [PPOS_IS_PREEMPT_ACTIVE] at hg
      simp [interrupt_handler, hu2, PPOS_IS_PREEMPT_ACTIVE, hg, hle]

theorem disk_manager_classification_witness :
    2 ≤ (diskMgrCreated.heap 5).id ∧
    ((after_task_create diskMgrCreated 5).heap 5).user_task = 1 ∧
    ((interrupt_handler diskMgrLastTick).1.heap 5).quantum =
      (diskMgrLastTick.heap 5).quantum - 1 ∧
    (interrupt_handler diskMgrLastTick).2 = true :=
  ⟨by decide, (disk_manager_classification diskMgrCreated 5 (by decide)).1,
    ((disk_manager_classification diskMgrCreated 5 (by decide)).2 diskMgrLastTick
      (by decide) (by decide)).2.1 (by decide) (by decide),
    ((disk_manager_classification diskMgrCreated 5 (by decide)).2 diskMgrLastTick
      (by decide) (by decide)).2.2 (by decide) (by decide)⟩

/-- C28: the main task (id 0) terminates while no shutdown has been requested;
`after_task_exit` prints its report and leaves `system_shutdown_requested` at
0, the call of `disk_mgr_shutdown` standing outside the body of the hook. -/
theorem after_task_exit_no_shutdown :
    (mainExits.heap mainExits.taskExec).id = 0 ∧
    freshDisk.system_shutdown_requested = 0 ∧
    (after_task_exit mainExits freshDisk).2.1.system_shutdown_requested = 0 ∧
    (after_task_exit mainExits freshDisk).2.1 = freshDisk ∧
    (disk_mgr_shutdown freshDisk).system_shutdown_requested = 1 := by
  decide

/-! ## Lemmas: aging over consecutive cycles -/

theorem ageTask_prio_max (t : task_t) :
    (ageTask t).prio_dynamic = max (t.prio_dynamic - 1) (-20) := by
  rw [ageTask_prio_dynamic]
  simp only [max_def]
  split_ifs <;> omega

/-- A ready task other than the selected user task leaves the call aged by one
step. -/
theorem scheduler_aged (k : Kernel) (b a : Nat) (hnd : k.readyQueue.Nodup)
    (hsel : (scheduler k).1 = some b) (hub : (k.heap b).user_task ≠ 0)
    (ha : a ∈ k.readyQueue) (hab : a ≠ b) :
    (scheduler k).2.heap a = ageTask (k.heap a) := by
  rw [scheduler_heap_user k b hnd hsel hub a]
  simp [hab, ha]

/-- The selected user task leaves the call with its dynamic priority reset. -/
theorem scheduler_reset (k : Kernel) (b : Nat) (hnd : k.readyQueue.Nodup)
    (hsel : (scheduler k).1 = some b) (hub : (k.heap b).user_task ≠ 0) :
    ((scheduler k).2.heap b).prio_dynamic = (k.heap b).prio_static ∧
    ((scheduler k).2.heap b).prio_static = (k.heap b).prio_static := by
  rw [scheduler_heap_user k b hnd hsel hub b]
  simp

/-- Exact trajectory: after `qs.length` cycles that each select a user task
other than `t`, with `t` in the ready queue, the dynamic priority of `t` is
`max (p - qs.length) (-20)`. -/
theorem aging_trajectory (t : Nat) :
    ∀ (qs : List (List Nat)) (k : Kernel), -20 ≤ (k.heap t).prio_dynamic →
      agedInEveryCycle t k qs = true →
      ((schedulerRun k qs).heap t).prio_dynamic =
        max ((k.heap t).prio_dynamic - (qs.length : Int)) (-20) := by
  intro qs
  induction qs with
  | nil =>
      intro k hp _
      simp only [schedulerRun, List.length_nil, Nat.cast_zero, sub_zero]
      exact (max_eq_left hp).symm
  | cons q qs ih =>
      intro k hp hrun
      simp only [agedInEveryCycle, Bool.and_eq_true, decide_eq_true_eq] at hrun
      obtain ⟨⟨⟨hnd, hmem⟩, hmatch⟩, hrest⟩ := hrun
      cases hsel : (scheduler { k with readyQueue := q }).1 with
      | none =>
          rw [hsel] at hmatch
          exact absurd hmatch (by simp)
      | some b =>
          rw [hsel] at hmatch
          simp only [Bool.and_eq_true, decide_eq_true_eq] at hmatch
          obtain ⟨hbt, hub⟩ := hmatch
          have haged : (scheduler { k with readyQueue := q }).2.heap t = ageTask (k.heap t) :=
            scheduler_aged { k with readyQueue := q } b t hnd hsel hub hmem (Ne.symm hbt)
          have hp2 : -20 ≤ ((scheduler { k with readyQueue := q }).2.heap t).prio_dynamic := by
            rw [haged, ageTask_prio_max]
            exact le_max_right _ _
          have h := ih (scheduler { k with readyQueue := q }).2 hp2 hrest
          simp only [schedulerRun, List.length_cons, Nat.cast_add, Nat.cast_one]
          rw [h, haged, ageTask_prio_max]
          simp only [max_def]
          split_ifs <;> omega

/-! ## Theorems: aging step and starvation bound -/

/-- C29, as stated, fails. With three ready user tasks the non-selected task B
goes from 0 to -1, while `min (0 - 1) (-20)` is -20: the ceiling is the
numerically smallest value and bounds the result from below. And when the
system task main is selected among two ready user tasks, their dynamic
priorities do not change at all. -/
theorem aging_step_is_not_min :
    (scheduler threeTasks).1 = some 0 ∧ (threeTasks.heap 0).user_task ≠ 0 ∧
    (threeTasks.heap 1).user_task ≠ 0 ∧ (threeTasks.heap 1).prio_dynamic = 0 ∧
    ((scheduler threeTasks).2.heap 1).prio_dynamic = -1 ∧
    min ((threeTasks.heap 1).prio_dynamic - 1) PRIORITY_MAX = -20 ∧
    ((scheduler threeTasks).2.heap 1).prio_dynamic ≠
      min ((threeTasks.heap 1).prio_dynamic - 1) PRIORITY_MAX ∧
    (scheduler mainFirst).1 = some 0 ∧ (mainFirst.heap 0).user_task = 0 ∧
    (mainFirst.heap 1).user_task ≠ 0 ∧ (mainFirst.heap 2).user_task ≠ 0 ∧
    (mainFirst.heap 1).prio_dynamic = 5 ∧
    ((scheduler mainFirst).2.heap 1).prio_dynamic = 5 := by
  decide

/-- C29, amended: in a selection cycle with at least two ready user tasks whose
selected task `b` is a user task, every other ready user task `a` has dynamic
priority `max (before - 1) PRIORITY_MAX` after the cycle, with
`PRIORITY_MAX = -20`, and the dynamic priority of `b` equals its static
priority. -/
theorem aging_step_is_max (k : Kernel) (b a : Nat)
    (hnd : k.readyQueue.Nodup) (hsel : (scheduler k).1 = some b)
    (hub : (k.heap b).user_task ≠ 0) (ha : a ∈ k.readyQueue) (hab : a ≠ b)
    (_hua : (k.heap a).user_task ≠ 0) :
    ((scheduler k).2.heap a).prio_dynamic = max ((k.heap a).prio_dynamic - 1) PRIORITY_MAX ∧
    PRIORITY_MAX = -20 ∧
    ((scheduler k).2.heap b).prio_dynamic = ((scheduler k).2.heap b).prio_static ∧
    ((scheduler k).2.heap b).prio_static = (k.heap b).prio_static := by
  obtain ⟨r1, r2⟩ := scheduler_reset k b hnd hsel hub
  refine ⟨?_, rfl, by rw [r1, r2], r2⟩
  rw [scheduler_aged k b a hnd hsel hub ha hab, ageTask_prio_max]
  rfl

theorem aging_step_is_max_witness :
    threeTasks.readyQueue.Nodup ∧ (scheduler threeTasks).1 = some 0 ∧
    (threeTasks.heap 0).user_task ≠ 0 ∧ 2 ∈ threeTasks.readyQueue ∧
    (threeTasks.heap 2).user_task ≠ 0 ∧
    ((scheduler threeTasks).2.heap 2).prio_dynamic =
      max ((threeTasks.heap 2).prio_dynamic - 1) PRIORITY_MAX ∧
    max ((threeTasks.heap 2).prio_dynamic - 1) PRIORITY_MAX = 4 :=
  ⟨by decide, by decide, by decide, by decide, by decide,
    (aging_step_is_max threeTasks 0 2 (by decide) (by decide) (by decide) (by decide)
      (by decide) (by decide)).1, by decide⟩

/-- C30, as stated, fails. Task C has dynamic priority 5, so
`ceiling - initial_priority` is -25; after one cycle in which it is ready and
not selected its priority is 4, not -20. And cycles that select a system task
do not age: with main selected 25 times, the ready user task A stays at 5. -/
theorem starvation_bound_wrong_sign :
    (threeTasks.heap 2).user_task ≠ 0 ∧ (threeTasks.heap 2).prio_dynamic = 5 ∧
    PRIORITY_MAX - (threeTasks.heap 2).prio_dynamic = -25 ∧
    (scheduler threeTasks).1 = some 0 ∧
    ((schedulerIter 1 threeTasks).heap 2).prio_dynamic = 4 ∧
    (mainFirst.heap 1).user_task ≠ 0 ∧ (mainFirst.heap 1).prio_dynamic = 5 ∧
    (scheduler mainFirst).1 = some 0 ∧ (mainFirst.heap 0).user_task = 0 ∧
    (scheduler mainFirst).2.heap = mainFirst.heap ∧
    ((schedulerIter 25 mainFirst).heap 1).prio_dynamic = 5 := by
  refine ⟨by decide, by decide, by decide, by decide, by decide, by decide, by decide,
    by decide, by decide, ?_, by decide⟩
  exact scheduler_heap_system mainFirst 0 (by decide) (by decide)

/-- C30, amended: a user task `t` with dynamic priority `p ≥ -20` that stays in
the ready queue during `N` consecutive scheduler cycles, each of which selects a
user task other than `t`, has dynamic priority `max (p - N) (-20)` after them;
so it is at the ceiling -20 after at most `p - ceiling = p + 20` such cycles. -/
theorem starvation_bound (k : Kernel) (t : Nat) (qs : List (List Nat))
    (_hu : (k.heap t).user_task ≠ 0) (hp : -20 ≤ (k.heap t).prio_dynamic)
    (hrun : agedInEveryCycle t k qs = true) :
    ((schedulerRun k qs).heap t).prio_dynamic =
      max ((k.heap t).prio_dynamic - (qs.length : Int)) (-20) ∧
    ((k.heap t).prio_dynamic - PRIORITY_MAX ≤ (qs.length : Int) →
      ((schedulerRun k qs).heap t).prio_dynamic = PRIORITY_MAX) := by
  have h := aging_trajectory t qs k hp hrun
  refine ⟨h, ?_⟩
  intro hN
  rw [h]
  unfold PRIORITY_MAX at hN ⊢
  exact max_eq_right (by omega)

theorem starvation_bound_witness :
    (urgentAndLate.heap 1).user_task ≠ 0 ∧ (urgentAndLate.heap 1).prio_dynamic = -18 ∧
    agedInEveryCycle 1 urgentAndLate [[0, 1], [1, 0], [0, 1]] = true ∧
    (urgentAndLate.heap 1).prio_dynamic - PRIORITY_MAX ≤
      (([[0, 1], [1, 0], [0, 1]] : List (List Nat)).length : Int) ∧
    ((schedulerRun urgentAndLate [[0, 1], [1, 0], [0, 1]]).heap 1).prio_dynamic =
      PRIORITY_MAX :=
  ⟨by decide, by decide, by decide, by decide,
    (starvation_bound urgentAndLate 1 [[0, 1], [1, 0], [0, 1]] (by decide) (by decide)
      (by decide)).2 (by decide)⟩

/-! ## Lemmas: what a scheduler call leaves untouched -/

/-- Two task control blocks with the same `staticPart` agree on every field
other than the dynamic priority. -/
theorem staticPart_fields (x y : task_t) (h : staticPart x = staticPart y) :
    x.id = y.id ∧ x.prio_static = y.prio_static ∧ x.user_task = y.user_task ∧
    x.quantum = y.quantum ∧ x.proc_time = y.proc_time ∧ x.activations = y.activations ∧
    x.exec_start = y.exec_start ∧ x.last_proc = y.last_proc ∧
    x.running_time = y.running_time := by
  have h1 : (staticPart x).id = (staticPart y).id := by rw [h]
  have h2 : (staticPart x).prio_static = (staticPart y).prio_static := by rw [h]
  have h3 : (staticPart x).user_task = (staticPart y).user_task := by rw [h]
  have h4 : (staticPart x).quantum = (staticPart y).quantum := by rw [h]
  have h5 : (staticPart x).proc_time = (staticPart y).proc_time := by rw [h]
  have h6 : (staticPart x).activations = (staticPart y).activations := by rw [h]
  have h7 : (staticPart x).exec_start = (staticPart y).exec_start := by rw [h]
  have h8 : (staticPart x).last_proc = (staticPart y).last_proc := by rw [h]
  have h9 : (staticPart x).running_time = (staticPart y).running_time := by rw [h]
  exact ⟨h1, h2, h3, h4, h5, h6, h7, h8, h9⟩

theorem ageTask_static (t : task_t) : staticPart (ageTask t) = staticPart t := by
  unfold ageTask staticPart
  by_cases h1 : t.prio_dynamic > PRIORITY_MAX
  · by_cases h2 : t.prio_dynamic + PRIORITY_ALPHA < PRIORITY_MAX
    · simp [h1, h2]
    · simp [h1, h2]
  · by_cases h2 : t.prio_dynamic < PRIORITY_MAX
    · simp [h1, h2]
    · simp [h1, h2]

/-- The aging loop changes dynamic priorities only, and never raises one nor
takes one below -20. -/
theorem agingPass_static (better : Nat) :
    ∀ (q : List Nat) (h : Nat → task_t) (a : Nat),
      staticPart (agingPass better q h a) = staticPart (h a) ∧
      (-20 ≤ (h a).prio_dynamic →
        -20 ≤ (agingPass better q h a).prio_dynamic ∧
        (agingPass better q h a).prio_dynamic ≤ (h a).prio_dynamic) := by
  intro q
  induction q with
  | nil => intro h a; exact ⟨rfl, fun hp => ⟨hp, le_refl _⟩⟩
  | cons c rest ih =>
      intro h a
      simp only [agingPass]
      by_cases hc : c = better
      · simp only [hc, ne_eq, not_true_eq_false, if_false]
        exact ih h a
      · simp only [ne_eq, hc, not_false_eq_true, if_true]
        obtain ⟨i1, i2⟩ := ih (Function.update h c (ageTask (h c))) a
        by_cases hac : a = c
        · subst hac
          rw [Function.update_same] at i1 i2
          refine ⟨i1.trans (ageTask_static _), ?_⟩
          intro hp
          have hage := ageTask_prio_max (h a)
          have hlow : -20 ≤ (ageTask (h a)).prio_dynamic := by
            rw [hage]; exact le_max_right _ _
          obtain ⟨j1, j2⟩ := i2 hlow
          refine ⟨j1, le_trans j2 ?_⟩
          rw [hage]
          simp only [max_def]
          split_ifs <;> omega
        · rw [Function.update_noteq hac] at i1 i2
          exact ⟨i1, i2⟩

/-- A call of `scheduler` keeps the ready queue and, in every task control
block, every field other than the dynamic priority. -/
theorem scheduler_static (k : Kernel) (a : Nat) :
    (scheduler k).2.readyQueue = k.readyQueue ∧
    staticPart ((scheduler k).2.heap a) = staticPart (k.heap a) := by
  cases hq : k.readyQueue with
  | nil =>
      rw [scheduler_nil k hq]
      exact ⟨hq, rfl⟩
  | cons head rest =>
      rw [scheduler_cons k head rest hq]
      by_cases hu : (k.heap (findBetter k.heap (head :: rest) head)).user_task = 0
      · simp only [hu, ne_eq, not_true_eq_false, if_false, PPOS_PREEMPT_ENABLE,
          PPOS_PREEMPT_DISABLE]
        exact ⟨hq, trivial⟩
      · simp only [hu, ne_eq, not_false_eq_true, if_true, PPOS_PREEMPT_ENABLE,
          PPOS_PREEMPT_DISABLE, resetPrio]
        refine ⟨hq, ?_⟩
        by_cases hab : a = findBetter k.heap (head :: rest) head
        · rw [← hab, Function.update_same, agingPass_better]
          rfl
        · rw [Function.update_noteq hab]
          exact (agingPass_static _ _ _ a).1

/-- A call of `scheduler` keeps every task inside the priority range. -/
theorem scheduler_range (k : Kernel) (a : Nat) (h : prioInRange (k.heap a)) :
    prioInRange ((scheduler k).2.heap a) := by
  cases hq : k.readyQueue with
  | nil =>
      rw [scheduler_nil k hq]
      exact h
  | cons head rest =>
      rw [scheduler_cons k head rest hq]
      by_cases hu : (k.heap (findBetter k.heap (head :: rest) head)).user_task = 0
      · simp only [hu, ne_eq, not_true_eq_false, if_false, PPOS_PREEMPT_ENABLE,
          PPOS_PREEMPT_DISABLE]
        exact h
      · simp only [hu, ne_eq, not_false_eq_true, if_true, PPOS_PREEMPT_ENABLE,
          PPOS_PREEMPT_DISABLE, resetPrio]
        obtain ⟨h1, h2, h3⟩ := h
        by_cases hab : a = findBetter k.heap (head :: rest) head
        · rw [← hab, Function.update_same, agingPass_better]
          exact ⟨by show -20 ≤ (k.heap a).prio_static; omega, le_refl _, h3⟩
        · rw [Function.update_noteq hab]
          obtain ⟨s1, s2⟩ := agingPass_static (findBetter k.heap (head :: rest) head)
            (head :: rest) k.heap a
          have hst : (agingPass (findBetter k.heap (head :: rest) head) (head :: rest)
              k.heap a).prio_static = (k.heap a).prio_static :=
            (staticPart_fields _ _ s1).2.1
          obtain ⟨r1, r2⟩ := s2 h1
          exact ⟨r1, by rw [hst]; omega, by rw [hst]; exact h3⟩

/-! ## Theorems: scenario, frame, gate and ranges of the scheduler -/

/-- C34: with the ready user tasks A (id 2, priority 0), B (id 3, priority 0)
and C (id 4, priority 5) at addresses 0, 1 and 2, the first call of `scheduler`
returns A and leaves the dynamic priorities 0, -1 and 4; a second call on the
same three tasks returns B. -/
theorem scheduler_scenario :
    (threeTasks.readyQueue.map fun a =>
      ((threeTasks.heap a).id, (threeTasks.heap a).prio_static,
        (threeTasks.heap a).prio_dynamic, (threeTasks.heap a).user_task)) =
      [(2, 0, 0, 1), (3, 0, 0, 1), (4, 5, 5, 1)] ∧
    (scheduler threeTasks).1 = some 0 ∧
    ((scheduler threeTasks).2.heap 0).prio_dynamic = 0 ∧
    ((scheduler threeTasks).2.heap 1).prio_dynamic = -1 ∧
    ((scheduler threeTasks).2.heap 2).prio_dynamic = 4 ∧
    (scheduler threeTasks).2.readyQueue = [0, 1, 2] ∧
    (scheduler (scheduler threeTasks).2).1 = some 1 := by
  decide

/-- C35: when `scheduler` selects a system task no task control block changes
(dynamic and static priority, quantum and accounting fields are as before);
and after every call the ready queue has the same members in the same order
and every task has the id, static priority and user flag (and quantum and
accounting fields) it had. -/
theorem scheduler_frame (k : Kernel) :
    (∀ b, (scheduler k).1 = some b → (k.heap b).user_task = 0 →
      (scheduler k).2.heap = k.heap) ∧
    (scheduler k).2.readyQueue = k.readyQueue ∧
    (∀ a, ((scheduler k).2.heap a).id = (k.heap a).id ∧
      ((scheduler k).2.heap a).prio_static = (k.heap a).prio_static ∧
      ((scheduler k).2.heap a).user_task = (k.heap a).user_task ∧
      ((scheduler k).2.heap a).quantum = (k.heap a).quantum ∧
      ((scheduler k).2.heap a).proc_time = (k.heap a).proc_time ∧
      ((scheduler k).2.heap a).activations = (k.heap a).activations) := by
  refine ⟨fun b hsel hu => scheduler_heap_system k b hsel hu, (scheduler_static k 0).1, ?_⟩
  intro a
  obtain ⟨h1, h2, h3, h4, h5, h6, _⟩ := staticPart_fields _ _ (scheduler_static k a).2
  exact ⟨h1, h2, h3, h4, h5, h6⟩

theorem scheduler_frame_witness :
    (scheduler mainFirst).1 = some 0 ∧ (mainFirst.heap 0).user_task = 0 ∧
    (scheduler mainFirst).2.heap = mainFirst.heap ∧
    (scheduler threeTasks).2.readyQueue = threeTasks.readyQueue :=
  ⟨by decide, by decide, (scheduler_frame mainFirst).1 0 (by decide) (by decide),
    (scheduler_frame threeTasks).2.1⟩

/-- A timer tick that finds the Preemption Gate disabled forces no yield. -/
theorem interrupt_handler_gate_closed (k : Kernel) (h : k.preemption = false) :
    (interrupt_handler k).2 = false := by
  by_cases hu : (k.heap k.taskExec).user_task = 0
  · simp [interrupt_handler, hu]
  · simp [interrupt_handler, hu, PPOS_IS_PREEMPT_ACTIVE, h]

/-- C36: `scheduler` closes the Preemption Gate at entry: the first state
inside the function is the entry state with the gate disabled, and in every
state inside the function, on both paths, the gate is disabled, so that a timer
tick arriving there forces no yield. It returns with the gate enabled whatever
the state of the gate at entry (on the empty ready queue the returned state is
the entry state with the gate enabled); the gate being a flag and not a
counter, a call made with the gate already disabled gives the same result. -/
theorem scheduler_gate (k : Kernel) :
    (schedulerSteps k).2.1.head? = some (PPOS_PREEMPT_DISABLE k) ∧
    (∀ s ∈ (schedulerSteps k).2.1,
      PPOS_IS_PREEMPT_ACTIVE s = false ∧ (interrupt_handler s).2 = false) ∧
    (scheduler k).2 = (schedulerSteps k).2.2 ∧
    PPOS_IS_PREEMPT_ACTIVE (scheduler k).2 = true ∧
    (k.readyQueue = [] → scheduler k = (none, { k with preemption := true })) ∧
    scheduler (PPOS_PREEMPT_DISABLE k) = scheduler k := by
  have hsteps : (schedulerSteps k).2.1.head? = some (PPOS_PREEMPT_DISABLE k) ∧
      ∀ s ∈ (schedulerSteps k).2.1, s.preemption = false := by
    cases hq : k.readyQueue with
    | nil =>
        simp only [schedulerSteps, PPOS_PREEMPT_DISABLE, hq]
        exact ⟨rfl, by simp⟩
    | cons head rest =>
        simp only [schedulerSteps, PPOS_PREEMPT_DISABLE, hq]
        split_ifs
        · refine ⟨rfl, ?_⟩
          intro s hs
          simp only [List.mem_cons, List.mem_singleton, List.not_mem_nil, or_false] at hs
          rcases hs with h | h | h <;> rw [h]
        · exact ⟨rfl, by simp⟩
  have hret : PPOS_IS_PREEMPT_ACTIVE (scheduler k).2 = true := by
    cases hq : k.readyQueue with
    | nil => rw [scheduler_nil k hq]; rfl
    | cons head rest => rw [scheduler_cons k head rest hq]; rfl
  refine ⟨hsteps.1, ?_, rfl, hret, ?_, ?_⟩
  · intro s hs
    exact ⟨hsteps.2 s hs, interrupt_handler_gate_closed s (hsteps.2 s hs)⟩
  · intro hq
    rw [scheduler_nil k hq]
    rfl
  · cases hq : k.readyQueue with
    | nil =>
        rw [scheduler_nil k hq, scheduler_nil (PPOS_PREEMPT_DISABLE k) hq]
        rfl
    | cons head rest =>
        rw [scheduler_cons k head rest hq, scheduler_cons (PPOS_PREEMPT_DISABLE k) head rest hq]
        rfl

theorem scheduler_gate_witness :
    PPOS_IS_PREEMPT_ACTIVE taskARunning = true ∧
    (interrupt_handler taskARunning).2 = true ∧
    (schedulerSteps taskARunning).2.1.length = 3 ∧
    (∀ s ∈ (schedulerSteps taskARunning).2.1,
      PPOS_IS_PREEMPT_ACTIVE s = false ∧ (interrupt_handler s).2 = false) ∧
    PPOS_IS_PREEMPT_ACTIVE (scheduler taskARunning).2 = true ∧
    PPOS_IS_PREEMPT_ACTIVE noReadyTask = false ∧
    PPOS_IS_PREEMPT_ACTIVE (scheduler noReadyTask).2 = true :=
  ⟨by decide, by decide, by decide, (scheduler_gate taskARunning).2.1,
    (scheduler_gate taskARunning).2.2.2.1, by decide, (scheduler_gate noReadyTask).2.2.2.1⟩

/-- C37: if every task satisfies `-20 ≤ dynamic ≤ static ≤ 20`, then every task
satisfies it after `after_task_create`, after `task_setprio` with any integer
argument, and after `scheduler` on any ready queue. -/
theorem priority_range_invariant (k : Kernel)
    (h : ∀ a, prioInRange (k.heap a)) :
    (∀ task a, prioInRange ((after_task_create k task).heap a)) ∧
    (∀ task prio a, prioInRange ((task_setprio k task prio).heap a)) ∧
    (∀ q a, prioInRange ((scheduler { k with readyQueue := q }).2.heap a)) := by
  refine ⟨?_, ?_, ?_⟩
  · intro task a
    by_cases ha : a = task
    · subst ha
      simp only [after_task_create, PPOS_PREEMPT_ENABLE, Function.update_same, prioInRange,
        PRIORITY_DEF]
      omega
    · simp only [after_task_create, PPOS_PREEMPT_ENABLE, Function.update_noteq ha]
      exact h a
  · intro task prio a
    have hclamp : ∀ t, prioInRange
        { { (k.heap t) with
            prio_static := if (if prio < PRIORITY_MAX then PRIORITY_MAX else prio) > PRIORITY_MIN
              then PRIORITY_MIN else (if prio < PRIORITY_MAX then PRIORITY_MAX else prio) } with
          prio_dynamic := if (if prio < PRIORITY_MAX then PRIORITY_MAX else prio) > PRIORITY_MIN
              then PRIORITY_MIN else (if prio < PRIORITY_MAX then PRIORITY_MAX else prio) } := by
      intro t
      simp only [prioInRange, PRIORITY_MAX, PRIORITY_MIN]
      split_ifs <;> omega
    cases task with
    | none =>
        by_cases ha : a = k.taskExec
        · subst ha
          simp only [task_setprio, Function.update_same]
          exact hclamp _
        · simp only [task_setprio, Function.update_noteq ha]
          exact h a
    | some t =>
        by_cases ha : a = t
        · subst ha
          simp only [task_setprio, Function.update_same]
          exact hclamp _
        · simp only [task_setprio, Function.update_noteq ha]
          exact h a
  · intro q a
    exact scheduler_range { k with readyQueue := q } a (h a)

theorem priority_range_invariant_witness :
    (∀ a, prioInRange (threeTasks.heap a)) ∧
    prioInRange ((task_setprio threeTasks (some 1) 77).heap 1) ∧
    ((task_setprio threeTasks (some 1) 77).heap 1).prio_static = 20 ∧
    prioInRange ((scheduler { threeTasks with readyQueue := [2, 1] }).2.heap 2) :=
  have h : ∀ a, prioInRange (threeTasks.heap a) := by
    intro a
    simp only [threeTasks, mkTask, prioInRange]
    split_ifs <;> decide
  ⟨h, (priority_range_invariant threeTasks h).2.1 (some 1) 77 1, by decide,
    (priority_range_invariant threeTasks h).2.2 [2, 1] 2⟩

/-- C38: for a ready task `t` with dynamic priority `p` in `[-20, 20]`, after
`n` consecutive scheduler calls that each select a user task other than `t`,
`t` staying in the ready queue, the dynamic priority of `t` is
`max (p - n) (-20)`: above -20 for `n < p + 20`, equal to -20 from `n = p + 20`
on. A call that selects a system task leaves the task control block of `t` as
it was. -/
theorem aging_exact_trajectory (k : Kernel) (t : Nat) (qs : List (List Nat))
    (hp : -20 ≤ (k.heap t).prio_dynamic ∧ (k.heap t).prio_dynamic ≤ 20)
    (hrun : agedInEveryCycle t k qs = true) :
    ((schedulerRun k qs).heap t).prio_dynamic =
      max ((k.heap t).prio_dynamic - (qs.length : Int)) (-20) ∧
    ((qs.length : Int) < (k.heap t).prio_dynamic + 20 →
      -20 < ((schedulerRun k qs).heap t).prio_dynamic) ∧
    ((k.heap t).prio_dynamic + 20 ≤ (qs.length : Int) →
      ((schedulerRun k qs).heap t).prio_dynamic = -20) ∧
    (∀ (k2 : Kernel) (b : Nat), (scheduler k2).1 = some b → (k2.heap b).user_task = 0 →
      (scheduler k2).2.heap t = k2.heap t) := by
  have h := aging_trajectory t qs k hp.1 hrun
  refine ⟨h, ?_, ?_, ?_⟩
  · intro hlt
    rw [h]
    exact lt_max_of_lt_left (by omega)
  · intro hge
    rw [h]
    exact max_eq_right (by omega)
  · intro k2 b hsel hu
    rw [scheduler_heap_system k2 b hsel hu]

theorem aging_exact_trajectory_witness :
    (-20 ≤ (urgentAndLate.heap 1).prio_dynamic ∧ (urgentAndLate.heap 1).prio_dynamic ≤ 20) ∧
    agedInEveryCycle 1 urgentAndLate [[0, 1], [0, 1]] = true ∧
    (urgentAndLate.heap 1).prio_dynamic + 20 = 2 ∧
    ((schedulerRun urgentAndLate [[0, 1], [0, 1]]).heap 1).prio_dynamic = -20 ∧
    agedInEveryCycle 1 urgentAndLate [[0, 1]] = true ∧
    -20 < ((schedulerRun urgentAndLate [[0, 1]]).heap 1).prio_dynamic :=
  ⟨by decide, by decide, by decide,
    (aging_exact_trajectory urgentAndLate 1 [[0, 1], [0, 1]] (by decide) (by decide)).2.2.1
      (by decide),
    by decide,
    (aging_exact_trajectory urgentAndLate 1 [[0, 1]] (by decide) (by decide)).2.1 (by decide)⟩

/-! ## Lemmas: timer ticks while a user task runs -/

/-- One tick on a running user task whose quantum is an `int` above
`-2147483648`: the task keeps running, stays a user task, loses one unit of
quantum, and a yield is forced exactly when the quantum reaches `≤ 0` with the
gate enabled. -/
theorem tick_user (k : Kernel) (gate : Bool) (hu : (k.heap k.taskExec).user_task ≠ 0)
    (hlo : -2147483648 < (k.heap k.taskExec).quantum)
    (hhi : (k.heap k.taskExec).quantum ≤ 2147483647) :
    (interrupt_handler { k with preemption := gate }).1.taskExec = k.taskExec ∧
    ((interrupt_handler { k with preemption := gate }).1.heap k.taskExec).user_task =
      (k.heap k.taskExec).user_task ∧
    ((interrupt_handler { k with preemption := gate }).1.heap k.taskExec).quantum =
      (k.heap k.taskExec).quantum - 1 ∧
    ((interrupt_handler { k with preemption := gate }).2 = true ↔
      ((k.heap k.taskExec).quantum - 1 ≤ 0 ∧ gate = true)) := by
  have hw : wrapInt ((k.heap k.taskExec).quantum - 1) = (k.heap k.taskExec).quantum - 1 :=
    wrapInt_id _ (by omega) (by omega)
  by_cases hq : (k.heap k.taskExec).quantum - 1 ≤ 0
  · cases gate <;> simp [interrupt_handler, hu, PPOS_IS_PREEMPT_ACTIVE, hq, hw]
  · cases gate <;> simp [interrupt_handler, hu, PPOS_IS_PREEMPT_ACTIVE, hq, hw]

/-- One tick with the gate disabled forces no yield, whatever the quantum. -/
theorem tick_gate_disabled (k : Kernel) (hu : (k.heap k.taskExec).user_task ≠ 0) :
    (interrupt_handler { k with preemption := false }).1.taskExec = k.taskExec ∧
    ((interrupt_handler { k with preemption := false }).1.heap k.taskExec).user_task =
      (k.heap k.taskExec).user_task ∧
    (interrupt_handler { k with preemption := false }).2 = false := by
  simp [interrupt_handler, hu, PPOS_IS_PREEMPT_ACTIVE]

/-- After ticks that keep the quantum on the `int` range, whatever the gate,
the quantum has lost one unit per tick. -/
theorem tickRun_quantum :
    ∀ (gates : List Bool) (k : Kernel), (k.heap k.taskExec).user_task ≠ 0 →
      (k.heap k.taskExec).quantum ≤ 2147483647 →
      -2147483648 ≤ (k.heap k.taskExec).quantum - (gates.length : Int) →
      ((tickRun k gates).heap k.taskExec).quantum =
        (k.heap k.taskExec).quantum - (gates.length : Int) := by
  intro gates
  induction gates with
  | nil => intro k _ _ _; simp [tickRun]
  | cons g rest ih =>
      intro k hu hhi hlo
      simp only [List.length_cons, Nat.cast_add, Nat.cast_one] at hlo
      have hnn : (0 : Int) ≤ (rest.length : Int) := Int.natCast_nonneg _
      obtain ⟨h1, h2, h3, _⟩ := tick_user k g hu (by omega) hhi
      have hu2 : ((interrupt_handler { k with preemption := g }).1.heap
          (interrupt_handler { k with preemption := g }).1.taskExec).user_task ≠ 0 := by
        rw [h1, h2]; exact hu
      have h := ih (interrupt_handler { k with preemption := g }).1 hu2
        (by rw [h1, h3]; omega) (by rw [h1, h3]; omega)
      rw [h1] at h
      simp only [tickRun, List.length_cons, Nat.cast_add, Nat.cast_one]
      rw [h, h3]
      omega

/-- With the gate disabled at every tick no yield is forced. -/
theorem yieldForced_gate_disabled :
    ∀ (gates : List Bool) (k : Kernel), (k.heap k.taskExec).user_task ≠ 0 →
      (∀ g ∈ gates, g = false) → yieldForced k gates = false := by
  intro gates
  induction gates with
  | nil => intro k _ _; rfl
  | cons g rest ih =>
      intro k hu hall
      have hg : g = false := hall g (List.mem_cons_self _ _)
      subst hg
      obtain ⟨h1, h2, h3⟩ := tick_gate_disabled k hu
      have hu2 : ((interrupt_handler { k with preemption := false }).1.heap
          (interrupt_handler { k with preemption := false }).1.taskExec).user_task ≠ 0 := by
        rw [h1, h2]; exact hu
      simp only [yieldForced, h3, Bool.false_or]
      exact ih _ hu2 (fun x hx => hall x (List.mem_cons_of_mem _ hx))

/-- With the gate enabled at every tick a yield is forced exactly when the
ticks are at least as many as the quantum. -/
theorem yieldForced_gate_enabled :
    ∀ (gates : List Bool) (k : Kernel), (k.heap k.taskExec).user_task ≠ 0 →
      -2147483648 < (k.heap k.taskExec).quantum →
      (k.heap k.taskExec).quantum ≤ 2147483647 →
      (∀ g ∈ gates, g = true) →
      (yieldForced k gates = true ↔
        (1 ≤ gates.length ∧ (k.heap k.taskExec).quantum ≤ (gates.length : Int))) := by
  intro gates
  induction gates with
  | nil => intro k _ _ _ _; simp [yieldForced]
  | cons g rest ih =>
      intro k hu hlo hhi hall
      obtain ⟨h1, h2, h3, h4⟩ := tick_user k g hu hlo hhi
      have hg : g = true := hall g (List.mem_cons_self _ _)
      have hu2 : ((interrupt_handler { k with preemption := g }).1.heap
          (interrupt_handler { k with preemption := g }).1.taskExec).user_task ≠ 0 := by
        rw [h1, h2]; exact hu
      have h5 : (interrupt_handler { k with preemption := g }).2 = true ↔
          (k.heap k.taskExec).quantum - 1 ≤ 0 := by
        rw [h4]; exact ⟨fun h => h.1, fun h => ⟨h, hg⟩⟩
      have hnn : (0 : Int) ≤ (rest.length : Int) := Int.natCast_nonneg _
      simp only [yieldForced, Bool.or_eq_true, List.length_cons, Nat.cast_add, Nat.cast_one]
      rw [h5]
      by_cases hq : (k.heap k.taskExec).quantum - 1 ≤ 0
      · constructor
        · intro _
          constructor <;> omega
        · intro _
          exact Or.inl hq
      · have hrest := ih (interrupt_handler { k with preemption := g }).1 hu2
          (by rw [h1, h3]; omega) (by rw [h1, h3]; omega)
          (fun x hx => hall x (List.mem_cons_of_mem _ hx))
        rw [h1, h3] at hrest
        rw [hrest]
        constructor
        · rintro (h | ⟨_, h⟩)
          · exact absurd h hq
          · constructor <;> omega
        · rintro ⟨_, h⟩
          exact Or.inr ⟨by omega, by omega⟩

/-- `after_task_switch` on a user task leaves it a user task with a quantum of
20 and does not change the running task. -/
theorem after_task_switch_user (k : Kernel) (t : Nat) (hu : (k.heap t).user_task ≠ 0) :
    (after_task_switch k (some t)).taskExec = k.taskExec ∧
    ((after_task_switch k (some t)).heap t).user_task = (k.heap t).user_task ∧
    ((after_task_switch k (some t)).heap t).quantum = 20 := by
  simp [after_task_switch, hu, PPOS_PREEMPT_ENABLE, QUANTUM_SIZE]

/-! ## Theorems: quantum invariant and progress of the disk schedulers -/

/-- C31, as stated, fails: after the hand-off-in of the user task A its quantum
is 20; with the Preemption Gate disabled during the next 21 ticks no yield is
forced and the quantum is -1. -/
theorem quantum_below_zero_without_yield :
    taskARunning.taskExec = 0 ∧ (taskARunning.heap 0).user_task ≠ 0 ∧
    ((after_task_switch taskARunning (some 0)).heap 0).quantum = 20 ∧
    yieldForced (after_task_switch taskARunning (some 0)) (List.replicate 21 false) = false ∧
    ((tickRun (after_task_switch taskARunning (some 0)) (List.replicate 21 false)).heap
      0).quantum = -1 := by
  have hu : (taskARunning.heap 0).user_task ≠ 0 := by decide
  obtain ⟨h1, h2, h3⟩ := after_task_switch_user taskARunning 0 hu
  have he : (after_task_switch taskARunning (some 0)).taskExec = 0 := h1
  have hu2 : ((after_task_switch taskARunning (some 0)).heap
      (after_task_switch taskARunning (some 0)).taskExec).user_task ≠ 0 := by
    rw [he, h2]; exact hu
  refine ⟨rfl, hu, h3, ?_, ?_⟩
  · exact yieldForced_gate_disabled _ _ hu2 (fun g hg => (List.mem_replicate.mp hg).2)
  · have h := tickRun_quantum (List.replicate 21 false) _ hu2
      (by rw [he, h3]; decide) (by rw [he, h3]; simp)
    rw [he, h3] at h
    rw [h]
    simp

/-- C31, amended: immediately after the hand-off-in of a running user task its
quantum is 20; after any sequence of at most 2147483668 ticks (as many as keep
the quantum on the `int` range), whatever the state of the gate at each tick,
the quantum has decreased by exactly one per tick. When the gate is enabled
at every tick, the quantum is above zero as long as no yield has been forced,
and the yield is forced exactly from the 20th tick on, where the quantum is 0.
When the gate is disabled at every tick no yield is forced, and from the 21st
tick the quantum is below zero. -/
theorem quantum_invariant (k : Kernel) (t : Nat) (gates : List Bool)
    (hexec : k.taskExec = t) (hu : (k.heap t).user_task ≠ 0) :
    ((after_task_switch k (some t)).heap t).quantum = 20 ∧
    (gates.length ≤ 2147483668 →
      ((tickRun (after_task_switch k (some t)) gates).heap t).quantum =
        20 - (gates.length : Int)) ∧
    ((∀ g ∈ gates, g = true) →
      (yieldForced (after_task_switch k (some t)) gates = true ↔ 20 ≤ gates.length)) ∧
    ((∀ g ∈ gates, g = true) → yieldForced (after_task_switch k (some t)) gates = false →
      0 < ((tickRun (after_task_switch k (some t)) gates).heap t).quantum) ∧
    ((∀ g ∈ gates, g = false) →
      yieldForced (after_task_switch k (some t)) gates = false) ∧
    ((∀ g ∈ gates, g = false) → 20 < gates.length → gates.length ≤ 2147483668 →
      ((tickRun (after_task_switch k (some t)) gates).heap t).quantum < 0) := by
  obtain ⟨h1, h2, h3⟩ := after_task_switch_user k t hu
  have he : (after_task_switch k (some t)).taskExec = t := by rw [h1, hexec]
  have hu2 : ((after_task_switch k (some t)).heap
      (after_task_switch k (some t)).taskExec).user_task ≠ 0 := by
    rw [he, h2]; exact hu
  have hq : gates.length ≤ 2147483668 →
      ((tickRun (after_task_switch k (some t)) gates).heap t).quantum =
        20 - (gates.length : Int) := by
    intro hlen
    have h := tickRun_quantum gates _ hu2 (by rw [he, h3]; decide) (by rw [he, h3]; omega)
    rw [he, h3] at h
    exact h
  have hy : (∀ g ∈ gates, g = true) →
      (yieldForced (after_task_switch k (some t)) gates = true ↔ 20 ≤ gates.length) := by
    intro hall
    have h := yieldForced_gate_enabled gates _ hu2 (by rw [he, h3]; decide)
      (by rw [he, h3]; decide) hall
    rw [he, h3] at h
    rw [h]
    constructor
    · rintro ⟨_, h⟩; omega
    · intro h; constructor <;> omega
  refine ⟨h3, hq, hy, ?_, ?_, ?_⟩
  · intro hall hno
    have hlt : ¬ 20 ≤ gates.length := by
      intro h
      rw [(hy hall).mpr h] at hno
      exact absurd hno (by decide)
    rw [hq (by omega)]
    omega
  · intro hall
    exact yieldForced_gate_disabled gates _ hu2 hall
  · intro _ hlong hlen
    rw [hq hlen]
    omega

theorem quantum_invariant_witness :
    taskARunning.taskExec = 0 ∧ (taskARunning.heap 0).user_task ≠ 0 ∧
    ((tickRun (after_task_switch taskARunning (some 0)) [true, false, true]).heap 0).quantum =
      20 - (([true, false, true] : List Bool).length : Int) ∧
    yieldForced (after_task_switch taskARunning (some 0)) (List.replicate 20 true) = true ∧
    yieldForced (after_task_switch taskARunning (some 0)) (List.replicate 30 false) = false ∧
    ((tickRun (after_task_switch taskARunning (some 0)) (List.replicate 30 false)).heap
      0).quantum < 0 :=
  ⟨by decide, by decide,
    (quantum_invariant taskARunning 0 [true, false, true] (by decide) (by decide)).2.1
      (by decide),
    ((quantum_invariant taskARunning 0 (List.replicate 20 true) (by decide) (by decide)).2.2.1
      (fun g hg => (List.mem_replicate.mp hg).2)).mpr (by simp),
    (quantum_invariant taskARunning 0 (List.replicate 30 false) (by decide)
      (by decide)).2.2.2.2.1 (fun g hg => (List.mem_replicate.mp hg).2),
    (quantum_invariant taskARunning 0 (List.replicate 30 false) (by decide)
      (by decide)).2.2.2.2.2 (fun g hg => (List.mem_replicate.mp hg).2) (by simp) (by simp)⟩

/-- Within the block range `sstf_scheduler` selects a request. -/
theorem sstf_some (s : DiskState)
    (hne : s.disk.requestQueue ≠ [])
    (hnum : s.disk.numBlocks ≤ INT_MAX)
    (hhead : 0 ≤ s.perf_tracker.current_head_position ∧
      s.perf_tracker.current_head_position < s.disk.numBlocks)
    (hblocks : ∀ q ∈ s.disk.requestQueue, 0 ≤ q.block ∧ q.block < s.disk.numBlocks) :
    ∃ i, sstf_scheduler s = some i := by
  cases hq : s.disk.requestQueue with
  | nil => exact absurd hq hne
  | cons c rest =>
      rw [hq] at hblocks
      have hex : ∃ r ∈ c :: rest, (fun _ : diskrequest_t => true) r = true ∧
          (fun r : diskrequest_t =>
            c_abs (wrapInt (r.block - s.perf_tracker.current_head_position))) r < INT_MAX := by
        refine ⟨c, List.mem_cons_self _ _, rfl, ?_⟩
        have h := seek_distance_exact _ c.block _ hnum
          (hblocks c (List.mem_cons_self _ _)) hhead
        show c_abs (wrapInt (c.block - s.perf_tracker.current_head_position)) < INT_MAX
        rw [h.1]; exact h.2.1
      obtain ⟨j, r, hres, _⟩ := (scanMin_spec _ _ (c :: rest) 0 none INT_MAX).2 hex
      exact ⟨0 + j, by simp only [sstf_scheduler, hq, sstf_loop_eq]; exact hres⟩

/-- C39: on a non-empty pending queue with all blocks and the head in
`[0, numBlocks)` and `numBlocks ≤ INT_MAX`, `sstf_scheduler` and
`cscan_scheduler` do not return NULL, the signed differences they compute are
exact (no overflow, `abs` included), and with the device free
`processNewRequests` issues a command and takes one request out of the
queue. -/
theorem schedulers_progress_in_range (s : DiskState)
    (hne : s.disk.requestQueue ≠ [])
    (hnum : s.disk.numBlocks ≤ INT_MAX)
    (hhead : 0 ≤ s.perf_tracker.current_head_position ∧
      s.perf_tracker.current_head_position < s.disk.numBlocks)
    (hblocks : ∀ q ∈ s.disk.requestQueue, 0 ≤ q.block ∧ q.block < s.disk.numBlocks) :
    sstf_scheduler s ≠ none ∧ cscan_scheduler s ≠ none ∧
    (∀ q ∈ s.disk.requestQueue,
      wrapInt (q.block - s.perf_tracker.current_head_position) =
        q.block - s.perf_tracker.current_head_position ∧
      c_abs (wrapInt (q.block - s.perf_tracker.current_head_position)) =
        |q.block - s.perf_tracker.current_head_position| ∧
      |q.block - s.perf_tracker.current_head_position| < INT_MAX) ∧
    (s.disk.livre ≠ 0 →
      ∃ call, (processNewRequests s).2 = some call ∧
        (processNewRequests s).1.disk.requestQueue.length + 1 =
          s.disk.requestQueue.length) := by
  refine ⟨?_, ?_, ?_, ?_⟩
  · obtain ⟨i, hi⟩ := sstf_some s hne hnum hhead hblocks
    rw [hi]; simp
  · obtain ⟨i, _, hi, _⟩ := cscan_pick s hne hnum hhead hblocks
    rw [hi]; simp
  · intro q hq
    obtain ⟨h1, h2, h3⟩ := seek_distance_exact _ q.block _ hnum (hblocks q hq) hhead
    exact ⟨h3, h1, h2⟩
  · intro hl
    obtain ⟨i, r, hsel, hget⟩ := disk_scheduler_some s hne hnum hhead hblocks
    obtain ⟨d1, d2, _⟩ := processNewRequests_dispatch s i r hl hsel hget
    refine ⟨_, d1, ?_⟩
    rw [d2]
    have := (perm_cons_eraseIdx _ i r hget).length_eq
    simp only [List.length_cons] at this
    omega

theorem schedulers_progress_in_range_witness :
    tiedRequests.disk.requestQueue ≠ [] ∧ tiedRequests.disk.numBlocks ≤ INT_MAX ∧
    sstf_scheduler tiedRequests ≠ none ∧ cscan_scheduler tiedRequests ≠ none ∧
    ∃ call, (processNewRequests tiedRequests).2 = some call ∧
      (processNewRequests tiedRequests).1.disk.requestQueue.length + 1 =
        tiedRequests.disk.requestQueue.length :=
  ⟨by decide, by decide,
    (schedulers_progress_in_range tiedRequests (by decide) (by decide) (by decide)
      (by decide)).1,
    (schedulers_progress_in_range tiedRequests (by decide) (by decide) (by decide)
      (by decide)).2.1,
    (schedulers_progress_in_range tiedRequests (by decide) (by decide) (by decide)
      (by decide)).2.2.2 (by decide)⟩

/-! ## Lemmas: processor-time accounting along the grants of a task -/

/-- One grant of the processor to a user task: hand-off-in at `i`, hand-off-out
at `o`. The interval is added to the processor time unless `i = 0`. -/
theorem grant_step (k : Kernel) (t i o : Nat) (hu : (k.heap t).user_task ≠ 0) :
    ((before_task_switch
        { after_task_switch { k with systemTime := i } (some t) with
          systemTime := o, taskExec := t } none).heap t).user_task = (k.heap t).user_task ∧
    ((before_task_switch
        { after_task_switch { k with systemTime := i } (some t) with
          systemTime := o, taskExec := t } none).heap t).exec_start = (k.heap t).exec_start ∧
    ((before_task_switch
        { after_task_switch { k with systemTime := i } (some t) with
          systemTime := o, taskExec := t } none).heap t).proc_time =
      (if 0 < i then uadd32 (k.heap t).proc_time (usub32 o i) else (k.heap t).proc_time) := by
  by_cases hi : 0 < i
  · simp [before_task_switch, after_task_switch, PPOS_PREEMPT_DISABLE, PPOS_PREEMPT_ENABLE,
      systime, hu, hi]
  · simp [before_task_switch, after_task_switch, PPOS_PREEMPT_DISABLE, PPOS_PREEMPT_ENABLE,
      systime, hu, hi]

theorem grantsOrdered_le : ∀ (gs : List (Nat × Nat)) (lo e : Nat),
    grantsOrdered lo gs e = true → lo ≤ e := by
  intro gs
  induction gs with
  | nil => intro lo e h; simpa [grantsOrdered] using h
  | cons g rest ih =>
      intro lo e h
      simp only [grantsOrdered, Bool.and_eq_true, decide_eq_true_eq] at h
      have := ih g.2 e h.2
      omega

theorem grantsCounted_le_total : ∀ (gs : List (Nat × Nat)),
    grantsCounted gs ≤ grantsTotal gs := by
  intro gs
  induction gs with
  | nil => simp [grantsCounted, grantsTotal]
  | cons g rest ih =>
      simp only [grantsCounted, grantsTotal]
      split_ifs <;> omega

theorem grantsTotal_le : ∀ (gs : List (Nat × Nat)) (lo e : Nat),
    grantsOrdered lo gs e = true → grantsTotal gs ≤ e - lo := by
  intro gs
  induction gs with
  | nil => intro lo e _; simp [grantsTotal]
  | cons g rest ih =>
      intro lo e h
      simp only [grantsOrdered, Bool.and_eq_true, decide_eq_true_eq] at h
      have h1 := ih g.2 e h.2
      have h2 := grantsOrdered_le rest g.2 e h.2
      simp only [grantsTotal]
      omega

/-- Along ordered grants without 32-bit wrap, a user task keeps its class and
its creation tick, and its processor time grows by the intervals of the grants
whose hand-off-in is at a tick `> 0`. -/
theorem grantRun_accounting : ∀ (gs : List (Nat × Nat)) (k : Kernel) (t lo e : Nat),
    (k.heap t).user_task ≠ 0 → grantsOrdered lo gs e = true → e < 4294967296 →
    (k.heap t).proc_time + (e - lo) < 4294967296 →
    ((grantRun k t gs).heap t).user_task = (k.heap t).user_task ∧
    ((grantRun k t gs).heap t).exec_start = (k.heap t).exec_start ∧
    ((grantRun k t gs).heap t).proc_time = (k.heap t).proc_time + grantsCounted gs := by
  intro gs
  induction gs with
  | nil => intro k t lo e _ _ _ _; simp [grantRun, grantsCounted]
  | cons g rest ih =>
      intro k t lo e hu hord he hP
      simp only [grantsOrdered, Bool.and_eq_true, decide_eq_true_eq] at hord
      obtain ⟨⟨h1, h2⟩, h3⟩ := hord
      have hge := grantsOrdered_le rest g.2 e h3
      obtain ⟨s1, s2, s3⟩ := grant_step k t g.1 g.2 hu
      have hsub : usub32 g.2 g.1 = g.2 - g.1 := by unfold usub32; omega
      have hproc : ((before_task_switch
          { after_task_switch { k with systemTime := g.1 } (some t) with
            systemTime := g.2, taskExec := t } none).heap t).proc_time =
          (k.heap t).proc_time + (if 0 < g.1 then g.2 - g.1 else 0) := by
        rw [s3]
        split_ifs
        · rw [hsub]; unfold uadd32; omega
        · rfl
      have hu2 : ((before_task_switch
          { after_task_switch { k with systemTime := g.1 } (some t) with
            systemTime := g.2, taskExec := t } none).heap t).user_task ≠ 0 := by
        rw [s1]; exact hu
      have hP2 : ((before_task_switch
          { after_task_switch { k with systemTime := g.1 } (some t) with
            systemTime := g.2, taskExec := t } none).heap t).proc_time + (e - g.2) <
          4294967296 := by
        rw [hproc]; split_ifs <;> omega
      obtain ⟨r1, r2, r3⟩ := ih _ t g.2 e hu2 h3 he hP2
      simp only [grantRun, grantsCounted]
      refine ⟨r1.trans s1, r2.trans s2, ?_⟩
      rw [r3, hproc]
      omega

/-- A task with id above 1 leaves its creation hook as a user task with no
processor time and the clock value as creation tick. -/
theorem after_task_create_user (k : Kernel) (t : Nat) (hid : 1 < (k.heap t).id) :
    ((after_task_create k t).heap t).user_task ≠ 0 ∧
    ((after_task_create k t).heap t).proc_time = 0 ∧
    ((after_task_create k t).heap t).exec_start = k.systemTime := by
  simp [after_task_create, PPOS_PREEMPT_ENABLE, systime, hid]

/-! ## Theorems: processor-time accounting over the life of a task -/

/-- C32: for every user task (id above 1) created at tick `c`, granted the
processor over alternating hand-off-in / hand-off-out events at non-decreasing
clock values, and terminated at tick `e` below 2^32, the processor time
reported at termination is at most the reported lifetime, which is `e - c`. -/
theorem accounting_bound (k : Kernel) (d : DiskState) (t c e : Nat)
    (grants : List (Nat × Nat))
    (hid : 1 < (k.heap t).id)
    (hord : grantsOrdered c grants e = true)
    (he : e < 4294967296) :
    (lifeReport k d t c grants e).task_total_time = e - c ∧
    (lifeReport k d t c grants e).proc_time ≤ (lifeReport k d t c grants e).task_total_time := by
  obtain ⟨c1, c2, c3⟩ := after_task_create_user { k with systemTime := c } t hid
  have hce := grantsOrdered_le grants c e hord
  have hP : ((after_task_create { k with systemTime := c } t).heap t).proc_time + (e - c) <
      4294967296 := by rw [c2]; omega
  obtain ⟨_, r2, r3⟩ := grantRun_accounting grants _ t c e c1 hord he hP
  have hlife : (lifeReport k d t c grants e).task_total_time = e - c := by
    simp only [lifeReport, after_task_exit, systime]
    rw [r2, c3]
    show usub32 e c = e - c
    unfold usub32; omega
  have hproc : (lifeReport k d t c grants e).proc_time = grantsCounted grants := by
    simp only [lifeReport, after_task_exit]
    rw [r3, c2]; omega
  refine ⟨hlife, ?_⟩
  rw [hlife, hproc]
  exact (grantsCounted_le_total grants).trans (grantsTotal_le grants c e hord)

theorem accounting_bound_witness :
    1 < (bootKernel.heap 5).id ∧ grantsOrdered 3 [(4, 5), (7, 9)] 12 = true ∧
    (lifeReport bootKernel freshDisk 5 3 [(4, 5), (7, 9)] 12).task_total_time = 12 - 3 ∧
    (lifeReport bootKernel freshDisk 5 3 [(4, 5), (7, 9)] 12).proc_time ≤
      (lifeReport bootKernel freshDisk 5 3 [(4, 5), (7, 9)] 12).task_total_time :=
  ⟨by decide, by decide,
    accounting_bound bootKernel freshDisk 5 3 12 [(4, 5), (7, 9)] (by decide) (by decide)
      (by decide)⟩

/-- C33 fails on a hand-off-in at tick 0: for every user task (id above 1) and
every ordered history without 32-bit wrap the reported processor time is the
sum of the intervals of the grants whose hand-off-in is at a tick above 0 only;
the task with id 2 created at tick 0 and granted the processor over the ticks
0 to 5 and 7 to 9 is reported 2 ticks of processor time, while its grants sum
to 7. -/
theorem accounting_skips_grant_at_tick_zero :
    (∀ (k : Kernel) (d : DiskState) (t c e : Nat) (grants : List (Nat × Nat)),
      1 < (k.heap t).id → grantsOrdered c grants e = true → e < 4294967296 →
      (lifeReport k d t c grants e).proc_time = grantsCounted grants) ∧
    (bootKernel.heap 5).id = 2 ∧
    grantsOrdered 0 [(0, 5), (7, 9)] 12 = true ∧
    grantsTotal [(0, 5), (7, 9)] = 7 ∧
    (lifeReport bootKernel freshDisk 5 0 [(0, 5), (7, 9)] 12).proc_time = 2 ∧
    ((grantRun (after_task_create bootKernel 5) 5 [(0, 5)]).heap 5).proc_time = 0 := by
  refine ⟨?_, by decide, by decide, by decide, by decide, by decide⟩
  intro k d t c e grants hid hord he
  obtain ⟨c1, c2, _⟩ := after_task_create_user { k with systemTime := c } t hid
  have hce := grantsOrdered_le grants c e hord
  have hP : ((after_task_create { k with systemTime := c } t).heap t).proc_time + (e - c) <
      4294967296 := by rw [c2]; omega
  obtain ⟨_, _, r3⟩ := grantRun_accounting grants _ t c e c1 hord he hP
  simp only [lifeReport, after_task_exit]
  rw [r3, c2]; omega

/-! ## Lemmas: the wait queue under FCFS -/

/-- Without a signalled completion `processCompletionEvents` changes nothing. -/
theorem processCompletionEvents_idle (s : DiskState) (h : s.disk.sinal = 0) :
    processCompletionEvents s = (s, none) := by
  have hc : ¬ (s.disk.sinal ≠ 0) := fun hn => hn h
  simp only [processCompletionEvents, hc, if_false, sem_up_down]

/-- With a signalled completion `processCompletionEvents` frees the device,
clears the signal and resumes the head of the wait queue. -/
theorem processCompletionEvents_signalled (s : DiskState) (h : s.disk.sinal ≠ 0) :
    (processCompletionEvents s).1.disk.diskQueue = s.disk.diskQueue.tail ∧
    (processCompletionEvents s).2 = s.disk.diskQueue.head? ∧
    (processCompletionEvents s).1.disk.livre = 1 ∧
    (processCompletionEvents s).1.disk.sinal = 0 := by
  cases hq : s.disk.diskQueue <;> simp [processCompletionEvents, h, hq]

/-- The drain keeps the wait queue aligned and resumes the issuer of the
request in flight. -/
theorem processCompletionEvents_aligned (s : DiskState) (inflight : Option diskrequest_t)
    (h : waitQueueAligned s inflight) :
    waitQueueAligned (processCompletionEvents s).1
      (if s.disk.sinal ≠ 0 then none else inflight) ∧
    (∀ t, (processCompletionEvents s).2 = some t →
      inflight.map (fun q => q.task) = some t) := by
  obtain ⟨hp, hq, hbusy, hfree⟩ := h
  by_cases hs : s.disk.sinal = 0
  · rw [processCompletionEvents_idle s hs]
    simp only [hs, ne_eq, not_true_eq_false, if_false]
    exact ⟨⟨hp, hq, hbusy, hfree⟩, fun t ht => absurd ht (by simp)⟩
  · have hl : s.disk.livre = 0 := by
      by_contra hl
      exact hs (hfree hl).2
    obtain ⟨fq, fp, _, _, _, _⟩ := processCompletionEvents_frame s
    obtain ⟨g1, g2, g3, g4⟩ := processCompletionEvents_signalled s hs
    cases hi : inflight with
    | none => exact absurd hi (hbusy hl)
    | some r =>
        rw [hi] at hq
        simp only [expectedWaiters, List.singleton_append] at hq
        simp only [hs, ne_eq, not_false_eq_true, if_true]
        refine ⟨⟨?_, ?_, ?_, ?_⟩, ?_⟩
        · rw [fp]; exact hp
        · rw [g1, hq]
          simp only [expectedWaiters, List.tail_cons, List.nil_append, fq]
        · intro h0; rw [g3] at h0; exact absurd h0 (by decide)
        · intro _; exact ⟨rfl, g4⟩
        · intro t ht
          rw [g2, hq] at ht
          simp only [List.head?_cons, Option.some.injEq] at ht
          simp [ht]

/-- The dispatch keeps the wait queue aligned; the request it issues becomes
the request in flight. -/
theorem processNewRequests_aligned (s : DiskState) (inflight : Option diskrequest_t)
    (h : waitQueueAligned s inflight) :
    waitQueueAligned (processNewRequests s).1
      (match (processNewRequests s).2 with
        | some call => some call.request
        | none => inflight) := by
  obtain ⟨hp, hq, hbusy, hfree⟩ := h
  by_cases hidle : s.disk.livre = 0 ∨ s.disk.requestQueue = []
  · rw [processNewRequests_idle s hidle]
    exact ⟨hp, hq, hbusy, hfree⟩
  · have hl : s.disk.livre ≠ 0 := fun h0 => hidle (Or.inl h0)
    obtain ⟨hnone, hsin⟩ := hfree hl
    cases hrq : s.disk.requestQueue with
    | nil => exact absurd (Or.inr hrq) hidle
    | cons q0 rest =>
        have hsel : disk_scheduler s = some 0 := by
          simp [disk_scheduler, hp, fcfs_scheduler, hrq]
        have hget : s.disk.requestQueue[0]? = some q0 := by simp [hrq]
        obtain ⟨d1, d2, _, d4, _, d6⟩ := processNewRequests_dispatch s 0 q0 hl hsel hget
        obtain ⟨_, _, a3, a4, _⟩ := processNewRequests_accounting s 0 q0 hl hsel hget
        rw [d1]
        refine ⟨d4.trans hp, ?_, ?_, ?_⟩
        · rw [a3, hq, hnone]
          simp only [expectedWaiters, d2, hrq, List.eraseIdx_cons_zero, List.map_cons,
            List.nil_append, List.singleton_append]
        · intro _; simp
        · intro h0; exact absurd d6 h0

/-- One operation keeps the wait queue aligned, a completion being signalled
only by a busy device. -/
theorem diskStep_aligned (s : DiskState) (inflight : Option diskrequest_t) (e : DiskEvent)
    (h : waitQueueAligned s inflight) (hsig : e = .signal → s.disk.livre = 0) :
    waitQueueAligned (diskStep s e) (inFlightAfter s inflight e) := by
  have henq : ∀ (t : Nat) (q : diskrequest_t), q.task = t →
      waitQueueAligned (enqueueAndSuspend s t q) inflight := by
    intro t q hqt
    obtain ⟨hp, hq, hbusy, hfree⟩ := h
    refine ⟨hp, ?_, hbusy, hfree⟩
    show s.disk.diskQueue ++ [t] = _
    rw [hq]
    simp only [expectedWaiters, enqueueAndSuspend, List.map_append, List.map_cons, List.map_nil,
      List.append_assoc, hqt]
  cases e with
  | read t m b buf =>
      simp only [diskStep, inFlightAfter, disk_block_read, createDiskRequest]
      split_ifs
      · exact h
      · exact h
      · exact henq t _ rfl
      · exact h
  | read_resumed => exact h
  | write t m b buf =>
      simp only [diskStep, inFlightAfter, disk_block_write, createDiskRequest]
      split_ifs
      · exact h
      · exact h
      · exact henq t _ rfl
      · exact h
  | write_resumed => exact h
  | signal =>
      obtain ⟨hp, hq, hbusy, hfree⟩ := h
      have hl := hsig rfl
      exact ⟨hp, hq, hbusy, fun h0 => absurd hl h0⟩
  | manager =>
      by_cases hexit : s.system_shutdown_requested ≠ 0 ∧ s.disk.requestQueue = [] ∧
          s.disk.diskQueue = []
      · have hb : bodyDiskManager s = none := by
          simp only [bodyDiskManager]
          rw [if_pos hexit]
        simp only [diskStep, inFlightAfter, hb]
        exact h
      · have hb : bodyDiskManager s =
            some ((processNewRequests (processCompletionEvents s).1).1,
              (processCompletionEvents s).2,
              (processNewRequests (processCompletionEvents s).1).2) := by
          simp only [bodyDiskManager, hexit, if_false]
        simp only [diskStep, inFlightAfter, hb]
        exact processNewRequests_aligned _ _ (processCompletionEvents_aligned s inflight h).1
  | shutdown => exact h

/-- Along a run in which completions are signalled only by a busy device the
wait queue stays aligned and every resumed task is the issuer of the request in
flight. -/
theorem diskRun_aligned : ∀ (events : List DiskEvent) (s : DiskState)
    (inflight : Option diskrequest_t),
    waitQueueAligned s inflight → signalsWhileBusy s events = true →
    waitQueueAligned (diskRun s events) (inFlightRun s inflight events) ∧
    resumesRequester s inflight events = true := by
  intro events
  induction events with
  | nil => intro s inflight h _; exact ⟨h, rfl⟩
  | cons e rest ih =>
      intro s inflight h hsig
      simp only [signalsWhileBusy, Bool.and_eq_true] at hsig
      have hbusy : e = .signal → s.disk.livre = 0 := by
        intro he
        have h1 := hsig.1
        rw [he] at h1
        simpa using h1
      obtain ⟨r1, r2⟩ := ih (diskStep s e) (inFlightAfter s inflight e)
        (diskStep_aligned s inflight e h hbusy) hsig.2
      refine ⟨r1, ?_⟩
      simp only [resumesRequester, Bool.and_eq_true]
      refine ⟨?_, r2⟩
      cases e with
      | manager =>
          simp only [bodyDiskManager]
          split_ifs
          · rfl
          · cases hc : (processCompletionEvents s).2 with
            | none => rfl
            | some t =>
                simp only [decide_eq_true_eq]
                exact (processCompletionEvents_aligned s inflight h).2 t hc
      | _ => rfl

/-- After a successful `disk_mgr_init` with FCFS as default policy the wait
queue is aligned, with nothing in flight. -/
theorem disk_mgr_init_aligned (s : DiskState) (numBlocks blockSize : Bool)
    (dev : init_replies)
    (hok : (disk_mgr_init s numBlocks blockSize (some SCHEDULER_FCFS) dev).ret = some 0) :
    waitQueueAligned (disk_mgr_init s numBlocks blockSize (some SCHEDULER_FCFS) dev).state
      none := by
  simp only [disk_mgr_init, ERROR_INVALID] at hok ⊢
  split_ifs at hok ⊢
  all_goals first
    | (simp at hok; done)
    | simp [waitQueueAligned, expectedWaiters]

/-! ## Theorems: the wait queue under FCFS -/

/-- C40: under the FCFS policy (a successful `disk_mgr_init` with FCFS as
default), in every run of the operations of the disk manager, each requester
appending its request to the pending queue and itself to the wait queue in one
step and the device signalling a completion only while busy, the wait queue is
the issuer of the request in flight followed by the issuers of the pending
requests in order, and every task resumed by the manager is the issuer of the
request in flight, whose completion is drained. -/
theorem fcfs_wait_queue_aligned (s : DiskState) (numBlocks blockSize : Bool)
    (dev : init_replies) (events : List DiskEvent)
    (hok : (disk_mgr_init s numBlocks blockSize (some SCHEDULER_FCFS) dev).ret = some 0)
    (hsig : signalsWhileBusy
      (disk_mgr_init s numBlocks blockSize (some SCHEDULER_FCFS) dev).state events = true) :
    (diskRun (disk_mgr_init s numBlocks blockSize (some SCHEDULER_FCFS) dev).state
        events).disk.diskQueue =
      expectedWaiters
        (diskRun (disk_mgr_init s numBlocks blockSize (some SCHEDULER_FCFS) dev).state events)
        (inFlightRun (disk_mgr_init s numBlocks blockSize (some SCHEDULER_FCFS) dev).state
          none events) ∧
    resumesRequester (disk_mgr_init s numBlocks blockSize (some SCHEDULER_FCFS) dev).state
      none events = true := by
  obtain ⟨r1, r2⟩ := diskRun_aligned events _ none
    (disk_mgr_init_aligned s numBlocks blockSize dev hok) hsig
  exact ⟨r1.2.1, r2⟩

theorem fcfs_wait_queue_aligned_witness :
    (disk_mgr_init farRequest true true (some SCHEDULER_FCFS) goodDevice).ret = some 0 ∧
    signalsWhileBusy
      (disk_mgr_init farRequest true true (some SCHEDULER_FCFS) goodDevice).state
      fcfsEvents = true ∧
    (diskRun (disk_mgr_init farRequest true true (some SCHEDULER_FCFS) goodDevice).state
        fcfsEvents).disk.diskQueue =
      expectedWaiters
        (diskRun (disk_mgr_init farRequest true true (some SCHEDULER_FCFS) goodDevice).state
          fcfsEvents)
        (inFlightRun (disk_mgr_init farRequest true true (some SCHEDULER_FCFS) goodDevice).state
          none fcfsEvents) ∧
    resumesRequester (disk_mgr_init farRequest true true (some SCHEDULER_FCFS) goodDevice).state
      none fcfsEvents = true :=
  ⟨by decide, by decide,
    fcfs_wait_queue_aligned farRequest true true goodDevice fcfsEvents (by decide) (by decide)⟩

/-! ## Lemmas: the states the disk manager reaches -/

theorem wrapInt_range (x : Int) : -2147483648 ≤ wrapInt x ∧ wrapInt x ≤ 2147483647 := by
  unfold wrapInt
  omega

/-- With a request pending, a well-formed state has its head and all its
pending blocks in `[0, numBlocks)`. -/
theorem wellFormedDisk_range (s : DiskState) (h : wellFormedDisk s)
    (hne : s.disk.requestQueue ≠ []) :
    s.disk.numBlocks ≤ INT_MAX ∧
    (0 ≤ s.perf_tracker.current_head_position ∧
      s.perf_tracker.current_head_position < s.disk.numBlocks) ∧
    (∀ q ∈ s.disk.requestQueue, 0 ≤ q.block ∧ q.block < s.disk.numBlocks) := by
  obtain ⟨h1, h2, h3, h4, _, _⟩ := h
  refine ⟨h1, ⟨h2, ?_⟩, h4⟩
  cases hq : s.disk.requestQueue with
  | nil => exact absurd hq hne
  | cons c rest =>
      have hc := h4 c (by rw [hq]; exact List.mem_cons_self _ _)
      rcases h3 with h | h
      · exact h
      · omega

/-- A successful `disk_mgr_init` on a device whose size is an `int` leaves a
well-formed state. -/
theorem disk_mgr_init_wellFormed (s : DiskState) (numBlocks blockSize : Bool)
    (SCHEDULER_DEFAULT : Option Int) (dev : init_replies)
    (hok : (disk_mgr_init s numBlocks blockSize SCHEDULER_DEFAULT dev).ret = some 0)
    (hsize : dev.disk_size ≤ INT_MAX) :
    wellFormedDisk (disk_mgr_init s numBlocks blockSize SCHEDULER_DEFAULT dev).state := by
  simp only [disk_mgr_init, ERROR_INVALID] at hok ⊢
  split_ifs at hok ⊢
  all_goals first
    | (simp at hok; done)
    | exact ⟨hsize, le_refl _, Or.inr rfl, fun q hq => absurd hq (List.not_mem_nil q),
        ⟨show (-2147483648 : Int) ≤ 0 by decide, show (0 : Int) ≤ 2147483647 by decide⟩,
        ⟨show (-2147483648 : Int) ≤ 0 by decide, show (0 : Int) ≤ 2147483647 by decide⟩⟩

theorem processCompletionEvents_wellFormed (s : DiskState) (h : wellFormedDisk s) :
    wellFormedDisk (processCompletionEvents s).1 := by
  obtain ⟨fq, fp, _, fn, _, _⟩ := processCompletionEvents_frame s
  unfold wellFormedDisk
  rw [fq, fp, fn]
  exact h

theorem processNewRequests_wellFormed (s : DiskState) (h : wellFormedDisk s) :
    wellFormedDisk (processNewRequests s).1 := by
  by_cases hidle : s.disk.livre = 0 ∨ s.disk.requestQueue = []
  · rw [processNewRequests_idle s hidle]
    exact h
  · have hl : s.disk.livre ≠ 0 := fun h0 => hidle (Or.inl h0)
    have hne : s.disk.requestQueue ≠ [] := fun h0 => hidle (Or.inr h0)
    obtain ⟨hnum, hhead, hblocks⟩ := wellFormedDisk_range s h hne
    obtain ⟨i, r, hsel, hget⟩ := disk_scheduler_some s hne hnum hhead hblocks
    obtain ⟨_, d2, d3, _, d5, _⟩ := processNewRequests_dispatch s i r hl hsel hget
    obtain ⟨a1, a2, _, _, _⟩ := processNewRequests_accounting s i r hl hsel hget
    have hr : r ∈ s.disk.requestQueue := List.getElem?_mem hget
    unfold wellFormedDisk
    rw [d2, d3, d5, a1, a2]
    refine ⟨hnum, (hblocks r hr).1, Or.inl (hblocks r hr).2, ?_, wrapInt_range _,
      wrapInt_range _⟩
    intro q hq
    exact hblocks q ((perm_cons_eraseIdx _ i r hget).mem_iff.mpr (List.mem_cons_of_mem _ hq))

/-- Every operation of the disk manager keeps the state well-formed: a request
enters the pending queue only through the validation of `disk_block_read` and
`disk_block_write`, and the head moves only to the block of a pending request. -/
theorem diskStep_wellFormed (s : DiskState) (e : DiskEvent) (h : wellFormedDisk s) :
    wellFormedDisk (diskStep s e) := by
  have henq : ∀ (t : Nat) (q : diskrequest_t), ¬ (q.block < 0 ∨ q.block ≥ s.disk.numBlocks) →
      wellFormedDisk (enqueueAndSuspend s t q) := by
    intro t q hq
    obtain ⟨h1, h2, h3, h4, h5, h6⟩ := h
    refine ⟨h1, h2, h3, ?_, h5, h6⟩
    intro x hx
    have hx2 : x ∈ s.disk.requestQueue ++ [q] := hx
    rcases List.mem_append.mp hx2 with hm | hm
    · exact h4 x hm
    · have e : x = q := by simpa using hm
      rw [e]
      show 0 ≤ q.block ∧ q.block < s.disk.numBlocks
      constructor <;> omega
  cases e with
  | read t m b buf =>
      simp only [diskStep, disk_block_read, createDiskRequest]
      split_ifs with h1 h2 h3
      · exact h
      · exact h
      · exact henq t _ h2
      · exact h
  | read_resumed => exact h
  | write t m b buf =>
      simp only [diskStep, disk_block_write, createDiskRequest]
      split_ifs with h1 h2 h3
      · exact h
      · exact h
      · exact henq t _ h2
      · exact h
  | write_resumed => exact h
  | signal => exact h
  | shutdown => exact h
  | manager =>
      by_cases hexit : s.system_shutdown_requested ≠ 0 ∧ s.disk.requestQueue = [] ∧
          s.disk.diskQueue = []
      · have hb : bodyDiskManager s = none := by
          simp only [bodyDiskManager]
          rw [if_pos hexit]
        simp only [diskStep, hb]
        exact h
      · have hb : bodyDiskManager s =
            some ((processNewRequests (processCompletionEvents s).1).1,
              (processCompletionEvents s).2,
              (processNewRequests (processCompletionEvents s).1).2) := by
          simp only [bodyDiskManager, hexit, if_false]
        simp only [diskStep, hb]
        exact processNewRequests_wellFormed _ (processCompletionEvents_wellFormed s h)

theorem diskRun_wellFormed (events : List DiskEvent) :
    ∀ s : DiskState, wellFormedDisk s → wellFormedDisk (diskRun s events) := by
  induction events with
  | nil => intro s h; exact h
  | cons e rest ih =>
      intro s h
      exact ih (diskStep s e) (diskStep_wellFormed s e h)

/-! ## Theorems: CSCAN selection, dispatch order and dispatch step -/

/-- C10: in every state that the disk manager reaches from a successful
`disk_mgr_init` (the device size being an `int`, at most `INT_MAX`) through any
sequence of its operations, for a non-empty pending queue `cscan_scheduler`
returns the position of a pending request `r`; if some pending block is at or
ahead of the head, `r.block` is the smallest such block, otherwise `r.block`
is the smallest pending block. -/
theorem cscan_scheduler_selects (s0 : DiskState) (numBlocks blockSize : Bool)
    (SCHEDULER_DEFAULT : Option Int) (dev : init_replies) (events : List DiskEvent)
    (s : DiskState)
    (hok : (disk_mgr_init s0 numBlocks blockSize SCHEDULER_DEFAULT dev).ret = some 0)
    (hsize : dev.disk_size ≤ INT_MAX)
    (hs : s = diskRun (disk_mgr_init s0 numBlocks blockSize SCHEDULER_DEFAULT dev).state events)
    (hne : s.disk.requestQueue ≠ []) :
    ∃ i r, cscan_scheduler s = some i ∧ s.disk.requestQueue[i]? = some r ∧
      ((∃ q ∈ s.disk.requestQueue, q.block ≥ s.perf_tracker.current_head_position) →
        r.block ≥ s.perf_tracker.current_head_position ∧
        ∀ q ∈ s.disk.requestQueue, q.block ≥ s.perf_tracker.current_head_position →
          r.block ≤ q.block) ∧
      ((¬ ∃ q ∈ s.disk.requestQueue, q.block ≥ s.perf_tracker.current_head_position) →
        ∀ q ∈ s.disk.requestQueue, r.block ≤ q.block) := by
  have hwf : wellFormedDisk s := by
    rw [hs]
    exact diskRun_wellFormed events _
      (disk_mgr_init_wellFormed s0 numBlocks blockSize SCHEDULER_DEFAULT dev hok hsize)
  obtain ⟨hnum, hhead, hblocks⟩ := wellFormedDisk_range s hwf hne
  exact cscan_pick s hne hnum hhead hblocks

theorem cscan_scheduler_selects_witness :
    (disk_mgr_init farRequest true true none goodDevice).ret = some 0 ∧
    goodDevice.disk_size ≤ INT_MAX ∧
    (diskRun freshDisk cscanEvents).disk.requestQueue.map (fun r => r.block) =
      [98, 37, 14, 124, 65, 67] ∧
    (diskRun freshDisk cscanEvents).perf_tracker.current_head_position = 53 ∧
    cscan_scheduler (diskRun freshDisk cscanEvents) = some 4 ∧
    ∃ i r, cscan_scheduler (diskRun freshDisk cscanEvents) = some i ∧
      (diskRun freshDisk cscanEvents).disk.requestQueue[i]? = some r ∧
      ((∃ q ∈ (diskRun freshDisk cscanEvents).disk.requestQueue,
          q.block ≥ (diskRun freshDisk cscanEvents).perf_tracker.current_head_position) →
        r.block ≥ (diskRun freshDisk cscanEvents).perf_tracker.current_head_position ∧
        ∀ q ∈ (diskRun freshDisk cscanEvents).disk.requestQueue,
          q.block ≥ (diskRun freshDisk cscanEvents).perf_tracker.current_head_position →
          r.block ≤ q.block) ∧
      ((¬ ∃ q ∈ (diskRun freshDisk cscanEvents).disk.requestQueue,
          q.block ≥ (diskRun freshDisk cscanEvents).perf_tracker.current_head_position) →
        ∀ q ∈ (diskRun freshDisk cscanEvents).disk.requestQueue, r.block ≤ q.block) :=
  ⟨by decide, by decide, by decide, by decide, by decide,
    cscan_scheduler_selects farRequest true true none goodDevice cscanEvents
      (diskRun freshDisk cscanEvents) (by decide) (by decide) rfl (by decide)⟩

/-- C11: in every state that the disk manager reaches from a successful
`disk_mgr_init` (device size an `int`) through its operations, under CSCAN,
with the device free (or its completion signalled) and no arrival, the manager
issues every pending request once: first the requests with block `≥ h`, the
head position, by ascending block, then the requests with block `< h` by
ascending block. With the head brought to 53 and the blocks 98, 37, 14, 124,
65, 67 pending the order is 65, 67, 98, 124, 14, 37. -/
theorem cscan_dispatch_order (s0 : DiskState) (numBlocks blockSize : Bool)
    (SCHEDULER_DEFAULT : Option Int) (dev : init_replies) (events : List DiskEvent)
    (s : DiskState) (n : Nat)
    (hok : (disk_mgr_init s0 numBlocks blockSize SCHEDULER_DEFAULT dev).ret = some 0)
    (hsize : dev.disk_size ≤ INT_MAX)
    (hs : s = diskRun (disk_mgr_init s0 numBlocks blockSize SCHEDULER_DEFAULT dev).state events)
    (hpol : s.perf_tracker.active_policy = SCHEDULER_CSCAN)
    (hfree : s.disk.livre ≠ 0 ∨ s.disk.sinal ≠ 0)
    (hlen : s.disk.requestQueue.length ≤ n) :
    (∃ fw wr : List diskrequest_t,
      (dispatchRun n s).map (fun c => c.request) = fw ++ wr ∧
      fw.Pairwise (fun a b => a.block ≤ b.block) ∧
      wr.Pairwise (fun a b => a.block ≤ b.block) ∧
      (∀ x ∈ fw, s.perf_tracker.current_head_position ≤ x.block) ∧
      (∀ x ∈ wr, x.block < s.perf_tracker.current_head_position) ∧
      (fw ++ wr).Perm s.disk.requestQueue) ∧
    ((diskRun freshDisk cscanEvents).disk.requestQueue.map (fun r => r.block) =
        [98, 37, 14, 124, 65, 67] ∧
      (diskRun freshDisk cscanEvents).perf_tracker.current_head_position = 53 ∧
      (dispatchRun 6 (diskRun freshDisk cscanEvents)).map (fun c => c.request.block) =
        [65, 67, 98, 124, 14, 37]) := by
  refine ⟨?_, by decide, by decide, by decide⟩
  have hwf : wellFormedDisk s := by
    rw [hs]
    exact diskRun_wellFormed events _
      (disk_mgr_init_wellFormed s0 numBlocks blockSize SCHEDULER_DEFAULT dev hok hsize)
  by_cases hq : s.disk.requestQueue = []
  · refine ⟨[], [], by simp [dispatchRun_empty n s hq], List.Pairwise.nil, List.Pairwise.nil,
      ?_, ?_, ?_⟩
    · intro x hx; exact absurd hx (List.not_mem_nil x)
    · intro x hx; exact absurd hx (List.not_mem_nil x)
    · rw [hq]; exact List.Perm.refl _
  · obtain ⟨hnum, hhead, hblocks⟩ := wellFormedDisk_range s hwf hq
    exact cscan_run_sorted n s hpol hfree hnum hhead hblocks hlen

theorem cscan_dispatch_order_witness :
    (disk_mgr_init farRequest true true none goodDevice).ret = some 0 ∧
    goodDevice.disk_size ≤ INT_MAX ∧
    (diskRun freshDisk cscanEvents).perf_tracker.active_policy = SCHEDULER_CSCAN ∧
    ((diskRun freshDisk cscanEvents).disk.livre ≠ 0 ∨
      (diskRun freshDisk cscanEvents).disk.sinal ≠ 0) ∧
    (diskRun freshDisk cscanEvents).disk.requestQueue.length ≤ 6 ∧
    (∃ fw wr : List diskrequest_t,
      (dispatchRun 6 (diskRun freshDisk cscanEvents)).map (fun c => c.request) = fw ++ wr ∧
      fw.Pairwise (fun a b => a.block ≤ b.block) ∧
      wr.Pairwise (fun a b => a.block ≤ b.block) ∧
      (∀ x ∈ fw, (diskRun freshDisk cscanEvents).perf_tracker.current_head_position ≤ x.block) ∧
      (∀ x ∈ wr, x.block < (diskRun freshDisk cscanEvents).perf_tracker.current_head_position) ∧
      (fw ++ wr).Perm (diskRun freshDisk cscanEvents).disk.requestQueue) :=
  ⟨by decide, by decide, by decide, by decide, by decide,
    (cscan_dispatch_order farRequest true true none goodDevice cscanEvents
      (diskRun freshDisk cscanEvents) 6 (by decide) (by decide) rfl (by decide) (by decide)
      (by decide)).1⟩

end PingPongOS
